import Mathlib

/-!
# Verification of `gno_modeling_simple_acceleration`

A shallow embedding of `src/gno_modeling_simple_acceleration.cpp` (the traffic
simulation engine of `graph_navigator_optimazer`) and theorems about it.

Conventions of the embedding:

* `double` is an arbitrary linearly ordered field `α` together with a square
  root function (a field of `model_constants`); the theorems about exact real
  arithmetic instantiate `α := ℝ` and `sqrt := Real.sqrt`, concrete runs are
  evaluated over `ℚ` and over `ℝ`. Division is the division of the field, with
  `x / 0 = 0`; the predicate `step_defined` says that a step divides by no zero, and
  the theorems about the values of the clock and of the velocities establish it.
* `std::vector` is `List`; `v[i]` is `List.getD` and `v[i] = x` is `List.set`.
  Indices outside the vector are undefined behaviour in the source; the
  embedding reads a default value and ignores the write there.
* The member variables of the engine object form the record
  `gno_modeling_simple_acceleration`; every method takes the record and returns
  the updated record next to its C++ return value.
* `run` takes a fuel argument bounding the number of iterations of its `while`
  loop and returns `none` when the fuel runs out; next to the status code and
  the final record it reports how many times `do_step` was called.
-/

namespace graph

/-- Identifiers of nodes, edges and vehicles (`graph::uid`). -/
abbrev uid := Nat

/-- One vehicle of the initial scenario: declared endpoints and node path. -/
structure vehicle where
  src : uid
  dst : uid
  path : List uid
deriving DecidableEq, Repr

/-- The scenario collaborator (`graph_initial_state_base`): the vehicles by id. -/
structure graph_initial_state_base where
  vehicles : List vehicle
deriving DecidableEq, Repr

/-- The `vehicle_count ()` accessor. -/
def graph_initial_state_base.vehicle_count (i : graph_initial_state_base) : Nat :=
  i.vehicles.length

/-- The `vehicle (veh_id)` accessor. -/
def graph_initial_state_base.vehicle (i : graph_initial_state_base) (veh_id : uid) : vehicle :=
  i.vehicles.getD veh_id ⟨0, 0, []⟩

/-- The graph collaborator (`graph_base`), reduced to the four queries the engine makes. -/
structure graph_base (α : Type) where
  edge_count : Nat
  length : uid → α
  edges : uid → uid → List uid
  edges_ended_on : uid → List uid

/-- The argument of `run` (`graph_initial`): a graph and a scenario. -/
structure graph_initial (α : Type) where
  get_graph : graph_base α
  get_initial_state : graph_initial_state_base

/-- The constants the source takes from headers that are not part of `src/`:
`graph::A_MAX`, `graph::V_MAX`, the tolerance of `fuzzy_eq`, and the library
function `sqrt`. They are parameters of every definition below. -/
structure model_constants (α : Type) where
  A_MAX : α
  V_MAX : α
  eps : α
  sqrt : α → α

/-- Per-vehicle discrete state (`vehicle_discrete_state`). -/
structure vehicle_discrete_state (α : Type) where
  edge_uid : uid
  part : α
  node_num : Nat
deriving DecidableEq, Repr

/-- The member variables of the engine object. -/
structure gno_modeling_simple_acceleration (α : Type) where
  m_t : α
  m_states : List (vehicle_discrete_state α)
  m_finished : List Nat
  m_veh_on_edge : List Int
  m_velocities : List α
  m_accelerations : List α
deriving DecidableEq, Repr

section engine

variable {α : Type} [LinearOrderedField α]

/-- Modelled from the spec: `fuzzy_eq` is declared in a header outside `src/`; the
spec describes it as a fuzzy-equals predicate with a fixed small epsilon, i.e.
the two numbers differ by less than the tolerance. -/
def fuzzy_eq (c : model_constants α) (a b : α) : Bool :=
  decide (|a - b| < c.eps)

/-- Modelled from the spec: the status macro `OK` is declared in a header outside
`src/`; a status is a success when it is not negative (`do_step` only returns
`0` and `-1`). -/
def OK (status : Int) : Bool :=
  decide (0 ≤ status)

/-- Modelled from the spec: `find_critical_time` is defined outside `src/`; the
spec treats the call as a bookkeeping hook without effect on the engine state. -/
def find_critical_time (s : gno_modeling_simple_acceleration α) :
    gno_modeling_simple_acceleration α :=
  s

/-- The value a `std::vector::resize` appends: a value-initialised
`vehicle_discrete_state`. -/
def vehicle_discrete_state.zero : vehicle_discrete_state α :=
  ⟨0, 0, 0⟩

/-- The call `std::vector::resize (n)`: keep the first `n` elements, pad with `d`. -/
def resize {β : Type} (v : List β) (n : Nat) (d : β) : List β :=
  v.take n ++ List.replicate (n - v.length) d

/-- Reading `m_veh_on_edge[e]`. -/
def occupancy (m_veh_on_edge : List Int) (e : uid) : Int :=
  m_veh_on_edge.getD e 0

/-- One iteration of the edge-selection loop (lines 47-49 and 186-188):
replace the best edge so far only on a strictly smaller occupancy. -/
def choose_step (m_veh_on_edge : List Int) (next_edge edge_uid : uid) : uid :=
  if occupancy m_veh_on_edge edge_uid < occupancy m_veh_on_edge next_edge then edge_uid
  else next_edge

/-- The edge-selection loop (lines 44-50 of `run`, repeated verbatim at lines
183-189 of `do_step`): start from `edges[0]` and scan `edges[1..]`. -/
def choose_edge (m_veh_on_edge : List Int) (edges : List uid) : uid :=
  (edges.drop 1).foldl (choose_step m_veh_on_edge) (edges.getD 0 0)

/-- The statement `m_veh_on_edge[e] ++`. -/
def incr (m_veh_on_edge : List Int) (e : uid) : List Int :=
  m_veh_on_edge.set e (occupancy m_veh_on_edge e + 1)

/-- The statement `m_veh_on_edge[e] --`. -/
def decr (m_veh_on_edge : List Int) (e : uid) : List Int :=
  m_veh_on_edge.set e (occupancy m_veh_on_edge e - 1)

/-- The vehicle loop of `run` (lines 24-57) over the vehicle ids still to be
visited; returns `0` when the loop runs to its end and the error code of the
failing check otherwise. -/
def init_loop (ini : graph_initial α) :
    List uid → gno_modeling_simple_acceleration α → Int × gno_modeling_simple_acceleration α
  | [], s => (0, s)
  | veh_id :: rest, s =>
    let path := (ini.get_initial_state.vehicle veh_id).path
    if path.length < 2 then (-1, s)
    else if path.getD 0 0 ≠ (ini.get_initial_state.vehicle veh_id).src then (-2, s)
    else if path.getD (path.length - 1) 0 ≠ (ini.get_initial_state.vehicle veh_id).dst then (-3, s)
    else
      let edges := ini.get_graph.edges (path.getD 0 0) (path.getD 1 0)
      if edges.length = 0 then (-4, s)
      else
        let next_edge := choose_edge s.m_veh_on_edge edges
        init_loop ini rest
          { s with
            m_veh_on_edge := incr s.m_veh_on_edge next_edge
            m_states := s.m_states.set veh_id ⟨next_edge, 0, 0⟩ }

/-- Lines 12-22 of `run`: the assignments made before the vehicle loop. -/
def reset (c : model_constants α) (ini : graph_initial α)
    (s : gno_modeling_simple_acceleration α) : gno_modeling_simple_acceleration α :=
  let veh_count := ini.get_initial_state.vehicle_count
  { m_t := 0
    m_states := resize s.m_states veh_count vehicle_discrete_state.zero
    m_finished := List.replicate veh_count 0
    m_veh_on_edge := List.replicate ini.get_graph.edge_count 0
    m_velocities := List.replicate veh_count 0
    m_accelerations := List.replicate veh_count c.A_MAX }

/-- Lines 9-59 of `run`: everything before the `while` loop. -/
def initialize_run (c : model_constants α) (ini : graph_initial α)
    (s : gno_modeling_simple_acceleration α) : Int × gno_modeling_simple_acceleration α :=
  let r := init_loop ini (List.range ini.get_initial_state.vehicle_count) (reset c ini s)
  if r.1 = 0 then (0, find_critical_time r.2) else r

/-- The value of the local `is_finish` at line 91 of `is_finished`: `part` is fuzzily
equal to 1 and the current edge is found among the edges ending at the destination. -/
def is_finish (c : model_constants α) (ini : graph_initial α)
    (s : gno_modeling_simple_acceleration α) (veh_id : uid) : Bool :=
  fuzzy_eq c (s.m_states.getD veh_id vehicle_discrete_state.zero).part 1 &&
    decide ((s.m_states.getD veh_id vehicle_discrete_state.zero).edge_uid ∈
      ini.get_graph.edges_ended_on (ini.get_initial_state.vehicle veh_id).dst)

/-- The vehicle loop of `is_finished` (lines 77-96); the Boolean is `res`. -/
def is_finished_loop (c : model_constants α) (ini : graph_initial α) :
    List uid → Bool → gno_modeling_simple_acceleration α →
      Bool × gno_modeling_simple_acceleration α
  | [], res, s => (res, s)
  | veh_id :: rest, res, s =>
    if s.m_finished.getD veh_id 0 = 1 then is_finished_loop c ini rest res s
    else if is_finish c ini s veh_id then
      is_finished_loop c ini rest res { s with m_finished := s.m_finished.set veh_id 1 }
    else
      is_finished_loop c ini rest false s

/-- The method `is_finished` (lines 69-98). -/
def is_finished (c : model_constants α) (ini : graph_initial α)
    (s : gno_modeling_simple_acceleration α) : Bool × gno_modeling_simple_acceleration α :=
  is_finished_loop c ini (List.range ini.get_initial_state.vehicle_count) true s

/-- Lines 115-138 of `do_step`: the critical time of one vehicle. -/
def critical_time (c : model_constants α) (ini : graph_initial α)
    (s : gno_modeling_simple_acceleration α) (veh_id : uid) : α :=
  let S := ini.get_graph.length (s.m_states.getD veh_id vehicle_discrete_state.zero).edge_uid
  let dS := S * (1 - (s.m_states.getD veh_id vehicle_discrete_state.zero).part)
  let V := s.m_velocities.getD veh_id 0
  let a := s.m_accelerations.getD veh_id 0
  if fuzzy_eq c a 0 then dS / V
  else
    let crit_time_end_edge := (-V + c.sqrt (V * V + 2 * a * dS)) / a
    let crit_time_end_acc := (c.V_MAX - V) / a
    if crit_time_end_acc < crit_time_end_edge then crit_time_end_acc else crit_time_end_edge

/-- The first vehicle loop of `do_step` (lines 110-145). The accumulator is the
pair `(min_critical_time, min_veh_id)`, with `none` for `graph::invalid_uid`. -/
def min_loop (c : model_constants α) (ini : graph_initial α)
    (s : gno_modeling_simple_acceleration α) : List uid → α × Option uid → α × Option uid
  | [], acc => acc
  | veh_id :: rest, acc =>
    if s.m_finished.getD veh_id 0 = 1 then min_loop c ini s rest acc
    else if acc.2 = none ∨ critical_time c ini s veh_id < acc.1 then
      min_loop c ini s rest (critical_time c ini s veh_id, some veh_id)
    else min_loop c ini s rest acc

/-- The value of `min_critical_time` at line 147. -/
def min_critical_time (c : model_constants α) (ini : graph_initial α)
    (s : gno_modeling_simple_acceleration α) : α :=
  (min_loop c ini s (List.range ini.get_initial_state.vehicle_count) (-1, none)).1

/-- Lines 150-151 of `do_step`: count every vehicle on its current edge. -/
def recount_loop (m_states : List (vehicle_discrete_state α)) : List uid → List Int → List Int
  | [], occ => occ
  | veh_id :: rest, occ =>
    recount_loop m_states rest
      (incr occ (m_states.getD veh_id vehicle_discrete_state.zero).edge_uid)

/-- Lines 158-165 of `do_step`: the value assigned to `m_states[veh_id].part`. -/
def advanced_part (ini : graph_initial α) (dt : α) (s : gno_modeling_simple_acceleration α)
    (veh_id : uid) : α :=
  let S := ini.get_graph.length (s.m_states.getD veh_id vehicle_discrete_state.zero).edge_uid
  let V := s.m_velocities.getD veh_id 0
  let a := s.m_accelerations.getD veh_id 0
  let dS := V * dt + 1 / 2 * a * dt * dt
  (s.m_states.getD veh_id vehicle_discrete_state.zero).part + dS / S

/-- The third vehicle loop of `do_step` (lines 153-198); returns `-1` at the
early exit of line 181 and `0` when the loop runs to its end. The test
`node_num >= path.size () - 2` is evaluated in `size_t`: for a path shorter
than two nodes the right-hand side wraps around and the test fails. -/
def advance_loop (c : model_constants α) (ini : graph_initial α) (dt : α) :
    List uid → gno_modeling_simple_acceleration α → Int × gno_modeling_simple_acceleration α
  | [], s => (0, s)
  | veh_id :: rest, s =>
    if s.m_finished.getD veh_id 0 = 1 then advance_loop c ini dt rest s
    else
      let st := s.m_states.getD veh_id vehicle_discrete_state.zero
      let part := advanced_part ini dt s veh_id
      let s1 := { s with m_states := s.m_states.set veh_id { st with part := part } }
      if fuzzy_eq c part 1 then
        let path := (ini.get_initial_state.vehicle veh_id).path
        if 2 ≤ path.length ∧ path.length - 2 ≤ st.node_num then advance_loop c ini dt rest s1
        else
          let edges := ini.get_graph.edges (path.getD (st.node_num + 1) 0)
            (path.getD (st.node_num + 2) 0)
          if edges.length = 0 then (-1, s1)
          else
            let next_edge := choose_edge s1.m_veh_on_edge edges
            advance_loop c ini dt rest
              { s1 with
                m_veh_on_edge := incr (decr s1.m_veh_on_edge st.edge_uid) next_edge
                m_states := s1.m_states.set veh_id ⟨next_edge, 0, st.node_num + 1⟩ }
      else advance_loop c ini dt rest s1

/-- The last vehicle loop of `do_step` (lines 201-206). -/
def velocity_loop (c : model_constants α) (dt : α) :
    List uid → gno_modeling_simple_acceleration α → gno_modeling_simple_acceleration α
  | [], s => s
  | veh_id :: rest, s =>
    let v := s.m_velocities.getD veh_id 0 + dt * s.m_accelerations.getD veh_id 0
    let s1 := { s with m_velocities := s.m_velocities.set veh_id v }
    if fuzzy_eq c v c.V_MAX then
      velocity_loop c dt rest { s1 with m_accelerations := s1.m_accelerations.set veh_id 0 }
    else velocity_loop c dt rest s1

/-- The method `do_step` (lines 100-210). -/
def do_step (c : model_constants α) (ini : graph_initial α)
    (s : gno_modeling_simple_acceleration α) : Int × gno_modeling_simple_acceleration α :=
  let ids := List.range ini.get_initial_state.vehicle_count
  let dt := min_critical_time c ini s
  let s1 := { s with m_t := s.m_t + dt }
  let s2 := { s1 with
    m_veh_on_edge := recount_loop s1.m_states ids (List.replicate s1.m_veh_on_edge.length 0) }
  let r := advance_loop c ini dt ids s2
  if r.1 = 0 then (0, find_critical_time (velocity_loop c dt ids r.2)) else r

/-- The `while` loop of `run` (lines 61-66) with a bound on its iterations;
`steps` counts the calls of `do_step` made so far. -/
def run_loop (c : model_constants α) (ini : graph_initial α) :
    Nat → Nat → gno_modeling_simple_acceleration α →
      Option (Int × gno_modeling_simple_acceleration α × Nat)
  | 0, _, _ => none
  | fuel + 1, steps, s =>
    if (is_finished c ini s).1 then some (0, (is_finished c ini s).2, steps)
    else if OK (do_step c ini (is_finished c ini s).2).1 then
      run_loop c ini fuel (steps + 1) (do_step c ini (is_finished c ini s).2).2
    else some (-4, (do_step c ini (is_finished c ini s).2).2, steps + 1)

/-- The method `run` (lines 7-67): the status code, the engine state on return
and the number of `do_step` calls. -/
def run (c : model_constants α) (ini : graph_initial α) (fuel : Nat)
    (s : gno_modeling_simple_acceleration α) :
    Option (Int × gno_modeling_simple_acceleration α × Nat) :=
  if (initialize_run c ini s).1 = 0 then run_loop c ini fuel 0 (initialize_run c ini s).2
  else some ((initialize_run c ini s).1, (initialize_run c ini s).2, 0)

/-- The engine state at the head of the `while` loop of `run` after `n`
successful calls of `do_step`, when the run gets that far. -/
def state_after (c : model_constants α) (ini : graph_initial α)
    (s : gno_modeling_simple_acceleration α) : Nat → Option (gno_modeling_simple_acceleration α)
  | 0 => if (initialize_run c ini s).1 = 0 then some (initialize_run c ini s).2 else none
  | n + 1 =>
    match state_after c ini s n with
    | none => none
    | some s1 =>
      if (is_finished c ini s1).1 then none
      else if OK (do_step c ini (is_finished c ini s1).2).1 then
        some (do_step c ini (is_finished c ini s1).2).2
      else none

/-! ## Predicates used to state the theorems -/

/-- The four checks of lines 30-42 of `run` all pass for vehicle `veh_id`. -/
def init_checks_pass (ini : graph_initial α) (veh_id : uid) : Prop :=
  2 ≤ (ini.get_initial_state.vehicle veh_id).path.length ∧
  (ini.get_initial_state.vehicle veh_id).path.getD 0 0 =
    (ini.get_initial_state.vehicle veh_id).src ∧
  (ini.get_initial_state.vehicle veh_id).path.getD
      ((ini.get_initial_state.vehicle veh_id).path.length - 1) 0 =
    (ini.get_initial_state.vehicle veh_id).dst ∧
  ini.get_graph.edges ((ini.get_initial_state.vehicle veh_id).path.getD 0 0)
      ((ini.get_initial_state.vehicle veh_id).path.getD 1 0) ≠ []

/-- Every edge identifier the graph returns indexes the per-edge vector. -/
def edges_in_range (g : graph_base α) : Prop :=
  ∀ u v e, e ∈ g.edges u v → e < g.edge_count

/-- The test of line 173 of `do_step`: the vehicle is on the last node pair of its path. -/
def at_last_pair (ini : graph_initial α) (veh_id : uid) (st : vehicle_discrete_state α) : Prop :=
  2 ≤ (ini.get_initial_state.vehicle veh_id).path.length ∧
    (ini.get_initial_state.vehicle veh_id).path.length - 2 ≤ st.node_num

/-- The candidate edges of line 178 of `do_step` for the next node pair of the vehicle. -/
def next_edges (ini : graph_initial α) (veh_id : uid) (st : vehicle_discrete_state α) :
    List uid :=
  ini.get_graph.edges ((ini.get_initial_state.vehicle veh_id).path.getD (st.node_num + 1) 0)
    ((ini.get_initial_state.vehicle veh_id).path.getD (st.node_num + 2) 0)

/-- The outcome of lines 158-197 of `do_step` for an unfinished vehicle with entry `old`
and new progress `p` when the loop goes on: either only `part` is updated (and then the
edge is not complete or the vehicle is on its last node pair), or the edge is complete
and the vehicle starts on one of the candidate edges of its next node pair. -/
def moved_on (c : model_constants α) (ini : graph_initial α) (veh_id : uid)
    (old : vehicle_discrete_state α) (p : α) (new : vehicle_discrete_state α) : Prop :=
  (new = { old with part := p } ∧ (fuzzy_eq c p 1 = true → at_last_pair ini veh_id old)) ∨
  (fuzzy_eq c p 1 = true ∧ ¬ at_last_pair ini veh_id old ∧
    ∃ e ∈ next_edges ini veh_id old, new = ⟨e, 0, old.node_num + 1⟩)

/-- The condition of the early exit at line 181 of `do_step`: the vehicle completes its
edge, is not on its last node pair and no edge joins its next node pair. -/
def dead_end (c : model_constants α) (ini : graph_initial α) (veh_id : uid)
    (old : vehicle_discrete_state α) (p : α) : Prop :=
  fuzzy_eq c p 1 = true ∧ ¬ at_last_pair ini veh_id old ∧ next_edges ini veh_id old = []

/-- The per-vehicle vectors of the engine have one entry per vehicle of the scenario. -/
def sized (ini : graph_initial α) (s : gno_modeling_simple_acceleration α) : Prop :=
  s.m_states.length = ini.get_initial_state.vehicle_count ∧
  s.m_finished.length = ini.get_initial_state.vehicle_count ∧
  s.m_velocities.length = ini.get_initial_state.vehicle_count ∧
  s.m_accelerations.length = ini.get_initial_state.vehicle_count

/-- The engine state at line 152 of `do_step`: the clock advanced and the occupancy
counters recomputed, before any vehicle is moved. -/
def before_advance (c : model_constants α) (ini : graph_initial α)
    (s : gno_modeling_simple_acceleration α) : gno_modeling_simple_acceleration α :=
  { s with
    m_t := s.m_t + min_critical_time c ini s
    m_veh_on_edge := recount_loop s.m_states (List.range ini.get_initial_state.vehicle_count)
      (List.replicate s.m_veh_on_edge.length 0) }

/-- The number of vehicles whose finished flag is not set. -/
def unfinished_count (ini : graph_initial α) (s : gno_modeling_simple_acceleration α) : Nat :=
  ((List.range ini.get_initial_state.vehicle_count).filter
    (fun v => s.m_finished.getD v 0 ≠ 1)).length

/-- Every flagged vehicle satisfies the finishing condition of `is_finished`. -/
def flags_justified (c : model_constants α) (ini : graph_initial α)
    (s : gno_modeling_simple_acceleration α) : Prop :=
  ∀ v, s.m_finished.getD v 0 = 1 → is_finish c ini s v = true

/-- The occupancy vector has one counter per edge, every vehicle is on an edge that
indexes it, and the counters add up to the number of vehicles. -/
def occupancy_total (ini : graph_initial α) (s : gno_modeling_simple_acceleration α) : Prop :=
  s.m_veh_on_edge.length = ini.get_graph.edge_count ∧
  (∀ v, v < s.m_states.length →
    (s.m_states.getD v vehicle_discrete_state.zero).edge_uid < ini.get_graph.edge_count) ∧
  s.m_veh_on_edge.sum = ini.get_initial_state.vehicle_count

/-- The square root of the constants is exact on the non-negative numbers. -/
def exact_sqrt (c : model_constants α) : Prop :=
  ∀ x, 0 ≤ x → 0 ≤ c.sqrt x ∧ c.sqrt x * c.sqrt x = x

/-- The kinematic invariant of the run: all vehicles share one velocity `V` and one
acceleration `a`; `0 ≤ V ≤ V_MAX`; `a` is `A_MAX` or has been set to `0` (which needs a
positive tolerance); while `A_MAX` itself is fuzzily zero the velocity is still `0`; and
every `part` lies in `[0, 1]`. -/
def kinematic_inv (c : model_constants α) (ini : graph_initial α)
    (s : gno_modeling_simple_acceleration α) : Prop :=
  ∃ V a : α,
    (∀ v, v < ini.get_initial_state.vehicle_count →
      s.m_velocities.getD v 0 = V ∧ s.m_accelerations.getD v 0 = a) ∧
    0 ≤ V ∧ V ≤ c.V_MAX ∧
    (a = c.A_MAX ∨ (a = 0 ∧ 0 < c.eps)) ∧
    (fuzzy_eq c c.A_MAX 0 = true → V = 0) ∧
    ∀ v, v < ini.get_initial_state.vehicle_count →
      0 ≤ (s.m_states.getD v vehicle_discrete_state.zero).part ∧
      (s.m_states.getD v vehicle_discrete_state.zero).part ≤ 1

/-- Every edge the graph returns for the node pair `(u, v)` is among the edges ending at `v`. -/
def edges_end_at_target (g : graph_base α) : Prop :=
  ∀ u v e, e ∈ g.edges u v → e ∈ g.edges_ended_on v

/-- Every vehicle passes the checks of the initialization and every pair of consecutive
nodes of its path is joined by an edge. -/
def connected_paths (ini : graph_initial α) : Prop :=
  ∀ j, j < ini.get_initial_state.vehicle_count →
    init_checks_pass ini j ∧
    ∀ k, k + 1 < (ini.get_initial_state.vehicle j).path.length →
      ini.get_graph.edges ((ini.get_initial_state.vehicle j).path.getD k 0)
        ((ini.get_initial_state.vehicle j).path.getD (k + 1) 0) ≠ []

/-- Every vehicle is on an edge that joins the node pair of its path index, and the path
index leaves room for that pair. -/
def path_following (ini : graph_initial α) (s : gno_modeling_simple_acceleration α) : Prop :=
  ∀ v, v < ini.get_initial_state.vehicle_count →
    (s.m_states.getD v vehicle_discrete_state.zero).node_num + 2 ≤
      (ini.get_initial_state.vehicle v).path.length ∧
    (s.m_states.getD v vehicle_discrete_state.zero).edge_uid ∈
      ini.get_graph.edges
        ((ini.get_initial_state.vehicle v).path.getD
          (s.m_states.getD v vehicle_discrete_state.zero).node_num 0)
        ((ini.get_initial_state.vehicle v).path.getD
          ((s.m_states.getD v vehicle_discrete_state.zero).node_num + 1) 0)

/-- No vehicle is stalled: every velocity is positive, or the run has not moved yet
(velocity 0, acceleration `A_MAX`, progress 0 for every vehicle). -/
def moving (c : model_constants α) (ini : graph_initial α)
    (s : gno_modeling_simple_acceleration α) : Prop :=
  (∀ v, v < ini.get_initial_state.vehicle_count → 0 < s.m_velocities.getD v 0) ∨
  ((∀ v, v < ini.get_initial_state.vehicle_count →
      s.m_velocities.getD v 0 = 0 ∧ s.m_accelerations.getD v 0 = c.A_MAX) ∧
    ∀ v, v < ini.get_initial_state.vehicle_count →
      (s.m_states.getD v vehicle_discrete_state.zero).part = 0)

/-- The invariant behind the termination of the run. -/
def progress_inv (c : model_constants α) (ini : graph_initial α)
    (s : gno_modeling_simple_acceleration α) : Prop :=
  sized ini s ∧ kinematic_inv c ini s ∧ moving c ini s ∧ path_following ini s

/-- The number of edges vehicle `veh_id` still has to complete: 0 once it is flagged or
about to be flagged by `is_finished`, else the node pairs from its path index on. -/
def remaining (c : model_constants α) (ini : graph_initial α)
    (s : gno_modeling_simple_acceleration α) (veh_id : uid) : Nat :=
  if s.m_finished.getD veh_id 0 = 1 ∨ is_finish c ini s veh_id = true then 0
  else (ini.get_initial_state.vehicle veh_id).path.length - 1 -
    (s.m_states.getD veh_id vehicle_discrete_state.zero).node_num

/-- One when the acceleration has not been zeroed yet (the step at which the speed cap
is reached is still to come), else zero. -/
def cap_pending (s : gno_modeling_simple_acceleration α) : Nat :=
  if s.m_accelerations.getD 0 0 = 0 then 0 else 1

/-- A bound on the number of `do_step` calls the run still makes from state `s`. -/
def step_budget (c : model_constants α) (ini : graph_initial α)
    (s : gno_modeling_simple_acceleration α) : Nat :=
  (∑ v in Finset.range ini.get_initial_state.vehicle_count, remaining c ini s v) +
    cap_pending s

/-! ## Concrete inputs

The concrete runs are evaluated over `ℚ`; the inputs are chosen so that every
square root taken during the run is the square root of a perfect square. -/

/-- The largest `r ≤ k` with `r * r ≤ n`. -/
def isqrt_upto (n : Nat) : Nat → Nat
  | 0 => 0
  | k + 1 => if (k + 1) * (k + 1) ≤ n then k + 1 else isqrt_upto n k

/-- A square root on `ℚ` that is exact on squares of rationals. -/
def rational_sqrt (q : ℚ) : ℚ :=
  (isqrt_upto q.num.toNat q.num.toNat : ℚ) / (isqrt_upto q.den q.den : ℚ)

/-- Acceleration 2, speed cap 2, tolerance 1/1000. -/
def example_constants : model_constants ℚ :=
  ⟨2, 2, 1 / 1000, rational_sqrt⟩

/-- An engine object before its first run: all vectors empty. -/
def fresh_engine (α : Type) [LinearOrderedField α] : gno_modeling_simple_acceleration α :=
  ⟨0, [], [], [], [], []⟩

/-- Nodes `0 → 1 → 2`, edge `0` from node 0 to node 1 and edge `1` from node 1
to node 2, both of length 1. -/
def chain_graph (α : Type) [LinearOrderedField α] : graph_base α where
  edge_count := 2
  length := fun _ => 1
  edges := fun u v => if u = 0 ∧ v = 1 then [0] else if u = 1 ∧ v = 2 then [1] else []
  edges_ended_on := fun v => if v = 1 then [0] else if v = 2 then [1] else []

/-- Nodes `0` and `1` joined by the two parallel edges `0` and `1` of length 1. -/
def parallel_graph (α : Type) [LinearOrderedField α] : graph_base α where
  edge_count := 2
  length := fun _ => 1
  edges := fun u v => if u = 0 ∧ v = 1 then [0, 1] else []
  edges_ended_on := fun v => if v = 1 then [0, 1] else []

/-- The chain graph without its second edge: node 2 cannot be reached. -/
def broken_chain_graph (α : Type) [LinearOrderedField α] : graph_base α where
  edge_count := 1
  length := fun _ => 1
  edges := fun u v => if u = 0 ∧ v = 1 then [0] else []
  edges_ended_on := fun v => if v = 1 then [0] else []

/-- A single vehicle that drives `0 → 1` on the chain graph. -/
def one_hop_input (α : Type) [LinearOrderedField α] : graph_initial α :=
  ⟨chain_graph α, ⟨[⟨0, 1, [0, 1]⟩]⟩⟩

/-- Vehicle 0 drives `0 → 1`, vehicle 1 drives `0 → 1 → 2` on the chain graph. -/
def two_vehicle_input (α : Type) [LinearOrderedField α] : graph_initial α :=
  ⟨chain_graph α, ⟨[⟨0, 1, [0, 1]⟩, ⟨0, 2, [0, 1, 2]⟩]⟩⟩

/-- Vehicle 0 is valid; the path of vehicle 1 starts at node 0 although its
declared source is node 7. -/
def source_mismatch_input (α : Type) [LinearOrderedField α] : graph_initial α :=
  ⟨chain_graph α, ⟨[⟨0, 1, [0, 1]⟩, ⟨7, 2, [0, 1, 2]⟩]⟩⟩

/-- A single vehicle whose path is the single node 5. -/
def single_node_input (α : Type) [LinearOrderedField α] : graph_initial α :=
  ⟨chain_graph α, ⟨[⟨5, 5, [5]⟩]⟩⟩

/-- Vehicle 0 is valid; the path of vehicle 1 is the single node 5. -/
def late_single_node_input (α : Type) [LinearOrderedField α] : graph_initial α :=
  ⟨chain_graph α, ⟨[⟨0, 1, [0, 1]⟩, ⟨5, 5, [5]⟩]⟩⟩

/-- The path of vehicle 0 starts at node 0 although its declared source is node 7;
the path of vehicle 1 is the single node 5. -/
def mismatch_then_single_node_input (α : Type) [LinearOrderedField α] : graph_initial α :=
  ⟨chain_graph α, ⟨[⟨7, 1, [0, 1]⟩, ⟨5, 5, [5]⟩]⟩⟩

/-- Two vehicles that both drive `0 → 1` on the graph with two parallel edges. -/
def parallel_input (α : Type) [LinearOrderedField α] : graph_initial α :=
  ⟨parallel_graph α, ⟨[⟨0, 1, [0, 1]⟩, ⟨0, 1, [0, 1]⟩]⟩⟩

/-- One vehicle that drives `0 → 1 → 2` on the chain graph without its second edge. -/
def dead_end_input (α : Type) [LinearOrderedField α] : graph_initial α :=
  ⟨broken_chain_graph α, ⟨[⟨0, 2, [0, 1, 2]⟩]⟩⟩

/-! ## Further predicates -/

/-- The number of vehicles, finished or not, whose current edge is `e`. -/
def vehicles_on (ini : graph_initial α) (s : gno_modeling_simple_acceleration α) (e : uid) :
    Nat :=
  (List.range ini.get_initial_state.vehicle_count).countP
    (fun v => decide ((s.m_states.getD v vehicle_discrete_state.zero).edge_uid = e))

/-- The occupancy vector has one counter per edge, every vehicle is on an edge that
indexes it, and every counter equals the number of vehicles on its edge. -/
def occupancy_consistent (ini : graph_initial α) (s : gno_modeling_simple_acceleration α) :
    Prop :=
  s.m_veh_on_edge.length = ini.get_graph.edge_count ∧
  (∀ v, v < ini.get_initial_state.vehicle_count →
    (s.m_states.getD v vehicle_discrete_state.zero).edge_uid < ini.get_graph.edge_count) ∧
  ∀ e, occupancy s.m_veh_on_edge e = (vehicles_on ini s e : Int)

/-- Line 125 of `do_step`: the critical time of a vehicle whose acceleration is fuzzily
zero, the remaining distance divided by the velocity. -/
def crit_time_zero_acc (ini : graph_initial α) (s : gno_modeling_simple_acceleration α)
    (veh_id : uid) : α :=
  let S := ini.get_graph.length (s.m_states.getD veh_id vehicle_discrete_state.zero).edge_uid
  let dS := S * (1 - (s.m_states.getD veh_id vehicle_discrete_state.zero).part)
  let V := s.m_velocities.getD veh_id 0
  dS / V

/-- Line 130 of `do_step`: the time an accelerating vehicle needs to the end of its edge. -/
def crit_time_end_edge (c : model_constants α) (ini : graph_initial α)
    (s : gno_modeling_simple_acceleration α) (veh_id : uid) : α :=
  let S := ini.get_graph.length (s.m_states.getD veh_id vehicle_discrete_state.zero).edge_uid
  let dS := S * (1 - (s.m_states.getD veh_id vehicle_discrete_state.zero).part)
  let V := s.m_velocities.getD veh_id 0
  let a := s.m_accelerations.getD veh_id 0
  (-V + c.sqrt (V * V + 2 * a * dS)) / a

/-- Line 131 of `do_step`: the time an accelerating vehicle needs to reach `V_MAX`. -/
def crit_time_end_acc (c : model_constants α) (s : gno_modeling_simple_acceleration α)
    (veh_id : uid) : α :=
  let V := s.m_velocities.getD veh_id 0
  let a := s.m_accelerations.getD veh_id 0
  (c.V_MAX - V) / a

/-- All vehicles have one velocity and one acceleration, and the acceleration is `A_MAX`
or `0`. -/
def shared_kinematics (c : model_constants α) (ini : graph_initial α)
    (s : gno_modeling_simple_acceleration α) : Prop :=
  ∃ V a : α,
    (∀ v, v < ini.get_initial_state.vehicle_count →
      s.m_velocities.getD v 0 = V ∧ s.m_accelerations.getD v 0 = a) ∧
    (a = c.A_MAX ∨ a = 0)

/-! ## The single-vehicle scenario -/

/-- Nodes `0 → 1 → 2`, edge `0` from node 0 to node 1 and edge `1` from node 1
to node 2, both of length 100. -/
def hundred_chain_graph (α : Type) [LinearOrderedField α] : graph_base α where
  edge_count := 2
  length := fun _ => 100
  edges := fun u v => if u = 0 ∧ v = 1 then [0] else if u = 1 ∧ v = 2 then [1] else []
  edges_ended_on := fun v => if v = 1 then [0] else if v = 2 then [1] else []

/-- One vehicle that drives the three-node path `0 → 1 → 2` over two edges of length 100. -/
def single_vehicle_input (α : Type) [LinearOrderedField α] : graph_initial α :=
  ⟨hundred_chain_graph α, ⟨[⟨0, 2, [0, 1, 2]⟩]⟩⟩

/-! ## Failure kinds and defined steps -/

/-- The failures of the initialization that the spec names, in the order of the checks of
lines 30-42 of `run`. -/
inductive init_failure where
  | PathTooShort
  | SourceMismatch
  | DestinationMismatch
  | NoConnectingEdge
deriving DecidableEq, Repr

/-- The literal of the `return` statement of each check of `run` (lines 31, 34, 37, 42). -/
def failure_code : init_failure → Int
  | init_failure.PathTooShort => -1
  | init_failure.SourceMismatch => -2
  | init_failure.DestinationMismatch => -3
  | init_failure.NoConnectingEdge => -4

/-- The first check of lines 30-42 of `run` that vehicle `veh_id` fails, if it fails one. -/
def first_failed_check (ini : graph_initial α) (veh_id : uid) : Option init_failure :=
  let path := (ini.get_initial_state.vehicle veh_id).path
  if path.length < 2 then some init_failure.PathTooShort
  else if path.getD 0 0 ≠ (ini.get_initial_state.vehicle veh_id).src then
    some init_failure.SourceMismatch
  else if path.getD (path.length - 1) 0 ≠ (ini.get_initial_state.vehicle veh_id).dst then
    some init_failure.DestinationMismatch
  else if (ini.get_graph.edges (path.getD 0 0) (path.getD 1 0)).length = 0 then
    some init_failure.NoConnectingEdge
  else none

/-- Every quotient and square root that `do_step` computes for an unfinished vehicle in
state `s` is defined over the reals: the edge length it divides by at line 165 is not
zero; when the acceleration is fuzzily zero the velocity it divides by at line 125 is
not zero; otherwise the acceleration it divides by at lines 130-131 is not zero and the
argument of `sqrt` is not negative. -/
def step_defined (c : model_constants α) (ini : graph_initial α)
    (s : gno_modeling_simple_acceleration α) : Prop :=
  ∀ v, v < ini.get_initial_state.vehicle_count → s.m_finished.getD v 0 ≠ 1 →
    ini.get_graph.length (s.m_states.getD v vehicle_discrete_state.zero).edge_uid ≠ 0 ∧
    (fuzzy_eq c (s.m_accelerations.getD v 0) 0 = true → s.m_velocities.getD v 0 ≠ 0) ∧
    (fuzzy_eq c (s.m_accelerations.getD v 0) 0 = false →
      s.m_accelerations.getD v 0 ≠ 0 ∧
      0 ≤ s.m_velocities.getD v 0 * s.m_velocities.getD v 0 +
        2 * s.m_accelerations.getD v 0 *
          (ini.get_graph.length (s.m_states.getD v vehicle_discrete_state.zero).edge_uid *
            (1 - (s.m_states.getD v vehicle_discrete_state.zero).part)))

/-- The chain graph with a second edge of length 0. -/
def zero_tail_graph (α : Type) [LinearOrderedField α] : graph_base α where
  edge_count := 2
  length := fun e => if e = 1 then 0 else 1
  edges := fun u v => if u = 0 ∧ v = 1 then [0] else if u = 1 ∧ v = 2 then [1] else []
  edges_ended_on := fun v => if v = 1 then [0] else if v = 2 then [1] else []

/-- One vehicle that drives `0 → 1 → 2` on the chain graph with a second edge of length 0. -/
def zero_tail_input (α : Type) [LinearOrderedField α] : graph_initial α :=
  ⟨zero_tail_graph α, ⟨[⟨0, 2, [0, 1, 2]⟩]⟩⟩

/-! ## Vectors -/

theorem getD_set_self {β : Type} (l : List β) (i : Nat) (x d : β) (h : i < l.length) :
    (l.set i x).getD i d = x := by
  simp [List.getD_eq_getElem?_getD, List.getElem?_set, h]

theorem getD_set_other {β : Type} (l : List β) (i j : Nat) (x d : β) (h : i ≠ j) :
    (l.set i x).getD j d = l.getD j d := by
  simp [List.getD_eq_getElem?_getD, List.getElem?_set, h]

theorem getD_replicate_eq {β : Type} (n i : Nat) (x : β) :
    (List.replicate n x).getD i x = x := by
  by_cases h : i < n
  · simp [List.getD_eq_getElem?_getD, List.getElem?_replicate, h]
  · simp [List.getD_eq_getElem?_getD, List.getElem?_replicate, h]

theorem getD_replicate_lt {β : Type} (n i : Nat) (x d : β) (h : i < n) :
    (List.replicate n x).getD i d = x := by
  simp [List.getD_eq_getElem?_getD, List.getElem?_replicate, h]

theorem length_resize {β : Type} (v : List β) (n : Nat) (d : β) : (resize v n d).length = n := by
  simp only [resize, List.length_append, List.length_take, List.length_replicate]
  omega

theorem range_split {k n : Nat} (h : k < n) :
    ∃ post, List.range n = List.range k ++ k :: post := by
  obtain ⟨m, rfl⟩ : ∃ m, n = k + (m + 1) := ⟨n - k - 1, by omega⟩
  refine ⟨(List.map Nat.succ (List.range m)).map (k + ·), ?_⟩
  rw [List.range_add, List.range_succ_eq_map]
  simp

theorem length_incr (occ : List Int) (e : uid) : (incr occ e).length = occ.length := by
  simp [incr]

theorem length_decr (occ : List Int) (e : uid) : (decr occ e).length = occ.length := by
  simp [decr]

theorem sum_set_add (d : Int) : ∀ (occ : List Int) (e : Nat), e < occ.length →
    (occ.set e (occ.getD e 0 + d)).sum = occ.sum + d
  | [], e, h => by simp at h
  | x :: occ, 0, _ => by simp [List.sum_cons]; ring
  | x :: occ, e + 1, h => by
    have h' : e < occ.length := by simpa using h
    have ih := sum_set_add d occ e h'
    simp only [List.set_cons_succ, List.sum_cons, List.getD_cons_succ, ih]
    ring

theorem sum_incr (occ : List Int) (e : uid) (h : e < occ.length) :
    (incr occ e).sum = occ.sum + 1 :=
  sum_set_add 1 occ e h

theorem sum_decr (occ : List Int) (e : uid) (h : e < occ.length) :
    (decr occ e).sum = occ.sum - 1 := by
  have := sum_set_add (-1) occ e h
  simpa [decr, occupancy, sub_eq_add_neg] using this

theorem occupancy_incr_self (occ : List Int) (e : uid) (h : e < occ.length) :
    occupancy (incr occ e) e = occupancy occ e + 1 := by
  simp only [occupancy, incr]
  exact getD_set_self _ _ _ _ h

theorem occupancy_incr_other (occ : List Int) (e e' : uid) (h : e ≠ e') :
    occupancy (incr occ e) e' = occupancy occ e' := by
  simp only [occupancy, incr]
  exact getD_set_other _ _ _ _ _ h

theorem occupancy_incr_oob (occ : List Int) (e e' : uid) (h : occ.length ≤ e) :
    occupancy (incr occ e) e' = occupancy occ e' := by
  simp only [occupancy, incr]
  rw [List.set_eq_of_length_le h]

theorem foldl_choose_step_split (occ : List Int) :
    ∀ (l : List uid) (b : uid),
      ∃ pre post, b :: l = pre ++ List.foldl (choose_step occ) b l :: post ∧
        (∀ e ∈ pre, occupancy occ (List.foldl (choose_step occ) b l) < occupancy occ e) ∧
        (∀ e ∈ post, occupancy occ (List.foldl (choose_step occ) b l) ≤ occupancy occ e)
  | [], b => ⟨[], [], by simp⟩
  | e :: l, b => by
    obtain ⟨pre, post, hsplit, hpre, hpost⟩ := foldl_choose_step_split occ l (choose_step occ b e)
    simp only [List.foldl_cons]
    by_cases hlt : occupancy occ e < occupancy occ b
    · have hstep : choose_step occ b e = e := by simp [choose_step, hlt]
      rw [hstep] at hsplit hpre hpost ⊢
      refine ⟨b :: pre, post, by rw [hsplit]; rfl, ?_, hpost⟩
      have hle : occupancy occ (List.foldl (choose_step occ) e l) ≤ occupancy occ e := by
        cases pre with
        | nil =>
          simp only [List.nil_append, List.cons.injEq] at hsplit
          rw [← hsplit.1]
        | cons p pre =>
          simp only [List.cons_append, List.cons.injEq] at hsplit
          exact le_of_lt (hpre e (by rw [hsplit.1]; exact List.mem_cons_self _ _))
      intro x hx
      rcases List.mem_cons.1 hx with rfl | hx
      · exact lt_of_le_of_lt hle hlt
      · exact hpre x hx
    · have hstep : choose_step occ b e = b := by simp [choose_step, hlt]
      rw [hstep] at hsplit hpre hpost ⊢
      cases pre with
      | nil =>
        simp only [List.nil_append, List.cons.injEq] at hsplit
        refine ⟨[], e :: l, by rw [← hsplit.1]; rfl, by simp, ?_⟩
        intro x hx
        rcases List.mem_cons.1 hx with rfl | hx
        · rw [← hsplit.1]; exact not_lt.1 hlt
        · exact hpost x (by rw [← hsplit.2]; exact hx)
      | cons p pre =>
        simp only [List.cons_append, List.cons.injEq] at hsplit
        obtain ⟨hp, hl⟩ := hsplit
        subst hp
        refine ⟨b :: e :: pre, post, by rw [List.cons_append, List.cons_append, ← hl], ?_, hpost⟩
        intro x hx
        have hb := hpre b (List.mem_cons_self _ _)
        rcases List.mem_cons.1 hx with rfl | hx
        · exact hb
        rcases List.mem_cons.1 hx with rfl | hx
        · exact lt_of_lt_of_le hb (not_lt.1 hlt)
        · exact hpre x (List.mem_cons_of_mem _ hx)

theorem choose_edge_split (occ : List Int) (edges : List uid) (h : edges ≠ []) :
    ∃ pre post, edges = pre ++ choose_edge occ edges :: post ∧
      (∀ e ∈ pre, occupancy occ (choose_edge occ edges) < occupancy occ e) ∧
      (∀ e ∈ post, occupancy occ (choose_edge occ edges) ≤ occupancy occ e) := by
  cases edges with
  | nil => exact absurd rfl h
  | cons e0 rest => exact foldl_choose_step_split occ rest e0

/-- C4: on a non-empty candidate list the edge-selection fold returns `edges[i]` for the
smallest index `i` whose occupancy is the minimum over all candidates: no candidate has a
smaller occupancy, every earlier candidate has a strictly larger one, and when all
candidates have the same occupancy the result is `edges[0]`. -/
theorem choose_edge_first_minimum (m_veh_on_edge : List Int) (edges : List uid)
    (h : edges ≠ []) :
    ∃ i, i < edges.length ∧ choose_edge m_veh_on_edge edges = edges.getD i 0 ∧
      (∀ j, j < edges.length →
        occupancy m_veh_on_edge (edges.getD i 0) ≤ occupancy m_veh_on_edge (edges.getD j 0)) ∧
      (∀ j, j < i →
        occupancy m_veh_on_edge (edges.getD i 0) < occupancy m_veh_on_edge (edges.getD j 0)) ∧
      ((∀ j, j < edges.length →
          occupancy m_veh_on_edge (edges.getD j 0) = occupancy m_veh_on_edge (edges.getD 0 0)) →
        choose_edge m_veh_on_edge edges = edges.getD 0 0) := by
  obtain ⟨pre, post, hsplit, hpre, hpost⟩ := choose_edge_split m_veh_on_edge edges h
  generalize choose_edge m_veh_on_edge edges = sel at hsplit hpre hpost ⊢
  subst hsplit
  have hlen : pre.length < (pre ++ sel :: post).length := by simp
  have hget : (pre ++ sel :: post).getD pre.length 0 = sel := by
    rw [List.getD_eq_getElem _ _ hlen]
    exact List.getElem_of_append rfl rfl
  have hbefore : ∀ j, j < pre.length →
      occupancy m_veh_on_edge sel <
        occupancy m_veh_on_edge ((pre ++ sel :: post).getD j 0) := by
    intro j hj
    apply hpre
    have : (pre ++ sel :: post).getD j 0 = pre.getD j 0 := by
      simp [List.getD_eq_getElem?_getD, List.getElem?_append_left hj]
    rw [this, List.getD_eq_getElem _ _ hj]
    exact List.getElem_mem _
  refine ⟨pre.length, hlen, hget.symm, ?_, ?_, ?_⟩
  · intro j hj
    rw [hget]
    have hmem : (pre ++ sel :: post).getD j 0 ∈ pre ++ sel :: post := by
      rw [List.getD_eq_getElem _ _ hj]; exact List.getElem_mem _
    rcases List.mem_append.1 hmem with hm | hm
    · exact le_of_lt (hpre _ hm)
    rcases List.mem_cons.1 hm with hm | hm
    · rw [hm]
    · exact hpost _ hm
  · intro j hj
    rw [hget]; exact hbefore j hj
  · intro hall
    rcases Nat.eq_zero_or_pos pre.length with h0 | hpos
    · have hnil : pre = [] := List.length_eq_zero.1 h0
      subst hnil
      rfl
    · have h1 := hbefore 0 hpos
      have h2 := hall pre.length hlen
      rw [hget] at h2
      omega


/-- C4, instance: with occupancies `[1, 0, 0]` and candidates `[0, 1, 2]` the fold selects a
first minimum. -/
theorem choose_edge_first_minimum_witness :
    ([0, 1, 2] : List uid) ≠ [] ∧
    ∃ i, i < ([0, 1, 2] : List uid).length ∧
      choose_edge [1, 0, 0] [0, 1, 2] = ([0, 1, 2] : List uid).getD i 0 ∧
      (∀ j, j < ([0, 1, 2] : List uid).length →
        occupancy [1, 0, 0] (([0, 1, 2] : List uid).getD i 0) ≤
          occupancy [1, 0, 0] (([0, 1, 2] : List uid).getD j 0)) ∧
      (∀ j, j < i →
        occupancy [1, 0, 0] (([0, 1, 2] : List uid).getD i 0) <
          occupancy [1, 0, 0] (([0, 1, 2] : List uid).getD j 0)) ∧
      ((∀ j, j < ([0, 1, 2] : List uid).length →
          occupancy [1, 0, 0] (([0, 1, 2] : List uid).getD j 0) =
            occupancy [1, 0, 0] (([0, 1, 2] : List uid).getD 0 0)) →
        choose_edge [1, 0, 0] [0, 1, 2] = ([0, 1, 2] : List uid).getD 0 0) :=
  ⟨by decide, choose_edge_first_minimum [1, 0, 0] [0, 1, 2] (by decide)⟩

theorem choose_edge_mem (occ : List Int) (edges : List uid) (h : edges ≠ []) :
    choose_edge occ edges ∈ edges := by
  obtain ⟨pre, post, hsplit, -, -⟩ := choose_edge_split occ edges h
  generalize choose_edge occ edges = sel at hsplit ⊢
  rw [hsplit]; simp

theorem choose_edge_le (occ : List Int) (edges : List uid) (h : edges ≠ []) (e : uid)
    (he : e ∈ edges) : occupancy occ (choose_edge occ edges) ≤ occupancy occ e := by
  obtain ⟨pre, post, hsplit, hpre, hpost⟩ := choose_edge_split occ edges h
  generalize choose_edge occ edges = sel at hsplit hpre hpost ⊢
  rw [hsplit] at he
  rcases List.mem_append.1 he with hm | hm
  · exact le_of_lt (hpre _ hm)
  rcases List.mem_cons.1 hm with hm | hm
  · rw [hm]
  · exact hpost _ hm

/-! ## Initialization (lines 9-59 of `run`) -/

theorem init_loop_cons_pass (ini : graph_initial α) (veh_id : uid) (rest : List uid)
    (s : gno_modeling_simple_acceleration α) (h : init_checks_pass ini veh_id) :
    init_loop ini (veh_id :: rest) s =
      init_loop ini rest
        { s with
          m_veh_on_edge := incr s.m_veh_on_edge (choose_edge s.m_veh_on_edge
            (ini.get_graph.edges ((ini.get_initial_state.vehicle veh_id).path.getD 0 0)
              ((ini.get_initial_state.vehicle veh_id).path.getD 1 0)))
          m_states := s.m_states.set veh_id
            ⟨choose_edge s.m_veh_on_edge
              (ini.get_graph.edges ((ini.get_initial_state.vehicle veh_id).path.getD 0 0)
                ((ini.get_initial_state.vehicle veh_id).path.getD 1 0)), 0, 0⟩ } := by
  obtain ⟨h1, h2, h3, h4⟩ := h
  have h1' : ¬ (ini.get_initial_state.vehicle veh_id).path.length < 2 := by omega
  have h4' : ¬ (ini.get_graph.edges ((ini.get_initial_state.vehicle veh_id).path.getD 0 0)
      ((ini.get_initial_state.vehicle veh_id).path.getD 1 0)).length = 0 := by
    rw [List.length_eq_zero]; exact h4
  rw [init_loop]
  simp only []
  rw [if_neg h1', if_neg (not_not_intro h2), if_neg (not_not_intro h3), if_neg h4']

theorem init_loop_cons_fail (ini : graph_initial α) (veh_id : uid) (rest : List uid)
    (s : gno_modeling_simple_acceleration α) (h : ¬ init_checks_pass ini veh_id) :
    (init_loop ini (veh_id :: rest) s).1 ≠ 0 ∧ (init_loop ini (veh_id :: rest) s).2 = s := by
  rw [init_loop]
  simp only []
  split_ifs with h1 h2 h3 h4
  · exact ⟨by simp, rfl⟩
  · exact ⟨by simp, rfl⟩
  · exact ⟨by simp, rfl⟩
  · exact ⟨by simp, rfl⟩
  · exact absurd ⟨by omega, not_not.1 h2, not_not.1 h3, fun h => h4 (by rw [h]; rfl)⟩ h

theorem init_loop_append_pass (ini : graph_initial α) :
    ∀ (pre rest : List uid) (s : gno_modeling_simple_acceleration α),
      (∀ j ∈ pre, init_checks_pass ini j) →
      init_loop ini (pre ++ rest) s = init_loop ini rest (init_loop ini pre s).2
  | [], rest, s, _ => by simp [init_loop]
  | j :: pre, rest, s, h => by
    have hj := h j (List.mem_cons_self _ _)
    rw [List.cons_append, init_loop_cons_pass ini j _ s hj, init_loop_cons_pass ini j _ s hj]
    exact init_loop_append_pass ini pre rest _ (fun i hi => h i (List.mem_cons_of_mem _ hi))

/-- The status of the vehicle loop of `run` is one of the five codes. -/
theorem init_loop_code (ini : graph_initial α) :
    ∀ (ids : List uid) (s : gno_modeling_simple_acceleration α),
      (init_loop ini ids s).1 ∈ [(0 : Int), -1, -2, -3, -4]
  | [], s => by simp [init_loop]
  | j :: ids, s => by
    rw [init_loop]
    simp only []
    split_ifs
    · simp
    · simp
    · simp
    · simp
    · exact init_loop_code ini ids _

/-- The vehicle loop of `run` succeeds exactly when every vehicle passes the checks. -/
theorem init_loop_ok_iff (ini : graph_initial α) :
    ∀ (ids : List uid) (s : gno_modeling_simple_acceleration α),
      (init_loop ini ids s).1 = 0 ↔ ∀ j ∈ ids, init_checks_pass ini j
  | [], s => by simp [init_loop]
  | j :: ids, s => by
    by_cases hj : init_checks_pass ini j
    · rw [init_loop_cons_pass ini j ids s hj, init_loop_ok_iff ini ids]
      simp [hj]
    · have := (init_loop_cons_fail ini j ids s hj).1
      constructor
      · intro h; exact absurd h this
      · intro h; exact absurd (h j (List.mem_cons_self _ _)) hj

/-- What the vehicle loop of `run` leaves untouched. -/
theorem init_loop_frame (ini : graph_initial α) :
    ∀ (ids : List uid) (s : gno_modeling_simple_acceleration α),
      (init_loop ini ids s).2.m_t = s.m_t ∧
      (init_loop ini ids s).2.m_finished = s.m_finished ∧
      (init_loop ini ids s).2.m_velocities = s.m_velocities ∧
      (init_loop ini ids s).2.m_accelerations = s.m_accelerations ∧
      (init_loop ini ids s).2.m_states.length = s.m_states.length ∧
      (init_loop ini ids s).2.m_veh_on_edge.length = s.m_veh_on_edge.length ∧
      ∀ v, v ∉ ids → (init_loop ini ids s).2.m_states.getD v vehicle_discrete_state.zero =
        s.m_states.getD v vehicle_discrete_state.zero
  | [], s => by simp [init_loop]
  | j :: ids, s => by
    by_cases hj : init_checks_pass ini j
    · rw [init_loop_cons_pass ini j ids s hj]
      obtain ⟨h1, h2, h3, h4, h5, h6, h7⟩ := init_loop_frame ini ids
        { s with
          m_veh_on_edge := incr s.m_veh_on_edge (choose_edge s.m_veh_on_edge
            (ini.get_graph.edges ((ini.get_initial_state.vehicle j).path.getD 0 0)
              ((ini.get_initial_state.vehicle j).path.getD 1 0)))
          m_states := s.m_states.set j
            ⟨choose_edge s.m_veh_on_edge
              (ini.get_graph.edges ((ini.get_initial_state.vehicle j).path.getD 0 0)
                ((ini.get_initial_state.vehicle j).path.getD 1 0)), 0, 0⟩ }
      refine ⟨h1, h2, h3, h4, ?_, ?_, ?_⟩
      · rw [h5]; simp
      · rw [h6]; exact length_incr _ _
      · intro v hv
        rw [h7 v (fun h => hv (List.mem_cons_of_mem _ h))]
        exact getD_set_other _ _ _ _ _ (fun h => hv (h ▸ List.mem_cons_self _ _))
    · rw [(init_loop_cons_fail ini j ids s hj).2]
      simp

/-- After a successful vehicle loop of `run` every visited vehicle sits at the start of a
first edge of its path. -/
theorem init_loop_entry (ini : graph_initial α) :
    ∀ (ids : List uid) (s : gno_modeling_simple_acceleration α),
      ids.Nodup → (∀ j ∈ ids, init_checks_pass ini j) →
      ∀ v ∈ ids, v < s.m_states.length →
        ∃ e ∈ ini.get_graph.edges ((ini.get_initial_state.vehicle v).path.getD 0 0)
            ((ini.get_initial_state.vehicle v).path.getD 1 0),
          (init_loop ini ids s).2.m_states.getD v vehicle_discrete_state.zero = ⟨e, 0, 0⟩
  | [], s, _, _, v, hv, _ => by simp at hv
  | j :: ids, s, hnd, hpass, v, hv, hlen => by
    have hj := hpass j (List.mem_cons_self _ _)
    rw [init_loop_cons_pass ini j ids s hj]
    rcases List.mem_cons.1 hv with rfl | hv'
    · refine ⟨_, choose_edge_mem s.m_veh_on_edge _ hj.2.2.2, ?_⟩
      rw [(init_loop_frame ini ids _).2.2.2.2.2.2 v (List.nodup_cons.1 hnd).1]
      exact getD_set_self _ _ _ _ hlen
    · exact init_loop_entry ini ids _ (List.nodup_cons.1 hnd).2
        (fun i hi => hpass i (List.mem_cons_of_mem _ hi)) v hv' (by simpa using hlen)

/-- The shape of the engine state when the vehicle loop of `run` stops. -/
theorem init_loop_reset_shape (c : model_constants α) (ini : graph_initial α)
    (s : gno_modeling_simple_acceleration α) (ids : List uid) :
    (init_loop ini ids (reset c ini s)).2.m_t = 0 ∧
    (init_loop ini ids (reset c ini s)).2.m_finished =
      List.replicate ini.get_initial_state.vehicle_count 0 ∧
    (init_loop ini ids (reset c ini s)).2.m_velocities =
      List.replicate ini.get_initial_state.vehicle_count 0 ∧
    (init_loop ini ids (reset c ini s)).2.m_accelerations =
      List.replicate ini.get_initial_state.vehicle_count c.A_MAX ∧
    (init_loop ini ids (reset c ini s)).2.m_states.length = ini.get_initial_state.vehicle_count ∧
    (init_loop ini ids (reset c ini s)).2.m_veh_on_edge.length = ini.get_graph.edge_count := by
  obtain ⟨h1, h2, h3, h4, h5, h6, -⟩ := init_loop_frame ini ids (reset c ini s)
  refine ⟨by rw [h1]; rfl, by rw [h2]; rfl, by rw [h3]; rfl, by rw [h4]; rfl, ?_, ?_⟩
  · rw [h5]; exact length_resize _ _ _
  · rw [h6]; simp [reset]

/-- The run stops in the vehicle loop at the first vehicle `k` that fails a check. -/
theorem run_stops_at_first_failure (c : model_constants α) (ini : graph_initial α)
    (s : gno_modeling_simple_acceleration α) (fuel : Nat) (k : uid)
    (hk : k < ini.get_initial_state.vehicle_count)
    (hprev : ∀ j, j < k → init_checks_pass ini j) (code : Int) (hcode : code ≠ 0)
    (hres : ∀ (rest : List uid) (s1 : gno_modeling_simple_acceleration α),
      init_loop ini (k :: rest) s1 = (code, s1)) :
    run c ini fuel s = some (code, (init_loop ini (List.range k) (reset c ini s)).2, 0) := by
  obtain ⟨post, hsplit⟩ := range_split hk
  have hpre : ∀ j ∈ List.range k, init_checks_pass ini j :=
    fun j hj => hprev j (List.mem_range.1 hj)
  have hloop : init_loop ini (List.range ini.get_initial_state.vehicle_count) (reset c ini s) =
      (code, (init_loop ini (List.range k) (reset c ini s)).2) := by
    rw [hsplit, init_loop_append_pass ini _ _ _ hpre]; exact hres _ _
  simp only [run, initialize_run, hloop, if_neg hcode]

/-- C1: initialization visits the vehicles in increasing id; at the first vehicle `k` that
fails a check, `run` returns the code of the first failing check (`-1` path shorter than
two nodes, `-2` first node differs from the source, `-3` last node differs from the
destination, `-4` no edge between the first two nodes), whatever the fuel, with no call
of `do_step` and with the clock at 0. -/
theorem run_init_error_code (c : model_constants α) (ini : graph_initial α)
    (s : gno_modeling_simple_acceleration α) (fuel : Nat) (k : uid)
    (hk : k < ini.get_initial_state.vehicle_count)
    (hprev : ∀ j, j < k → init_checks_pass ini j) :
    ∃ S : gno_modeling_simple_acceleration α, S.m_t = 0 ∧
      ((ini.get_initial_state.vehicle k).path.length < 2 →
        run c ini fuel s = some (-1, S, 0)) ∧
      (2 ≤ (ini.get_initial_state.vehicle k).path.length →
        (ini.get_initial_state.vehicle k).path.getD 0 0 ≠ (ini.get_initial_state.vehicle k).src →
        run c ini fuel s = some (-2, S, 0)) ∧
      (2 ≤ (ini.get_initial_state.vehicle k).path.length →
        (ini.get_initial_state.vehicle k).path.getD 0 0 = (ini.get_initial_state.vehicle k).src →
        (ini.get_initial_state.vehicle k).path.getD
            ((ini.get_initial_state.vehicle k).path.length - 1) 0 ≠
          (ini.get_initial_state.vehicle k).dst →
        run c ini fuel s = some (-3, S, 0)) ∧
      (2 ≤ (ini.get_initial_state.vehicle k).path.length →
        (ini.get_initial_state.vehicle k).path.getD 0 0 = (ini.get_initial_state.vehicle k).src →
        (ini.get_initial_state.vehicle k).path.getD
            ((ini.get_initial_state.vehicle k).path.length - 1) 0 =
          (ini.get_initial_state.vehicle k).dst →
        ini.get_graph.edges ((ini.get_initial_state.vehicle k).path.getD 0 0)
            ((ini.get_initial_state.vehicle k).path.getD 1 0) = [] →
        run c ini fuel s = some (-4, S, 0)) := by
  refine ⟨(init_loop ini (List.range k) (reset c ini s)).2,
    (init_loop_reset_shape c ini s _).1, ?_, ?_, ?_, ?_⟩
  · intro h1
    refine run_stops_at_first_failure c ini s fuel k hk hprev (-1) (by decide) ?_
    intro rest s1
    rw [init_loop]; simp only []; rw [if_pos h1]
  · intro h1 h2
    have h1' : ¬ (ini.get_initial_state.vehicle k).path.length < 2 := by omega
    refine run_stops_at_first_failure c ini s fuel k hk hprev (-2) (by decide) ?_
    intro rest s1
    rw [init_loop]; simp only []; rw [if_neg h1', if_pos h2]
  · intro h1 h2 h3
    have h1' : ¬ (ini.get_initial_state.vehicle k).path.length < 2 := by omega
    refine run_stops_at_first_failure c ini s fuel k hk hprev (-3) (by decide) ?_
    intro rest s1
    rw [init_loop]; simp only []; rw [if_neg h1', if_neg (not_not_intro h2), if_pos h3]
  · intro h1 h2 h3 h4
    have h1' : ¬ (ini.get_initial_state.vehicle k).path.length < 2 := by omega
    have h4' : (ini.get_graph.edges ((ini.get_initial_state.vehicle k).path.getD 0 0)
        ((ini.get_initial_state.vehicle k).path.getD 1 0)).length = 0 := by
      rw [h4]; rfl
    refine run_stops_at_first_failure c ini s fuel k hk hprev (-4) (by decide) ?_
    intro rest s1
    rw [init_loop]; simp only []
    rw [if_neg h1', if_neg (not_not_intro h2), if_neg (not_not_intro h3), if_pos h4']

/-- C1, instance: vehicle 0 is valid and the path of vehicle 1 does not start at its declared
source; `run` returns `-2` with the clock at 0 and without a call of `do_step`. -/
theorem run_init_error_code_witness :
    ∃ S : gno_modeling_simple_acceleration ℚ, S.m_t = 0 ∧
      run example_constants (source_mismatch_input ℚ) 0 (fresh_engine ℚ) = some (-2, S, 0) := by
  obtain ⟨S, h0, -, h2, -, -⟩ :=
    run_init_error_code example_constants (source_mismatch_input ℚ) (fresh_engine ℚ) 0 1
      (by decide) (by
        intro j hj
        have hj0 : j = 0 := Nat.lt_one_iff.1 hj
        subst hj0
        exact ⟨by decide, by decide, by decide, by decide⟩)
  exact ⟨S, h0, h2 (by decide) (by decide)⟩

/-- C3, counterexample: on a fresh engine and a scenario whose only vehicle has a one-node
path, `run` returns `-1` but the engine state on return is not the state before the call
(the vectors have been resized and refilled); and on a scenario that contains a one-node
path behind a vehicle with a source mismatch, `run` returns `-2`, not `-1`. -/
theorem run_short_path_mutates_state :
    (run example_constants (single_node_input ℚ) 0 (fresh_engine ℚ) =
        some (-1, ⟨0, [vehicle_discrete_state.zero], [0], [0, 0], [0], [2]⟩, 0) ∧
      (⟨0, [vehicle_discrete_state.zero], [0], [0, 0], [0], [2]⟩ :
        gno_modeling_simple_acceleration ℚ) ≠ fresh_engine ℚ) ∧
    (((mismatch_then_single_node_input ℚ).get_initial_state.vehicle 1).path.length = 1 ∧
      run example_constants (mismatch_then_single_node_input ℚ) 0 (fresh_engine ℚ) =
        some (-2, ⟨0, [vehicle_discrete_state.zero, vehicle_discrete_state.zero], [0, 0],
          [0, 0], [0, 0], [2, 2]⟩, 0)) :=
  ⟨⟨by decide!, by decide!⟩, by decide!, by decide!⟩

/-- C3, amended: when the first vehicle `k` that fails a check has a path with fewer than
two nodes, `run` returns `-1` without a call of `do_step`, after having reset the engine:
the clock is 0, all finished flags are 0, all velocities are 0, all accelerations are
`A_MAX`, the per-vehicle and per-edge vectors have their run-time sizes, and every
vehicle before `k` sits at the start of a first edge of its path. -/
theorem run_short_path_resets (c : model_constants α) (ini : graph_initial α)
    (s : gno_modeling_simple_acceleration α) (fuel : Nat) (k : uid)
    (hk : k < ini.get_initial_state.vehicle_count)
    (hprev : ∀ j, j < k → init_checks_pass ini j)
    (hshort : (ini.get_initial_state.vehicle k).path.length < 2) :
    ∃ S : gno_modeling_simple_acceleration α,
      run c ini fuel s = some (-1, S, 0) ∧
      S.m_t = 0 ∧
      S.m_finished = List.replicate ini.get_initial_state.vehicle_count 0 ∧
      S.m_velocities = List.replicate ini.get_initial_state.vehicle_count 0 ∧
      S.m_accelerations = List.replicate ini.get_initial_state.vehicle_count c.A_MAX ∧
      S.m_states.length = ini.get_initial_state.vehicle_count ∧
      S.m_veh_on_edge.length = ini.get_graph.edge_count ∧
      ∀ j, j < k →
        ∃ e ∈ ini.get_graph.edges ((ini.get_initial_state.vehicle j).path.getD 0 0)
            ((ini.get_initial_state.vehicle j).path.getD 1 0),
          S.m_states.getD j vehicle_discrete_state.zero = ⟨e, 0, 0⟩ := by
  obtain ⟨h1, h2, h3, h4, h5, h6⟩ := init_loop_reset_shape c ini s (List.range k)
  refine ⟨(init_loop ini (List.range k) (reset c ini s)).2, ?_, h1, h2, h3, h4, h5, h6, ?_⟩
  · refine run_stops_at_first_failure c ini s fuel k hk hprev (-1) (by decide) ?_
    intro rest s1
    rw [init_loop]; simp only []; rw [if_pos hshort]
  · intro j hj
    refine init_loop_entry ini (List.range k) (reset c ini s) (List.nodup_range k)
      (fun i hi => hprev i (List.mem_range.1 hi)) j (List.mem_range.2 hj) ?_
    show j < (resize _ _ _).length
    rw [length_resize]
    exact lt_trans hj hk

/-- C3, instance of the amended statement: vehicle 0 is valid and vehicle 1 has a one-node
path; `run` returns `-1` with the clock at 0 after placing vehicle 0. -/
theorem run_short_path_resets_witness :
    ∃ S : gno_modeling_simple_acceleration ℚ,
      run example_constants (late_single_node_input ℚ) 0 (fresh_engine ℚ) = some (-1, S, 0) ∧
      S.m_t = 0 ∧ S.m_finished = [0, 0] ∧ S.m_states.length = 2 := by
  obtain ⟨S, h1, h2, h3, -, -, h6, -, -⟩ :=
    run_short_path_resets example_constants (late_single_node_input ℚ) (fresh_engine ℚ) 0 1
      (by decide) (by
        intro j hj
        have hj0 : j = 0 := Nat.lt_one_iff.1 hj
        subst hj0
        exact ⟨by decide, by decide, by decide, by decide⟩) (by decide)
  exact ⟨S, h1, h2, h3, h6⟩

theorem occupancy_replicate_zero (n : Nat) (e : uid) :
    occupancy (List.replicate n 0) e = 0 :=
  getD_replicate_eq n e 0

/-- Incrementing a least-occupied candidate keeps the candidates within one of each other. -/
theorem balanced_incr_choose (occ : List Int) (es : List uid) (hne : es ≠ [])
    (hbal : ∀ e ∈ es, ∀ e' ∈ es, occupancy occ e ≤ occupancy occ e' + 1) :
    ∀ e ∈ es, ∀ e' ∈ es,
      occupancy (incr occ (choose_edge occ es)) e ≤
        occupancy (incr occ (choose_edge occ es)) e' + 1 := by
  intro e he e' he'
  have hsel := choose_edge_mem occ es hne
  have hmin := choose_edge_le occ es hne
  by_cases hr : choose_edge occ es < occ.length
  · by_cases h1 : choose_edge occ es = e
    · by_cases h2 : choose_edge occ es = e'
      · rw [← h1, ← h2]; omega
      · rw [occupancy_incr_other occ _ e' h2, ← h1, occupancy_incr_self occ _ hr]
        have := hmin e' he'
        omega
    · by_cases h2 : choose_edge occ es = e'
      · rw [occupancy_incr_other occ _ e h1, ← h2, occupancy_incr_self occ _ hr]
        have := hbal e he _ hsel
        omega
      · rw [occupancy_incr_other occ _ e h1, occupancy_incr_other occ _ e' h2]
        exact hbal e he e' he'
  · rw [occupancy_incr_oob occ _ e (not_lt.1 hr), occupancy_incr_oob occ _ e' (not_lt.1 hr)]
    exact hbal e he e' he'

theorem init_loop_balanced (ini : graph_initial α) (es : List uid) :
    ∀ (ids : List uid) (s : gno_modeling_simple_acceleration α),
      (∀ j ∈ ids, init_checks_pass ini j ∧
        ini.get_graph.edges ((ini.get_initial_state.vehicle j).path.getD 0 0)
          ((ini.get_initial_state.vehicle j).path.getD 1 0) = es) →
      (∀ e ∈ es, ∀ e' ∈ es, occupancy s.m_veh_on_edge e ≤ occupancy s.m_veh_on_edge e' + 1) →
      ∀ e ∈ es, ∀ e' ∈ es,
        occupancy (init_loop ini ids s).2.m_veh_on_edge e ≤
          occupancy (init_loop ini ids s).2.m_veh_on_edge e' + 1
  | [], s, _, hbal => by simpa [init_loop] using hbal
  | j :: ids, s, hall, hbal => by
    obtain ⟨hj, hes⟩ := hall j (List.mem_cons_self _ _)
    rw [init_loop_cons_pass ini j ids s hj]
    refine init_loop_balanced ini es ids _ (fun i hi => hall i (List.mem_cons_of_mem _ hi)) ?_
    show ∀ e ∈ es, ∀ e' ∈ es, occupancy (incr s.m_veh_on_edge _) e ≤
      occupancy (incr s.m_veh_on_edge _) e' + 1
    rw [hes]
    exact balanced_incr_choose s.m_veh_on_edge es (hes ▸ hj.2.2.2) hbal

theorem choose_edge_pair (occ : List Int) (e1 e2 : uid) :
    choose_edge occ [e1, e2] = if occupancy occ e2 < occupancy occ e1 then e2 else e1 := by
  simp [choose_edge, choose_step]

/-- C10: when every vehicle has a valid path starting with the same node pair `(u, v)` and
the graph returns a duplicate-free list of edges for that pair (non-empty, as the paths
are valid), initialization succeeds and afterwards the occupancy counters of any two candidate edges differ by at
most one; in particular two vehicles competing for two parallel edges (both below
`edge_count`) end on different edges, the first candidate for vehicle 0 and the second
for vehicle 1, with occupancy one each. -/
theorem initialize_run_balances (c : model_constants α) (ini : graph_initial α)
    (s : gno_modeling_simple_acceleration α) (u v : uid)
    (hall : ∀ j, j < ini.get_initial_state.vehicle_count →
      init_checks_pass ini j ∧ (ini.get_initial_state.vehicle j).path.getD 0 0 = u ∧
        (ini.get_initial_state.vehicle j).path.getD 1 0 = v)
    (hnd : (ini.get_graph.edges u v).Nodup) :
    (initialize_run c ini s).1 = 0 ∧
    (∀ e ∈ ini.get_graph.edges u v, ∀ e' ∈ ini.get_graph.edges u v,
      |occupancy (initialize_run c ini s).2.m_veh_on_edge e -
        occupancy (initialize_run c ini s).2.m_veh_on_edge e'| ≤ 1) ∧
    (∀ e1 e2, ini.get_graph.edges u v = [e1, e2] →
      e1 < ini.get_graph.edge_count → e2 < ini.get_graph.edge_count →
      ini.get_initial_state.vehicle_count = 2 →
      ((initialize_run c ini s).2.m_states.getD 0 vehicle_discrete_state.zero).edge_uid = e1 ∧
      ((initialize_run c ini s).2.m_states.getD 1 vehicle_discrete_state.zero).edge_uid = e2 ∧
      occupancy (initialize_run c ini s).2.m_veh_on_edge e1 = 1 ∧
      occupancy (initialize_run c ini s).2.m_veh_on_edge e2 = 1) := by
  have hpass : ∀ j ∈ List.range ini.get_initial_state.vehicle_count, init_checks_pass ini j :=
    fun j hj => (hall j (List.mem_range.1 hj)).1
  have hok : (init_loop ini (List.range ini.get_initial_state.vehicle_count)
      (reset c ini s)).1 = 0 := (init_loop_ok_iff ini _ _).2 hpass
  have hrun : (initialize_run c ini s).2 =
      (init_loop ini (List.range ini.get_initial_state.vehicle_count) (reset c ini s)).2 := by
    simp only [initialize_run, hok, if_true, find_critical_time]
  refine ⟨by simp only [initialize_run, hok, if_true], ?_, ?_⟩
  · have hbal := init_loop_balanced ini (ini.get_graph.edges u v)
      (List.range ini.get_initial_state.vehicle_count) (reset c ini s)
      (fun j hj => by
        obtain ⟨h1, h2, h3⟩ := hall j (List.mem_range.1 hj)
        exact ⟨h1, by rw [h2, h3]⟩)
      (fun e _ e' _ => by
        show occupancy (List.replicate _ 0) e ≤ occupancy (List.replicate _ 0) e' + 1
        rw [occupancy_replicate_zero, occupancy_replicate_zero]; decide)
    intro e he e' he'
    rw [hrun, abs_le]
    have h1 := hbal e he e' he'
    have h2 := hbal e' he' e he
    constructor <;> omega
  · intro e1 e2 hes hr1 hr2 hn
    have hne12 : e1 ≠ e2 := by
      rw [hes] at hnd
      simpa using hnd
    obtain ⟨hp0, hu0, hv0⟩ := hall 0 (by omega)
    obtain ⟨hp1, hu1, hv1⟩ := hall 1 (by omega)
    have hrange : List.range ini.get_initial_state.vehicle_count = [0, 1] := by
      rw [hn]; rfl
    rw [hrun, hrange, init_loop_cons_pass ini 0 _ _ hp0, init_loop_cons_pass ini 1 _ _ hp1,
      hu0, hv0, hu1, hv1, hes]
    simp only [init_loop]
    have hocc0 : ∀ e, occupancy (reset c ini s).m_veh_on_edge e = 0 :=
      fun e => occupancy_replicate_zero _ e
    have hlen0 : (reset c ini s).m_veh_on_edge.length = ini.get_graph.edge_count := by
      simp [reset]
    have hst0 : (reset c ini s).m_states.length = 2 := by
      show (resize _ _ _).length = 2
      rw [length_resize, hn]
    have hc0 : choose_edge (reset c ini s).m_veh_on_edge [e1, e2] = e1 := by
      rw [choose_edge_pair, hocc0, hocc0]; simp
    rw [hc0]
    have ho1 : occupancy (incr (reset c ini s).m_veh_on_edge e1) e1 = 1 := by
      rw [occupancy_incr_self _ _ (by rw [hlen0]; exact hr1), hocc0]; rfl
    have ho2 : occupancy (incr (reset c ini s).m_veh_on_edge e1) e2 = 0 := by
      rw [occupancy_incr_other _ _ _ hne12, hocc0]
    have hc1 : choose_edge (incr (reset c ini s).m_veh_on_edge e1) [e1, e2] = e2 := by
      rw [choose_edge_pair, ho1, ho2]; simp
    rw [hc1]
    refine ⟨?_, ?_, ?_, ?_⟩
    · rw [getD_set_other _ _ _ _ _ (by decide), getD_set_self _ _ _ _ (by rw [hst0]; decide)]
    · rw [getD_set_self _ _ _ _ (by rw [List.length_set, hst0]; decide)]
    · rw [occupancy_incr_other _ _ _ (Ne.symm hne12), ho1]
    · rw [occupancy_incr_self _ _ (by rw [length_incr, hlen0]; exact hr2), ho2]; rfl

/-- C10, instance: two vehicles on the graph with two parallel edges between nodes 0 and 1
are placed on different edges, each edge with occupancy one. -/
theorem initialize_run_balances_witness :
    ((initialize_run example_constants (parallel_input ℚ) (fresh_engine ℚ)).2.m_states.getD 0
        vehicle_discrete_state.zero).edge_uid = 0 ∧
    ((initialize_run example_constants (parallel_input ℚ) (fresh_engine ℚ)).2.m_states.getD 1
        vehicle_discrete_state.zero).edge_uid = 1 ∧
    occupancy (initialize_run example_constants (parallel_input ℚ)
      (fresh_engine ℚ)).2.m_veh_on_edge 0 = 1 ∧
    occupancy (initialize_run example_constants (parallel_input ℚ)
      (fresh_engine ℚ)).2.m_veh_on_edge 1 = 1 :=
  (initialize_run_balances example_constants (parallel_input ℚ) (fresh_engine ℚ) 0 1
    (by
      intro j hj
      have hj' : j < 2 := hj
      interval_cases j
      · exact ⟨⟨by decide, by decide, by decide, by decide⟩, by decide, by decide⟩
      · exact ⟨⟨by decide, by decide, by decide, by decide⟩, by decide, by decide⟩)
    (by decide)).2.2 0 1 (by decide) (by decide) (by decide) (by decide)

/-! ## `is_finished` -/

theorem is_finish_congr (c : model_constants α) (ini : graph_initial α)
    (s s1 : gno_modeling_simple_acceleration α) (h : s1.m_states = s.m_states) (v : uid) :
    is_finish c ini s1 v = is_finish c ini s v := by
  simp only [is_finish, h]

theorem is_finish_iff (c : model_constants α) (ini : graph_initial α)
    (s : gno_modeling_simple_acceleration α) (v : uid) :
    is_finish c ini s v = true ↔
      fuzzy_eq c (s.m_states.getD v vehicle_discrete_state.zero).part 1 = true ∧
      (s.m_states.getD v vehicle_discrete_state.zero).edge_uid ∈
        ini.get_graph.edges_ended_on (ini.get_initial_state.vehicle v).dst := by
  simp [is_finish]

/-- What the vehicle loop of `is_finished` does: it touches nothing but the finished flags,
never clears a flag, sets a flag only for a vehicle that `is_finish`, and returns `true`
exactly when afterwards every visited vehicle is flagged. -/
theorem is_finished_loop_spec (c : model_constants α) (ini : graph_initial α) :
    ∀ (ids : List uid) (res : Bool) (s : gno_modeling_simple_acceleration α),
      (is_finished_loop c ini ids res s).2.m_t = s.m_t ∧
      (is_finished_loop c ini ids res s).2.m_states = s.m_states ∧
      (is_finished_loop c ini ids res s).2.m_veh_on_edge = s.m_veh_on_edge ∧
      (is_finished_loop c ini ids res s).2.m_velocities = s.m_velocities ∧
      (is_finished_loop c ini ids res s).2.m_accelerations = s.m_accelerations ∧
      (is_finished_loop c ini ids res s).2.m_finished.length = s.m_finished.length ∧
      (∀ v, s.m_finished.getD v 0 = 1 →
        (is_finished_loop c ini ids res s).2.m_finished.getD v 0 = 1) ∧
      (∀ v, (is_finished_loop c ini ids res s).2.m_finished.getD v 0 = 1 →
        s.m_finished.getD v 0 = 1 ∨ (v ∈ ids ∧ is_finish c ini s v = true)) ∧
      ((is_finished_loop c ini ids res s).1 = true →
        res = true ∧ ∀ v ∈ ids, v < s.m_finished.length →
          (is_finished_loop c ini ids res s).2.m_finished.getD v 0 = 1) ∧
      ((is_finished_loop c ini ids res s).1 = false →
        res = false ∨ ∃ v ∈ ids, s.m_finished.getD v 0 ≠ 1 ∧ is_finish c ini s v = false)
  | [], res, s => by
    simp [is_finished_loop]
  | j :: ids, res, s => by
    rw [is_finished_loop]
    split_ifs with h1 h2
    · obtain ⟨a1, a2, a3, a4, a5, a6, a7, a8, a9, a10⟩ := is_finished_loop_spec c ini ids res s
      refine ⟨a1, a2, a3, a4, a5, a6, a7, ?_, ?_, ?_⟩
      · intro v hv
        rcases a8 v hv with h | ⟨h, h'⟩
        · exact Or.inl h
        · exact Or.inr ⟨List.mem_cons_of_mem _ h, h'⟩
      · intro hr
        refine ⟨(a9 hr).1, ?_⟩
        intro v hv hlen
        rcases List.mem_cons.1 hv with rfl | hv'
        · exact a7 v h1
        · exact (a9 hr).2 v hv' hlen
      · intro hr
        rcases a10 hr with h | ⟨v, hv, h⟩
        · exact Or.inl h
        · exact Or.inr ⟨v, List.mem_cons_of_mem _ hv, h⟩
    · obtain ⟨a1, a2, a3, a4, a5, a6, a7, a8, a9, a10⟩ :=
        is_finished_loop_spec c ini ids res { s with m_finished := s.m_finished.set j 1 }
      have hcongr : ∀ v, is_finish c ini { s with m_finished := s.m_finished.set j 1 } v =
          is_finish c ini s v := fun v => is_finish_congr c ini s _ rfl v
      have hset : ∀ v, s.m_finished.getD v 0 = 1 → (s.m_finished.set j 1).getD v 0 = 1 := by
        intro v hv
        by_cases hjv : j = v
        · subst hjv; exact absurd hv h1
        · rw [getD_set_other _ _ _ _ _ hjv]; exact hv
      refine ⟨a1, a2, a3, a4, a5, by rw [a6]; simp, fun v hv => a7 v (hset v hv), ?_, ?_, ?_⟩
      · intro v hv
        rcases a8 v hv with h | ⟨h, h'⟩
        · by_cases hjv : j = v
          · subst hjv; exact Or.inr ⟨List.mem_cons_self _ _, h2⟩
          · left
            have h' : (s.m_finished.set j 1).getD v 0 = 1 := h
            rwa [getD_set_other _ _ _ _ _ hjv] at h'
        · exact Or.inr ⟨List.mem_cons_of_mem _ h, by rw [← hcongr]; exact h'⟩
      · intro hr
        refine ⟨(a9 hr).1, ?_⟩
        intro v hv hlen
        rcases List.mem_cons.1 hv with rfl | hv'
        · exact a7 v (getD_set_self _ _ _ _ hlen)
        · exact (a9 hr).2 v hv' (by simpa using hlen)
      · intro hr
        rcases a10 hr with h | ⟨v, hv, h, h'⟩
        · exact Or.inl h
        · refine Or.inr ⟨v, List.mem_cons_of_mem _ hv, ?_, by rw [← hcongr]; exact h'⟩
          intro hv1
          exact h (hset v hv1)
    · obtain ⟨a1, a2, a3, a4, a5, a6, a7, a8, a9, a10⟩ :=
        is_finished_loop_spec c ini ids false s
      refine ⟨a1, a2, a3, a4, a5, a6, a7, ?_, ?_, ?_⟩
      · intro v hv
        rcases a8 v hv with h | ⟨h, h'⟩
        · exact Or.inl h
        · exact Or.inr ⟨List.mem_cons_of_mem _ h, h'⟩
      · intro hr
        exact absurd (a9 hr).1 (by simp)
      · intro _
        exact Or.inr ⟨j, List.mem_cons_self _ _, h1, by simpa using h2⟩

theorem is_finished_loop_sets (c : model_constants α) (ini : graph_initial α) :
    ∀ (ids : List uid) (res : Bool) (s : gno_modeling_simple_acceleration α),
      ∀ v ∈ ids, v < s.m_finished.length → is_finish c ini s v = true →
        (is_finished_loop c ini ids res s).2.m_finished.getD v 0 = 1
  | [], _, _, v, hv, _, _ => by simp at hv
  | j :: ids, res, s, v, hv, hlen, hf => by
    rw [is_finished_loop]
    split_ifs with h1 h2
    · rcases List.mem_cons.1 hv with rfl | hv'
      · exact (is_finished_loop_spec c ini ids res s).2.2.2.2.2.2.1 v h1
      · exact is_finished_loop_sets c ini ids res s v hv' hlen hf
    · rcases List.mem_cons.1 hv with rfl | hv'
      · exact (is_finished_loop_spec c ini ids res _).2.2.2.2.2.2.1 v
          (getD_set_self _ _ _ _ hlen)
      · exact is_finished_loop_sets c ini ids res _ v hv' (by simpa using hlen)
          ((is_finish_congr c ini s _ rfl v).trans hf)
    · rcases List.mem_cons.1 hv with rfl | hv'
      · rw [hf] at h2; exact absurd rfl h2
      · exact is_finished_loop_sets c ini ids false s v hv' hlen hf

/-- The method `is_finished`, for an engine whose flag vector has one entry per vehicle. -/
theorem is_finished_spec (c : model_constants α) (ini : graph_initial α)
    (s : gno_modeling_simple_acceleration α)
    (hlen : s.m_finished.length = ini.get_initial_state.vehicle_count) :
    (is_finished c ini s).2.m_t = s.m_t ∧
    (is_finished c ini s).2.m_states = s.m_states ∧
    (is_finished c ini s).2.m_veh_on_edge = s.m_veh_on_edge ∧
    (is_finished c ini s).2.m_velocities = s.m_velocities ∧
    (is_finished c ini s).2.m_accelerations = s.m_accelerations ∧
    (is_finished c ini s).2.m_finished.length = ini.get_initial_state.vehicle_count ∧
    (∀ v, (is_finished c ini s).2.m_finished.getD v 0 = 1 ↔
      s.m_finished.getD v 0 = 1 ∨
        (v < ini.get_initial_state.vehicle_count ∧ is_finish c ini s v = true)) ∧
    ((is_finished c ini s).1 = true →
      ∀ v, v < ini.get_initial_state.vehicle_count →
        (is_finished c ini s).2.m_finished.getD v 0 = 1) ∧
    ((is_finished c ini s).1 = false →
      ∃ v, v < ini.get_initial_state.vehicle_count ∧
        (is_finished c ini s).2.m_finished.getD v 0 ≠ 1) := by
  obtain ⟨a1, a2, a3, a4, a5, a6, a7, a8, a9, a10⟩ :=
    is_finished_loop_spec c ini (List.range ini.get_initial_state.vehicle_count) true s
  have hback : ∀ v, (is_finished c ini s).2.m_finished.getD v 0 = 1 →
      s.m_finished.getD v 0 = 1 ∨
        (v < ini.get_initial_state.vehicle_count ∧ is_finish c ini s v = true) := by
    intro v hv
    rcases a8 v hv with h | ⟨h, h'⟩
    · exact Or.inl h
    · exact Or.inr ⟨List.mem_range.1 h, h'⟩
  refine ⟨a1, a2, a3, a4, a5, by rw [← hlen]; exact a6, ?_, ?_, ?_⟩
  · intro v
    refine ⟨hback v, ?_⟩
    rintro (h | ⟨hv, hf⟩)
    · exact a7 v h
    · exact is_finished_loop_sets c ini _ true s v (List.mem_range.2 hv)
        (by rw [hlen]; exact hv) hf
  · intro hr v hv
    exact (a9 hr).2 v (List.mem_range.2 hv) (by rw [hlen]; exact hv)
  · intro hr
    rcases a10 hr with h | ⟨v, hv, h, h'⟩
    · exact absurd h (by simp)
    · refine ⟨v, List.mem_range.1 hv, ?_⟩
      intro hv1
      rcases hback v hv1 with h1 | ⟨-, h2⟩
      · exact h h1
      · rw [h'] at h2; exact absurd h2 (by simp)

/-! ## `do_step`: the loop that moves the vehicles (lines 153-198) -/

theorem advanced_part_congr (ini : graph_initial α) (dt : α)
    (s s1 : gno_modeling_simple_acceleration α) (v : uid)
    (h1 : s1.m_states.getD v vehicle_discrete_state.zero =
      s.m_states.getD v vehicle_discrete_state.zero)
    (h2 : s1.m_velocities = s.m_velocities) (h3 : s1.m_accelerations = s.m_accelerations) :
    advanced_part ini dt s1 v = advanced_part ini dt s v := by
  simp only [advanced_part, h1, h2, h3]

/-- The effect of the moving loop of `do_step`, vehicle by vehicle. -/
theorem advance_loop_spec (c : model_constants α) (ini : graph_initial α) (dt : α) :
    ∀ (ids : List uid) (s : gno_modeling_simple_acceleration α),
      ids.Nodup → (∀ v ∈ ids, v < s.m_states.length) →
      ((advance_loop c ini dt ids s).2.m_t = s.m_t ∧
        (advance_loop c ini dt ids s).2.m_finished = s.m_finished ∧
        (advance_loop c ini dt ids s).2.m_velocities = s.m_velocities ∧
        (advance_loop c ini dt ids s).2.m_accelerations = s.m_accelerations ∧
        (advance_loop c ini dt ids s).2.m_states.length = s.m_states.length ∧
        (advance_loop c ini dt ids s).2.m_veh_on_edge.length = s.m_veh_on_edge.length) ∧
      (∀ v, v ∉ ids ∨ s.m_finished.getD v 0 = 1 →
        (advance_loop c ini dt ids s).2.m_states.getD v vehicle_discrete_state.zero =
          s.m_states.getD v vehicle_discrete_state.zero) ∧
      ((advance_loop c ini dt ids s).1 = 0 ∨ (advance_loop c ini dt ids s).1 = -1) ∧
      (∀ v ∈ ids, s.m_finished.getD v 0 ≠ 1 →
        ((advance_loop c ini dt ids s).2.m_states.getD v vehicle_discrete_state.zero =
            s.m_states.getD v vehicle_discrete_state.zero ∧
          (advance_loop c ini dt ids s).1 = -1) ∨
        moved_on c ini v (s.m_states.getD v vehicle_discrete_state.zero)
          (advanced_part ini dt s v)
          ((advance_loop c ini dt ids s).2.m_states.getD v vehicle_discrete_state.zero) ∨
        (dead_end c ini v (s.m_states.getD v vehicle_discrete_state.zero)
            (advanced_part ini dt s v) ∧
          (advance_loop c ini dt ids s).2.m_states.getD v vehicle_discrete_state.zero =
            { s.m_states.getD v vehicle_discrete_state.zero with
              part := advanced_part ini dt s v } ∧
          (advance_loop c ini dt ids s).1 = -1)) ∧
      ((advance_loop c ini dt ids s).1 = -1 →
        ∃ v ∈ ids, s.m_finished.getD v 0 ≠ 1 ∧
          dead_end c ini v (s.m_states.getD v vehicle_discrete_state.zero)
            (advanced_part ini dt s v))
  | [], s, _, _ => by
    simp [advance_loop]
  | j :: ids, s, hnd, hlen => by
    have hj : j ∉ ids := (List.nodup_cons.1 hnd).1
    have hnd' : ids.Nodup := (List.nodup_cons.1 hnd).2
    have hjlen : j < s.m_states.length := hlen j (List.mem_cons_self _ _)
    have hlen' : ∀ v ∈ ids, v < s.m_states.length :=
      fun v hv => hlen v (List.mem_cons_of_mem _ hv)
    -- transport of the induction hypothesis from a state that differs from `s` in entry `j`
    have key : ∀ (s1 : gno_modeling_simple_acceleration α),
        s1.m_t = s.m_t → s1.m_finished = s.m_finished → s1.m_velocities = s.m_velocities →
        s1.m_accelerations = s.m_accelerations → s1.m_states.length = s.m_states.length →
        s1.m_veh_on_edge.length = s.m_veh_on_edge.length →
        (∀ v, v ≠ j → s1.m_states.getD v vehicle_discrete_state.zero =
          s.m_states.getD v vehicle_discrete_state.zero) →
        s.m_finished.getD j 0 ≠ 1 →
        moved_on c ini j (s.m_states.getD j vehicle_discrete_state.zero)
          (advanced_part ini dt s j) (s1.m_states.getD j vehicle_discrete_state.zero) →
        ((advance_loop c ini dt ids s1).2.m_t = s.m_t ∧
          (advance_loop c ini dt ids s1).2.m_finished = s.m_finished ∧
          (advance_loop c ini dt ids s1).2.m_velocities = s.m_velocities ∧
          (advance_loop c ini dt ids s1).2.m_accelerations = s.m_accelerations ∧
          (advance_loop c ini dt ids s1).2.m_states.length = s.m_states.length ∧
          (advance_loop c ini dt ids s1).2.m_veh_on_edge.length = s.m_veh_on_edge.length) ∧
        (∀ v, v ∉ j :: ids ∨ s.m_finished.getD v 0 = 1 →
          (advance_loop c ini dt ids s1).2.m_states.getD v vehicle_discrete_state.zero =
            s.m_states.getD v vehicle_discrete_state.zero) ∧
        ((advance_loop c ini dt ids s1).1 = 0 ∨ (advance_loop c ini dt ids s1).1 = -1) ∧
        (∀ v ∈ j :: ids, s.m_finished.getD v 0 ≠ 1 →
          ((advance_loop c ini dt ids s1).2.m_states.getD v vehicle_discrete_state.zero =
              s.m_states.getD v vehicle_discrete_state.zero ∧
            (advance_loop c ini dt ids s1).1 = -1) ∨
          moved_on c ini v (s.m_states.getD v vehicle_discrete_state.zero)
            (advanced_part ini dt s v)
            ((advance_loop c ini dt ids s1).2.m_states.getD v vehicle_discrete_state.zero) ∨
          (dead_end c ini v (s.m_states.getD v vehicle_discrete_state.zero)
              (advanced_part ini dt s v) ∧
            (advance_loop c ini dt ids s1).2.m_states.getD v vehicle_discrete_state.zero =
              { s.m_states.getD v vehicle_discrete_state.zero with
                part := advanced_part ini dt s v } ∧
            (advance_loop c ini dt ids s1).1 = -1)) ∧
        ((advance_loop c ini dt ids s1).1 = -1 →
          ∃ v ∈ j :: ids, s.m_finished.getD v 0 ≠ 1 ∧
            dead_end c ini v (s.m_states.getD v vehicle_discrete_state.zero)
              (advanced_part ini dt s v)) := by
      intro s1 e1 e2 e3 e4 e5 e6 e7 hfj hmj
      obtain ⟨⟨a1, a2, a3, a4, a5, a6⟩, b, cc, d, e⟩ :=
        advance_loop_spec c ini dt ids s1 hnd' (fun v hv => by rw [e5]; exact hlen' v hv)
      have hne : ∀ v ∈ ids, v ≠ j := fun v hv h => hj (h ▸ hv)
      have hpart : ∀ v, v ≠ j → advanced_part ini dt s1 v = advanced_part ini dt s v :=
        fun v hv => advanced_part_congr ini dt s s1 v (e7 v hv) e3 e4
      refine ⟨⟨a1.trans e1, a2.trans e2, a3.trans e3, a4.trans e4, a5.trans e5, a6.trans e6⟩,
        ?_, cc, ?_, ?_⟩
      · intro v hv
        have hvj : v ≠ j := by
          rcases hv with hv | hv
          · exact fun h => hv (h ▸ List.mem_cons_self _ _)
          · exact fun h => hfj (h ▸ hv)
        rw [← e7 v hvj]
        apply b
        rcases hv with hv | hv
        · exact Or.inl (fun h => hv (List.mem_cons_of_mem _ h))
        · exact Or.inr (by rw [e2]; exact hv)
      · intro v hv hfv
        rcases List.mem_cons.1 hv with rfl | hv'
        · right; left
          rw [b v (Or.inl hj)]
          exact hmj
        · have := d v hv' (by rw [e2]; exact hfv)
          rw [e7 v (hne v hv'), hpart v (hne v hv')] at this
          exact this
      · intro hr
        obtain ⟨v, hv, hfv, hd⟩ := e hr
        refine ⟨v, List.mem_cons_of_mem _ hv, by rw [← e2]; exact hfv, ?_⟩
        rw [e7 v (hne v hv), hpart v (hne v hv)] at hd
        exact hd
    rw [advance_loop]
    simp only []
    split_ifs with h1 h2 h3 h4
    · -- vehicle `j` is finished
      obtain ⟨a, b, cc, d, e⟩ := advance_loop_spec c ini dt ids s hnd' hlen'
      refine ⟨a, ?_, cc, ?_, ?_⟩
      · intro v hv
        apply b
        rcases hv with hv | hv
        · exact Or.inl (fun h => hv (List.mem_cons_of_mem _ h))
        · exact Or.inr hv
      · intro v hv hfv
        rcases List.mem_cons.1 hv with rfl | hv'
        · exact absurd h1 hfv
        · exact d v hv' hfv
      · intro hr
        obtain ⟨v, hv, h⟩ := e hr
        exact ⟨v, List.mem_cons_of_mem _ hv, h⟩
    · -- edge complete, last node pair
      refine key _ rfl rfl rfl rfl (by simp) rfl
        (fun v hv => getD_set_other _ _ _ _ _ (Ne.symm hv)) h1 ?_
      left
      exact ⟨getD_set_self _ _ _ _ hjlen, fun _ => h3⟩
    · -- edge complete, no edge for the next node pair
      have hnil : next_edges ini j (s.m_states.getD j vehicle_discrete_state.zero) = [] :=
        List.length_eq_zero.1 h4
      refine ⟨⟨rfl, rfl, rfl, rfl, by simp, rfl⟩, ?_, Or.inr rfl, ?_, ?_⟩
      · intro v hv
        have hvj : j ≠ v := by
          rcases hv with hv | hv
          · exact fun h => hv (h ▸ List.mem_cons_self _ _)
          · exact fun h => h1 (h ▸ hv)
        exact getD_set_other _ _ _ _ _ hvj
      · intro v hv hfv
        rcases List.mem_cons.1 hv with rfl | hv'
        · right; right
          exact ⟨⟨h2, h3, hnil⟩, getD_set_self _ _ _ _ hjlen, rfl⟩
        · left
          exact ⟨getD_set_other _ _ _ _ _ (fun h => hj (h ▸ hv')), rfl⟩
      · intro _
        exact ⟨j, List.mem_cons_self _ _, h1, h2, h3, hnil⟩
    · -- edge complete, the vehicle enters the next edge
      have hne : next_edges ini j (s.m_states.getD j vehicle_discrete_state.zero) ≠ [] :=
        fun h => h4 (List.length_eq_zero.2 h)
      refine key _ rfl rfl rfl rfl (by simp) (by simp [length_incr, length_decr])
        (fun v hv => by
          show ((s.m_states.set j _).set j _).getD v _ = _
          rw [getD_set_other _ _ _ _ _ (Ne.symm hv), getD_set_other _ _ _ _ _ (Ne.symm hv)])
        h1 ?_
      right
      refine ⟨h2, h3, choose_edge s.m_veh_on_edge
        (next_edges ini j (s.m_states.getD j vehicle_discrete_state.zero)),
        choose_edge_mem _ _ hne, ?_⟩
      exact getD_set_self _ _ _ _ (by simpa using hjlen)
    · -- edge not complete
      refine key _ rfl rfl rfl rfl (by simp) rfl
        (fun v hv => getD_set_other _ _ _ _ _ (Ne.symm hv)) h1 ?_
      left
      exact ⟨getD_set_self _ _ _ _ hjlen, fun h => absurd h h2⟩

/-! ## `do_step`: occupancy, velocities, and the whole step -/

theorem recount_loop_spec (m_states : List (vehicle_discrete_state α)) :
    ∀ (ids : List uid) (occ : List Int),
      (recount_loop m_states ids occ).length = occ.length ∧
      ((∀ v ∈ ids, (m_states.getD v vehicle_discrete_state.zero).edge_uid < occ.length) →
        (recount_loop m_states ids occ).sum = occ.sum + ids.length)
  | [], occ => by simp [recount_loop]
  | j :: ids, occ => by
    rw [recount_loop]
    obtain ⟨h1, h2⟩ := recount_loop_spec m_states ids
      (incr occ (m_states.getD j vehicle_discrete_state.zero).edge_uid)
    refine ⟨by rw [h1, length_incr], ?_⟩
    intro h
    rw [h2 (fun v hv => by rw [length_incr]; exact h v (List.mem_cons_of_mem _ hv)),
      sum_incr _ _ (h j (List.mem_cons_self _ _))]
    simp only [List.length_cons]
    push_cast
    ring

/-- The moving loop of `do_step` keeps the sum of the occupancy counters, as long as every
edge in use or returned by the graph indexes the occupancy vector. -/
theorem advance_loop_sum (c : model_constants α) (ini : graph_initial α) (dt : α) (L : Nat)
    (hg : ∀ u v e, e ∈ ini.get_graph.edges u v → e < L) :
    ∀ (ids : List uid) (s : gno_modeling_simple_acceleration α),
      s.m_veh_on_edge.length = L → (∀ v ∈ ids, v < s.m_states.length) →
      (∀ v, v < s.m_states.length →
        (s.m_states.getD v vehicle_discrete_state.zero).edge_uid < L) →
      (advance_loop c ini dt ids s).2.m_veh_on_edge.sum = s.m_veh_on_edge.sum ∧
      (∀ v, v < (advance_loop c ini dt ids s).2.m_states.length →
        ((advance_loop c ini dt ids s).2.m_states.getD v vehicle_discrete_state.zero).edge_uid
          < L)
  | [], s, _, _, hin => by simpa [advance_loop] using hin
  | j :: ids, s, hL, hids, hin => by
    have hjl : j < s.m_states.length := hids j (List.mem_cons_self _ _)
    have hids' : ∀ v ∈ ids, v < s.m_states.length :=
      fun v hv => hids v (List.mem_cons_of_mem _ hv)
    have hpart : ∀ (p : α) (v : uid),
        v < (s.m_states.set j
          { s.m_states.getD j vehicle_discrete_state.zero with part := p }).length →
        ((s.m_states.set j
          { s.m_states.getD j vehicle_discrete_state.zero with part := p }).getD v
            vehicle_discrete_state.zero).edge_uid < L := by
      intro p v hv
      have hv' : v < s.m_states.length := by simpa using hv
      by_cases hjv : j = v
      · subst hjv
        rw [getD_set_self _ _ _ _ hv']
        exact hin j hv'
      · rw [getD_set_other _ _ _ _ _ hjv]
        exact hin v hv'
    rw [advance_loop]
    simp only []
    split_ifs with h1 h2 h3 h4
    · exact advance_loop_sum c ini dt L hg ids s hL hids' hin
    · exact advance_loop_sum c ini dt L hg ids _ hL (by simpa using hids') (hpart _)
    · exact ⟨rfl, hpart _⟩
    · have hne : ini.get_graph.edges
          ((ini.get_initial_state.vehicle j).path.getD
            ((s.m_states.getD j vehicle_discrete_state.zero).node_num + 1) 0)
          ((ini.get_initial_state.vehicle j).path.getD
            ((s.m_states.getD j vehicle_discrete_state.zero).node_num + 2) 0) ≠ [] :=
        fun h => h4 (List.length_eq_zero.2 h)
      have hnew := hg _ _ _ (choose_edge_mem s.m_veh_on_edge _ hne)
      · have hold := hin j hjl
        obtain ⟨a, b⟩ := advance_loop_sum c ini dt L hg ids
          { s with
            m_veh_on_edge := incr (decr s.m_veh_on_edge
              (s.m_states.getD j vehicle_discrete_state.zero).edge_uid)
              (choose_edge s.m_veh_on_edge (ini.get_graph.edges
                ((ini.get_initial_state.vehicle j).path.getD
                  ((s.m_states.getD j vehicle_discrete_state.zero).node_num + 1) 0)
                ((ini.get_initial_state.vehicle j).path.getD
                  ((s.m_states.getD j vehicle_discrete_state.zero).node_num + 2) 0)))
            m_states := (s.m_states.set j
              { s.m_states.getD j vehicle_discrete_state.zero with
                part := advanced_part ini dt s j }).set j
              ⟨choose_edge s.m_veh_on_edge (ini.get_graph.edges
                ((ini.get_initial_state.vehicle j).path.getD
                  ((s.m_states.getD j vehicle_discrete_state.zero).node_num + 1) 0)
                ((ini.get_initial_state.vehicle j).path.getD
                  ((s.m_states.getD j vehicle_discrete_state.zero).node_num + 2) 0)), 0,
                (s.m_states.getD j vehicle_discrete_state.zero).node_num + 1⟩ }
          (by simp [length_incr, length_decr, hL]) (by simpa using hids')
          (by
            intro v hv
            have hv' : v < s.m_states.length := by simpa using hv
            show (((s.m_states.set j _).set j _).getD v _).edge_uid < L
            by_cases hjv : j = v
            · subst hjv
              rw [getD_set_self _ _ _ _ (by simpa using hv')]
              exact hnew
            · rw [getD_set_other _ _ _ _ _ hjv, getD_set_other _ _ _ _ _ hjv]
              exact hin v hv')
        refine ⟨?_, b⟩
        rw [a]
        show (incr (decr s.m_veh_on_edge _) _).sum = _
        rw [sum_incr _ _ (by rw [length_decr, hL]; exact hnew),
          sum_decr _ _ (by rw [hL]; exact hold)]
        ring
    · exact advance_loop_sum c ini dt L hg ids _ hL (by simpa using hids') (hpart _)

/-- The effect of the velocity loop of `do_step` (lines 201-206). -/
theorem velocity_loop_spec (c : model_constants α) (dt : α) :
    ∀ (ids : List uid) (s : gno_modeling_simple_acceleration α),
      ids.Nodup → (∀ v ∈ ids, v < s.m_velocities.length ∧ v < s.m_accelerations.length) →
      ((velocity_loop c dt ids s).m_t = s.m_t ∧
        (velocity_loop c dt ids s).m_states = s.m_states ∧
        (velocity_loop c dt ids s).m_finished = s.m_finished ∧
        (velocity_loop c dt ids s).m_veh_on_edge = s.m_veh_on_edge ∧
        (velocity_loop c dt ids s).m_velocities.length = s.m_velocities.length ∧
        (velocity_loop c dt ids s).m_accelerations.length = s.m_accelerations.length) ∧
      (∀ v, v ∉ ids →
        (velocity_loop c dt ids s).m_velocities.getD v 0 = s.m_velocities.getD v 0 ∧
        (velocity_loop c dt ids s).m_accelerations.getD v 0 = s.m_accelerations.getD v 0) ∧
      (∀ v ∈ ids,
        (velocity_loop c dt ids s).m_velocities.getD v 0 =
          s.m_velocities.getD v 0 + dt * s.m_accelerations.getD v 0 ∧
        (velocity_loop c dt ids s).m_accelerations.getD v 0 =
          if fuzzy_eq c (s.m_velocities.getD v 0 + dt * s.m_accelerations.getD v 0) c.V_MAX
          then 0 else s.m_accelerations.getD v 0)
  | [], s, _, _ => by simp [velocity_loop]
  | j :: ids, s, hnd, hlen => by
    have hj : j ∉ ids := (List.nodup_cons.1 hnd).1
    have hnd' : ids.Nodup := (List.nodup_cons.1 hnd).2
    obtain ⟨hjv, hja⟩ := hlen j (List.mem_cons_self _ _)
    have hlen' : ∀ v ∈ ids, v < s.m_velocities.length ∧ v < s.m_accelerations.length :=
      fun v hv => hlen v (List.mem_cons_of_mem _ hv)
    have key : ∀ (s1 : gno_modeling_simple_acceleration α),
        s1.m_t = s.m_t → s1.m_states = s.m_states → s1.m_finished = s.m_finished →
        s1.m_veh_on_edge = s.m_veh_on_edge →
        s1.m_velocities = s.m_velocities.set j
          (s.m_velocities.getD j 0 + dt * s.m_accelerations.getD j 0) →
        s1.m_accelerations.length = s.m_accelerations.length →
        (∀ v, v ≠ j → s1.m_accelerations.getD v 0 = s.m_accelerations.getD v 0) →
        (s1.m_accelerations.getD j 0 =
          if fuzzy_eq c (s.m_velocities.getD j 0 + dt * s.m_accelerations.getD j 0) c.V_MAX
          then 0 else s.m_accelerations.getD j 0) →
        ((velocity_loop c dt ids s1).m_t = s.m_t ∧
          (velocity_loop c dt ids s1).m_states = s.m_states ∧
          (velocity_loop c dt ids s1).m_finished = s.m_finished ∧
          (velocity_loop c dt ids s1).m_veh_on_edge = s.m_veh_on_edge ∧
          (velocity_loop c dt ids s1).m_velocities.length = s.m_velocities.length ∧
          (velocity_loop c dt ids s1).m_accelerations.length = s.m_accelerations.length) ∧
        (∀ v, v ∉ j :: ids →
          (velocity_loop c dt ids s1).m_velocities.getD v 0 = s.m_velocities.getD v 0 ∧
          (velocity_loop c dt ids s1).m_accelerations.getD v 0 =
            s.m_accelerations.getD v 0) ∧
        (∀ v ∈ j :: ids,
          (velocity_loop c dt ids s1).m_velocities.getD v 0 =
            s.m_velocities.getD v 0 + dt * s.m_accelerations.getD v 0 ∧
          (velocity_loop c dt ids s1).m_accelerations.getD v 0 =
            if fuzzy_eq c (s.m_velocities.getD v 0 + dt * s.m_accelerations.getD v 0) c.V_MAX
            then 0 else s.m_accelerations.getD v 0) := by
      intro s1 e1 e2 e3 e4 e5 e6 e7 e8
      have hvl : s1.m_velocities.length = s.m_velocities.length := by rw [e5]; simp
      have hvo : ∀ v, v ≠ j → s1.m_velocities.getD v 0 = s.m_velocities.getD v 0 :=
        fun v hv => by rw [e5]; exact getD_set_other _ _ _ _ _ (Ne.symm hv)
      have hvj : s1.m_velocities.getD j 0 =
          s.m_velocities.getD j 0 + dt * s.m_accelerations.getD j 0 := by
        rw [e5]; exact getD_set_self _ _ _ _ hjv
      obtain ⟨⟨a1, a2, a3, a4, a5, a6⟩, b, d⟩ := velocity_loop_spec c dt ids s1 hnd'
        (fun v hv => by rw [hvl, e6]; exact hlen' v hv)
      refine ⟨⟨a1.trans e1, a2.trans e2, a3.trans e3, a4.trans e4, a5.trans hvl,
        a6.trans e6⟩, ?_, ?_⟩
      · intro v hv
        have hvj' : v ≠ j := fun h => hv (h ▸ List.mem_cons_self _ _)
        obtain ⟨b1, b2⟩ := b v (fun h => hv (List.mem_cons_of_mem _ h))
        exact ⟨b1.trans (hvo v hvj'), b2.trans (e7 v hvj')⟩
      · intro v hv
        rcases List.mem_cons.1 hv with rfl | hv'
        · obtain ⟨b1, b2⟩ := b v hj
          exact ⟨b1.trans hvj, b2.trans e8⟩
        · have hvj' : v ≠ j := fun h => hj (h ▸ hv')
          obtain ⟨d1, d2⟩ := d v hv'
          rw [hvo v hvj', e7 v hvj'] at d1 d2
          exact ⟨d1, d2⟩
    rw [velocity_loop]
    simp only []
    split_ifs with h
    · refine key _ rfl rfl rfl rfl rfl (by simp)
        (fun v hv => getD_set_other _ _ _ _ _ (Ne.symm hv)) ?_
      rw [if_pos h]
      exact getD_set_self _ _ _ _ hja
    · refine key _ rfl rfl rfl rfl rfl rfl (fun v hv => rfl) ?_
      rw [if_neg h]

theorem do_step_eq (c : model_constants α) (ini : graph_initial α)
    (s : gno_modeling_simple_acceleration α) :
    do_step c ini s =
      if (advance_loop c ini (min_critical_time c ini s)
          (List.range ini.get_initial_state.vehicle_count) (before_advance c ini s)).1 = 0 then
        (0, velocity_loop c (min_critical_time c ini s)
          (List.range ini.get_initial_state.vehicle_count)
          (advance_loop c ini (min_critical_time c ini s)
            (List.range ini.get_initial_state.vehicle_count) (before_advance c ini s)).2)
      else
        advance_loop c ini (min_critical_time c ini s)
          (List.range ini.get_initial_state.vehicle_count) (before_advance c ini s) :=
  rfl

theorem advanced_part_before_advance (c : model_constants α) (ini : graph_initial α) (dt : α)
    (s : gno_modeling_simple_acceleration α) (v : uid) :
    advanced_part ini dt (before_advance c ini s) v = advanced_part ini dt s v :=
  rfl

/-- What `do_step` leaves untouched, and its status. -/
theorem do_step_frame (c : model_constants α) (ini : graph_initial α)
    (s : gno_modeling_simple_acceleration α) (hs : sized ini s) :
    sized ini (do_step c ini s).2 ∧
    (do_step c ini s).2.m_finished = s.m_finished ∧
    (do_step c ini s).2.m_t = s.m_t + min_critical_time c ini s ∧
    (do_step c ini s).2.m_veh_on_edge.length = s.m_veh_on_edge.length ∧
    ((do_step c ini s).1 = 0 ∨ (do_step c ini s).1 = -1) ∧
    (∀ v, s.m_finished.getD v 0 = 1 ∨ ini.get_initial_state.vehicle_count ≤ v →
      (do_step c ini s).2.m_states.getD v vehicle_discrete_state.zero =
        s.m_states.getD v vehicle_discrete_state.zero) := by
  obtain ⟨hs1, hs2, hs3, hs4⟩ := hs
  obtain ⟨⟨a1, a2, a3, a4, a5, a6⟩, b, cc, -, -⟩ :=
    advance_loop_spec c ini (min_critical_time c ini s)
      (List.range ini.get_initial_state.vehicle_count) (before_advance c ini s)
      (List.nodup_range _) (fun v hv => by
        show v < s.m_states.length
        rw [hs1]; exact List.mem_range.1 hv)
  have hb : ∀ v, s.m_finished.getD v 0 = 1 ∨ ini.get_initial_state.vehicle_count ≤ v →
      (advance_loop c ini (min_critical_time c ini s)
        (List.range ini.get_initial_state.vehicle_count)
        (before_advance c ini s)).2.m_states.getD v vehicle_discrete_state.zero =
      s.m_states.getD v vehicle_discrete_state.zero := by
    intro v hv
    apply b
    rcases hv with hv | hv
    · exact Or.inr hv
    · exact Or.inl (fun h => absurd (List.mem_range.1 h) (not_lt.2 hv))
  have hocc : (before_advance c ini s).m_veh_on_edge.length = s.m_veh_on_edge.length := by
    show (recount_loop _ _ _).length = _
    rw [(recount_loop_spec _ _ _).1]; simp
  rw [do_step_eq]
  split_ifs with h
  · obtain ⟨⟨v1, v2, v3, v4, v5, v6⟩, -, -⟩ :=
      velocity_loop_spec c (min_critical_time c ini s)
        (List.range ini.get_initial_state.vehicle_count)
        (advance_loop c ini (min_critical_time c ini s)
          (List.range ini.get_initial_state.vehicle_count) (before_advance c ini s)).2
        (List.nodup_range _) (fun v hv => by
          rw [a3, a4]
          show v < s.m_velocities.length ∧ v < s.m_accelerations.length
          rw [hs3, hs4]; exact ⟨List.mem_range.1 hv, List.mem_range.1 hv⟩)
    refine ⟨⟨?_, ?_, ?_, ?_⟩, ?_, ?_, ?_, Or.inl rfl, ?_⟩
    · show (velocity_loop _ _ _ _).m_states.length = _
      rw [v2, a5]; exact hs1
    · show (velocity_loop _ _ _ _).m_finished.length = _
      rw [v3, a2]; exact hs2
    · show (velocity_loop _ _ _ _).m_velocities.length = _
      rw [v5, a3]; exact hs3
    · show (velocity_loop _ _ _ _).m_accelerations.length = _
      rw [v6, a4]; exact hs4
    · show (velocity_loop _ _ _ _).m_finished = _
      rw [v3, a2]; rfl
    · show (velocity_loop _ _ _ _).m_t = _
      rw [v1, a1]; rfl
    · show (velocity_loop _ _ _ _).m_veh_on_edge.length = _
      rw [v4, a6]; exact hocc
    · intro v hv
      show (velocity_loop _ _ _ _).m_states.getD v _ = _
      rw [v2]; exact hb v hv
  · refine ⟨⟨a5.trans hs1, by rw [a2]; exact hs2, by rw [a3]; exact hs3,
      by rw [a4]; exact hs4⟩, a2, a1, a6.trans hocc, ?_, hb⟩
    rcases cc with h0 | h1
    · exact absurd h0 h
    · exact Or.inr h1

/-- What `do_step` does to the entry of an unfinished vehicle: the entry is untouched
because the step stopped earlier at a dead end, or the vehicle moved on, or the vehicle
itself ran into the dead end. -/
theorem do_step_entries (c : model_constants α) (ini : graph_initial α)
    (s : gno_modeling_simple_acceleration α) (hs : sized ini s) :
    ∀ v, v < ini.get_initial_state.vehicle_count → s.m_finished.getD v 0 ≠ 1 →
      ((do_step c ini s).2.m_states.getD v vehicle_discrete_state.zero =
          s.m_states.getD v vehicle_discrete_state.zero ∧ (do_step c ini s).1 = -1) ∨
      moved_on c ini v (s.m_states.getD v vehicle_discrete_state.zero)
        (advanced_part ini (min_critical_time c ini s) s v)
        ((do_step c ini s).2.m_states.getD v vehicle_discrete_state.zero) ∨
      (dead_end c ini v (s.m_states.getD v vehicle_discrete_state.zero)
          (advanced_part ini (min_critical_time c ini s) s v) ∧
        (do_step c ini s).2.m_states.getD v vehicle_discrete_state.zero =
          { s.m_states.getD v vehicle_discrete_state.zero with
            part := advanced_part ini (min_critical_time c ini s) s v } ∧
        (do_step c ini s).1 = -1) := by
  intro v hv hf
  obtain ⟨-, -, -, d, -⟩ :=
    advance_loop_spec c ini (min_critical_time c ini s)
      (List.range ini.get_initial_state.vehicle_count) (before_advance c ini s)
      (List.nodup_range _) (fun v hv => by
        show v < s.m_states.length
        rw [hs.1]; exact List.mem_range.1 hv)
  have hd := d v (List.mem_range.2 hv) hf
  rw [do_step_eq]
  split_ifs with h
  · have hst : (velocity_loop c (min_critical_time c ini s)
        (List.range ini.get_initial_state.vehicle_count)
        (advance_loop c ini (min_critical_time c ini s)
          (List.range ini.get_initial_state.vehicle_count)
          (before_advance c ini s)).2).m_states =
        (advance_loop c ini (min_critical_time c ini s)
          (List.range ini.get_initial_state.vehicle_count)
          (before_advance c ini s)).2.m_states := by
      obtain ⟨-, a2, a3, a4, -, -⟩ := (advance_loop_spec c ini (min_critical_time c ini s)
        (List.range ini.get_initial_state.vehicle_count) (before_advance c ini s)
        (List.nodup_range _) (fun v hv => by
          show v < s.m_states.length
          rw [hs.1]; exact List.mem_range.1 hv)).1
      exact (velocity_loop_spec c _ _ _ (List.nodup_range _) (fun v hv => by
        rw [a3, a4]
        show v < s.m_velocities.length ∧ v < s.m_accelerations.length
        rw [hs.2.2.1, hs.2.2.2]; exact ⟨List.mem_range.1 hv, List.mem_range.1 hv⟩)).1.2.1
    show _ ∨ moved_on c ini v _ _ ((velocity_loop _ _ _ _).m_states.getD v _) ∨ _
    rw [hst]
    rcases hd with ⟨-, h1⟩ | hm | ⟨-, -, h1⟩
    · rw [h] at h1; exact absurd h1 (by decide)
    · exact Or.inr (Or.inl hm)
    · rw [h] at h1; exact absurd h1 (by decide)
  · exact hd

/-- The step fails exactly when some unfinished vehicle runs into a dead end. -/
theorem do_step_fails_iff (c : model_constants α) (ini : graph_initial α)
    (s : gno_modeling_simple_acceleration α) (hs : sized ini s) :
    (do_step c ini s).1 = -1 ↔
      ∃ v, v < ini.get_initial_state.vehicle_count ∧ s.m_finished.getD v 0 ≠ 1 ∧
        dead_end c ini v (s.m_states.getD v vehicle_discrete_state.zero)
          (advanced_part ini (min_critical_time c ini s) s v) := by
  constructor
  · intro h
    obtain ⟨-, -, -, -, e⟩ :=
      advance_loop_spec c ini (min_critical_time c ini s)
        (List.range ini.get_initial_state.vehicle_count) (before_advance c ini s)
        (List.nodup_range _) (fun v hv => by
          show v < s.m_states.length
          rw [hs.1]; exact List.mem_range.1 hv)
    rw [do_step_eq] at h
    split_ifs at h with h0
    obtain ⟨v, hv, hf, hd⟩ := e h
    exact ⟨v, List.mem_range.1 hv, hf, hd⟩
  · rintro ⟨v, hv, hf, hd⟩
    rcases do_step_entries c ini s hs v hv hf with ⟨-, h⟩ | hm | ⟨-, -, h⟩
    · exact h
    · exfalso
      obtain ⟨hd1, hd2, hd3⟩ := hd
      rcases hm with ⟨-, hm⟩ | ⟨-, -, e, he, -⟩
      · exact hd2 (hm hd1)
      · rw [hd3] at he; simp at he
    · exact h

/-- The velocities and accelerations after `do_step`: updated for every vehicle when the
step succeeds, untouched when it fails. -/
theorem do_step_velocities (c : model_constants α) (ini : graph_initial α)
    (s : gno_modeling_simple_acceleration α) (hs : sized ini s) :
    ((do_step c ini s).1 = 0 →
      ∀ v, v < ini.get_initial_state.vehicle_count →
        (do_step c ini s).2.m_velocities.getD v 0 =
          s.m_velocities.getD v 0 + min_critical_time c ini s * s.m_accelerations.getD v 0 ∧
        (do_step c ini s).2.m_accelerations.getD v 0 =
          if fuzzy_eq c (s.m_velocities.getD v 0 +
            min_critical_time c ini s * s.m_accelerations.getD v 0) c.V_MAX
          then 0 else s.m_accelerations.getD v 0) ∧
    ((do_step c ini s).1 = -1 →
      (do_step c ini s).2.m_velocities = s.m_velocities ∧
      (do_step c ini s).2.m_accelerations = s.m_accelerations) := by
  obtain ⟨⟨-, -, a3, a4, -, -⟩, -⟩ := advance_loop_spec c ini (min_critical_time c ini s)
    (List.range ini.get_initial_state.vehicle_count) (before_advance c ini s)
    (List.nodup_range _) (fun v hv => by
      show v < s.m_states.length
      rw [hs.1]; exact List.mem_range.1 hv)
  rw [do_step_eq]
  split_ifs with h
  · refine ⟨fun _ v hv => ?_, fun h1 => absurd h1 (by decide)⟩
    obtain ⟨-, -, d⟩ := velocity_loop_spec c (min_critical_time c ini s)
      (List.range ini.get_initial_state.vehicle_count)
      (advance_loop c ini (min_critical_time c ini s)
        (List.range ini.get_initial_state.vehicle_count) (before_advance c ini s)).2
      (List.nodup_range _) (fun v hv => by
        rw [a3, a4]
        show v < s.m_velocities.length ∧ v < s.m_accelerations.length
        rw [hs.2.2.1, hs.2.2.2]; exact ⟨List.mem_range.1 hv, List.mem_range.1 hv⟩)
    have hd := d v (List.mem_range.2 hv)
    rw [a3, a4] at hd
    exact hd
  · exact ⟨fun h0 => absurd h0 h, fun _ => ⟨a3, a4⟩⟩

/-! ## `do_step`: the minimum critical time (lines 107-145) -/

theorem min_loop_some (c : model_constants α) (ini : graph_initial α)
    (s : gno_modeling_simple_acceleration α) :
    ∀ (ids : List uid) (m : α) (i0 : uid),
      (min_loop c ini s ids (m, some i0)).1 ≤ m ∧
      (∀ v ∈ ids, s.m_finished.getD v 0 ≠ 1 →
        (min_loop c ini s ids (m, some i0)).1 ≤ critical_time c ini s v) ∧
      ((min_loop c ini s ids (m, some i0)).1 = m ∨
        ∃ i ∈ ids, s.m_finished.getD i 0 ≠ 1 ∧
          (min_loop c ini s ids (m, some i0)).1 = critical_time c ini s i)
  | [], m, i0 => by simp [min_loop]
  | j :: ids, m, i0 => by
    rw [min_loop]
    split_ifs with h1 h2
    · obtain ⟨a, b, d⟩ := min_loop_some c ini s ids m i0
      refine ⟨a, ?_, ?_⟩
      · intro v hv hf
        rcases List.mem_cons.1 hv with rfl | hv'
        · exact absurd h1 hf
        · exact b v hv' hf
      · rcases d with d | ⟨i, hi, d⟩
        · exact Or.inl d
        · exact Or.inr ⟨i, List.mem_cons_of_mem _ hi, d⟩
    · have h2' : critical_time c ini s j < m := by
        rcases h2 with h2 | h2
        · exact absurd h2 (by simp)
        · exact h2
      obtain ⟨a, b, d⟩ := min_loop_some c ini s ids (critical_time c ini s j) j
      refine ⟨le_trans a (le_of_lt h2'), ?_, ?_⟩
      · intro v hv hf
        rcases List.mem_cons.1 hv with rfl | hv'
        · exact a
        · exact b v hv' hf
      · right
        rcases d with d | ⟨i, hi, d⟩
        · exact ⟨j, List.mem_cons_self _ _, h1, d⟩
        · exact ⟨i, List.mem_cons_of_mem _ hi, d⟩
    · have h2' : m ≤ critical_time c ini s j := by
        by_contra hlt
        exact h2 (Or.inr (not_le.1 hlt))
      obtain ⟨a, b, d⟩ := min_loop_some c ini s ids m i0
      refine ⟨a, ?_, ?_⟩
      · intro v hv hf
        rcases List.mem_cons.1 hv with rfl | hv'
        · exact le_trans a h2'
        · exact b v hv' hf
      · rcases d with d | ⟨i, hi, d⟩
        · exact Or.inl d
        · exact Or.inr ⟨i, List.mem_cons_of_mem _ hi, d⟩

theorem min_loop_none (c : model_constants α) (ini : graph_initial α)
    (s : gno_modeling_simple_acceleration α) :
    ∀ (ids : List uid) (m : α),
      ((∀ v ∈ ids, s.m_finished.getD v 0 = 1) ∧ min_loop c ini s ids (m, none) = (m, none)) ∨
      ((∀ v ∈ ids, s.m_finished.getD v 0 ≠ 1 →
          (min_loop c ini s ids (m, none)).1 ≤ critical_time c ini s v) ∧
        ∃ i ∈ ids, s.m_finished.getD i 0 ≠ 1 ∧
          (min_loop c ini s ids (m, none)).1 = critical_time c ini s i)
  | [], m => by simp [min_loop]
  | j :: ids, m => by
    rw [min_loop]
    split_ifs with h1 h2
    · rcases min_loop_none c ini s ids m with ⟨a, b⟩ | ⟨a, i, hi, b⟩
      · left
        refine ⟨?_, b⟩
        intro v hv
        rcases List.mem_cons.1 hv with rfl | hv'
        · exact h1
        · exact a v hv'
      · right
        refine ⟨?_, i, List.mem_cons_of_mem _ hi, b⟩
        intro v hv hf
        rcases List.mem_cons.1 hv with rfl | hv'
        · exact absurd h1 hf
        · exact a v hv' hf
    · right
      obtain ⟨a, b, d⟩ := min_loop_some c ini s ids (critical_time c ini s j) j
      refine ⟨?_, ?_⟩
      · intro v hv hf
        rcases List.mem_cons.1 hv with rfl | hv'
        · exact a
        · exact b v hv' hf
      · rcases d with d | ⟨i, hi, d⟩
        · exact ⟨j, List.mem_cons_self _ _, h1, d⟩
        · exact ⟨i, List.mem_cons_of_mem _ hi, d⟩
    · exact absurd (Or.inl rfl) h2

/-- With an unfinished vehicle, `min_critical_time` is the least critical time of the
unfinished vehicles (and the critical time of one of them). -/
theorem min_critical_time_spec (c : model_constants α) (ini : graph_initial α)
    (s : gno_modeling_simple_acceleration α)
    (hex : ∃ v, v < ini.get_initial_state.vehicle_count ∧ s.m_finished.getD v 0 ≠ 1) :
    (∀ v, v < ini.get_initial_state.vehicle_count → s.m_finished.getD v 0 ≠ 1 →
      min_critical_time c ini s ≤ critical_time c ini s v) ∧
    ∃ i, i < ini.get_initial_state.vehicle_count ∧ s.m_finished.getD i 0 ≠ 1 ∧
      min_critical_time c ini s = critical_time c ini s i := by
  obtain ⟨u, hu, hfu⟩ := hex
  rcases min_loop_none c ini s (List.range ini.get_initial_state.vehicle_count) (-1) with
    ⟨a, -⟩ | ⟨a, i, hi, hf, b⟩
  · exact absurd (a u (List.mem_range.2 hu)) hfu
  · exact ⟨fun v hv hf => a v (List.mem_range.2 hv) hf, i, List.mem_range.1 hi, hf, b⟩

/-! ## The `while` loop of `run` -/

theorem initialize_run_eq (c : model_constants α) (ini : graph_initial α)
    (s : gno_modeling_simple_acceleration α) :
    initialize_run c ini s =
      init_loop ini (List.range ini.get_initial_state.vehicle_count) (reset c ini s) := by
  simp only [initialize_run, find_critical_time]
  split_ifs with h
  · exact Prod.ext h.symm rfl
  · rfl

theorem initialize_run_sized (c : model_constants α) (ini : graph_initial α)
    (s : gno_modeling_simple_acceleration α) : sized ini (initialize_run c ini s).2 := by
  rw [initialize_run_eq]
  obtain ⟨-, h2, h3, h4, h5, -⟩ := init_loop_reset_shape c ini s
    (List.range ini.get_initial_state.vehicle_count)
  exact ⟨h5, by rw [h2]; simp, by rw [h3]; simp, by rw [h4]; simp⟩

theorem is_finished_sized (c : model_constants α) (ini : graph_initial α)
    (s : gno_modeling_simple_acceleration α) (hs : sized ini s) :
    sized ini (is_finished c ini s).2 := by
  obtain ⟨-, a2, -, a4, a5, a6, -⟩ := is_finished_spec c ini s hs.2.1
  exact ⟨by rw [a2]; exact hs.1, a6, by rw [a4]; exact hs.2.2.1, by rw [a5]; exact hs.2.2.2⟩

theorem OK_iff (status : Int) : OK status = true ↔ 0 ≤ status := by
  simp [OK]

theorem do_step_OK_iff (c : model_constants α) (ini : graph_initial α)
    (s : gno_modeling_simple_acceleration α) (hs : sized ini s) :
    OK (do_step c ini s).1 = true ↔ (do_step c ini s).1 = 0 := by
  rw [OK_iff]
  rcases (do_step_frame c ini s hs).2.2.2.2.1 with h | h <;> rw [h] <;> decide

/-- An invariant of the loop head that `is_finished` and a successful `do_step` preserve
holds in every state the run reaches. -/
theorem state_after_induction (c : model_constants α) (ini : graph_initial α)
    (s : gno_modeling_simple_acceleration α)
    (P : gno_modeling_simple_acceleration α → Prop)
    (hinit : (initialize_run c ini s).1 = 0 → P (initialize_run c ini s).2)
    (hstep : ∀ s1, sized ini s1 → P s1 → (is_finished c ini s1).1 = false →
      (do_step c ini (is_finished c ini s1).2).1 = 0 →
      P (do_step c ini (is_finished c ini s1).2).2) :
    ∀ n s1, state_after c ini s n = some s1 → sized ini s1 ∧ P s1
  | 0, s1, h => by
    rw [state_after] at h
    split_ifs at h with h0
    cases h
    exact ⟨initialize_run_sized c ini s, hinit h0⟩
  | n + 1, s1, h => by
    rw [state_after] at h
    cases hn : state_after c ini s n with
    | none => rw [hn] at h; cases h
    | some s0 =>
      rw [hn] at h
      obtain ⟨hs0, hp0⟩ := state_after_induction c ini s P hinit hstep n s0 hn
      have hsf := is_finished_sized c ini s0 hs0
      simp only [] at h
      split_ifs at h with h1 h2
      cases h
      have hok := (do_step_OK_iff c ini _ hsf).1 h2
      exact ⟨(do_step_frame c ini _ hsf).1,
        hstep s0 hs0 hp0 (by simpa using h1) hok⟩

theorem state_after_succ (c : model_constants α) (ini : graph_initial α)
    (s : gno_modeling_simple_acceleration α) (n : Nat)
    (s2 : gno_modeling_simple_acceleration α) (h : state_after c ini s (n + 1) = some s2) :
    ∃ s1, state_after c ini s n = some s1 ∧ (is_finished c ini s1).1 = false ∧
      s2 = (do_step c ini (is_finished c ini s1).2).2 := by
  rw [state_after] at h
  cases hn : state_after c ini s n with
  | none => rw [hn] at h; cases h
  | some s1 =>
    rw [hn] at h
    simp only [] at h
    split_ifs at h with h1 h2
    cases h
    exact ⟨s1, rfl, by simpa using h1, rfl⟩

/-- The run passes through every state listed by `state_after`. -/
theorem run_loop_state_after (c : model_constants α) (ini : graph_initial α)
    (s : gno_modeling_simple_acceleration α) :
    ∀ n s1, state_after c ini s n = some s1 →
      (initialize_run c ini s).1 = 0 ∧
      ∀ fuel, run_loop c ini (n + fuel) 0 (initialize_run c ini s).2 =
        run_loop c ini fuel n s1
  | 0, s1, h => by
    rw [state_after] at h
    split_ifs at h with h0
    cases h
    exact ⟨h0, fun fuel => by rw [Nat.zero_add]⟩
  | n + 1, s1, h => by
    rw [state_after] at h
    cases hn : state_after c ini s n with
    | none => rw [hn] at h; cases h
    | some s0 =>
      rw [hn] at h
      obtain ⟨h0, hrun⟩ := run_loop_state_after c ini s n s0 hn
      simp only [] at h
      split_ifs at h with h1 h2
      cases h
      refine ⟨h0, fun fuel => ?_⟩
      have : n + 1 + fuel = n + (fuel + 1) := by omega
      rw [this, hrun (fuel + 1), run_loop, if_neg h1, if_pos h2]

theorem run_state_after (c : model_constants α) (ini : graph_initial α)
    (s : gno_modeling_simple_acceleration α) (n : Nat)
    (s1 : gno_modeling_simple_acceleration α) (h : state_after c ini s n = some s1)
    (fuel : Nat) : run c ini (n + fuel) s = run_loop c ini fuel n s1 := by
  obtain ⟨h0, hrun⟩ := run_loop_state_after c ini s n s1 h
  rw [run, if_pos h0, hrun]

theorem run_loop_code (c : model_constants α) (ini : graph_initial α) :
    ∀ (fuel steps : Nat) (s : gno_modeling_simple_acceleration α)
      (r : Int × gno_modeling_simple_acceleration α × Nat),
      run_loop c ini fuel steps s = some r → r.1 = 0 ∨ r.1 = -4
  | 0, _, _, _, h => by simp [run_loop] at h
  | fuel + 1, steps, s, r, h => by
    rw [run_loop] at h
    split_ifs at h with h1 h2
    · cases h; exact Or.inl rfl
    · exact run_loop_code c ini fuel _ _ r h
    · cases h; exact Or.inr rfl

/-- The mid-run failure: when the run reaches a loop head `s1` at which `is_finished`
returns `false` and `do_step` then returns `-1`, `run` returns `-4`. -/
theorem run_mid_run_failure (c : model_constants α) (ini : graph_initial α)
    (s : gno_modeling_simple_acceleration α) (n : Nat)
    (s1 : gno_modeling_simple_acceleration α) (h : state_after c ini s n = some s1)
    (hf : (is_finished c ini s1).1 = false)
    (hd : (do_step c ini (is_finished c ini s1).2).1 = -1) (fuel : Nat) (hfuel : n < fuel) :
    run c ini fuel s = some (-4, (do_step c ini (is_finished c ini s1).2).2, n + 1) := by
  obtain ⟨m, rfl⟩ : ∃ m, fuel = n + (m + 1) := ⟨fuel - n - 1, by omega⟩
  rw [run_state_after c ini s n s1 h, run_loop, if_neg (by simp [hf]), if_neg]
  rw [hd]; decide

/-! ## The status codes of `run` -/

/-- When vehicle `k` is the first to fail a check, `run` returns the code of the first
check it fails, without a call of `do_step`. -/
theorem run_first_failed_check (c : model_constants α) (ini : graph_initial α)
    (s : gno_modeling_simple_acceleration α) (fuel : Nat) (k : uid) (f : init_failure)
    (hk : k < ini.get_initial_state.vehicle_count)
    (hprev : ∀ j, j < k → init_checks_pass ini j)
    (hf : first_failed_check ini k = some f) :
    run c ini fuel s =
      some (failure_code f, (init_loop ini (List.range k) (reset c ini s)).2, 0) := by
  unfold first_failed_check at hf
  simp only [] at hf
  split_ifs at hf with h1 h2 h3 h4
  · cases Option.some.inj hf
    refine run_stops_at_first_failure c ini s fuel k hk hprev (-1) (by decide) ?_
    intro rest s1
    rw [init_loop]; simp only []; rw [if_pos h1]
  · cases Option.some.inj hf
    refine run_stops_at_first_failure c ini s fuel k hk hprev (-2) (by decide) ?_
    intro rest s1
    rw [init_loop]; simp only []; rw [if_neg h1, if_pos h2]
  · cases Option.some.inj hf
    refine run_stops_at_first_failure c ini s fuel k hk hprev (-3) (by decide) ?_
    intro rest s1
    rw [init_loop]; simp only []; rw [if_neg h1, if_neg h2, if_pos h3]
  · cases Option.some.inj hf
    refine run_stops_at_first_failure c ini s fuel k hk hprev (-4) (by decide) ?_
    intro rest s1
    rw [init_loop]; simp only []; rw [if_neg h1, if_neg h2, if_neg h3, if_pos h4]

theorem failure_code_injective : Function.Injective failure_code := by
  intro f g h
  cases f <;> cases g <;> first | rfl | (exact absurd h (by decide))

/-- C2: the codes `run` returns for the four initialization failures are pairwise
distinct: when the first failing vehicle fails its first check as PathTooShort,
SourceMismatch, DestinationMismatch or NoConnectingEdge, `run` returns `-1`, `-2`, `-3`
or `-4` respectively, so two runs whose first failures are of different kinds return
different codes. `run` never returns a status other than `0`, `-1`, `-2`, `-3`, `-4`; a
missing edge between the first two nodes of the first failing vehicle makes `run` return
`-4` at initialization; and when, at a loop head the run reaches, `is_finished` returns
`false` and an unfinished vehicle completes its edge while no edge joins its next node
pair, then `do_step` returns `-1` and `run` returns that same `-4`. -/
theorem run_status_codes (c : model_constants α) (ini : graph_initial α)
    (s : gno_modeling_simple_acceleration α) :
    ([-1, -2, -3, -4] : List Int).Nodup ∧
    (∀ fuel r, run c ini fuel s = some r →
      r.1 = 0 ∨ r.1 = -1 ∨ r.1 = -2 ∨ r.1 = -3 ∨ r.1 = -4) ∧
    (∀ fuel k, k < ini.get_initial_state.vehicle_count →
      (∀ j, j < k → init_checks_pass ini j) →
      2 ≤ (ini.get_initial_state.vehicle k).path.length →
      (ini.get_initial_state.vehicle k).path.getD 0 0 = (ini.get_initial_state.vehicle k).src →
      (ini.get_initial_state.vehicle k).path.getD
          ((ini.get_initial_state.vehicle k).path.length - 1) 0 =
        (ini.get_initial_state.vehicle k).dst →
      ini.get_graph.edges ((ini.get_initial_state.vehicle k).path.getD 0 0)
          ((ini.get_initial_state.vehicle k).path.getD 1 0) = [] →
      ∃ S, run c ini fuel s = some (-4, S, 0)) ∧
    (∀ n s1, state_after c ini s n = some s1 → (is_finished c ini s1).1 = false →
      (∃ v, v < ini.get_initial_state.vehicle_count ∧
        (is_finished c ini s1).2.m_finished.getD v 0 ≠ 1 ∧
        dead_end c ini v ((is_finished c ini s1).2.m_states.getD v vehicle_discrete_state.zero)
          (advanced_part ini (min_critical_time c ini (is_finished c ini s1).2)
            (is_finished c ini s1).2 v)) →
      (do_step c ini (is_finished c ini s1).2).1 = -1 ∧
      ∀ fuel, n < fuel →
        run c ini fuel s = some (-4, (do_step c ini (is_finished c ini s1).2).2, n + 1)) ∧
    (failure_code init_failure.PathTooShort = -1 ∧
      failure_code init_failure.SourceMismatch = -2 ∧
      failure_code init_failure.DestinationMismatch = -3 ∧
      failure_code init_failure.NoConnectingEdge = -4) ∧
    (∀ fuel k f, k < ini.get_initial_state.vehicle_count →
      (∀ j, j < k → init_checks_pass ini j) → first_failed_check ini k = some f →
      ∃ S, run c ini fuel s = some (failure_code f, S, 0)) ∧
    (∀ (ini2 : graph_initial α) (s2 : gno_modeling_simple_acceleration α)
      (fuel fuel2 : Nat) (k k2 : uid) (f f2 : init_failure)
      (r r2 : Int × gno_modeling_simple_acceleration α × Nat),
      k < ini.get_initial_state.vehicle_count →
      (∀ j, j < k → init_checks_pass ini j) → first_failed_check ini k = some f →
      k2 < ini2.get_initial_state.vehicle_count →
      (∀ j, j < k2 → init_checks_pass ini2 j) → first_failed_check ini2 k2 = some f2 →
      run c ini fuel s = some r → run c ini2 fuel2 s2 = some r2 → f ≠ f2 → r.1 ≠ r2.1) := by
  refine ⟨by decide, ?_, ?_, ?_, ⟨rfl, rfl, rfl, rfl⟩, ?_, ?_⟩
  · intro fuel r h
    rw [run] at h
    split_ifs at h with h0
    · rcases run_loop_code c ini fuel 0 _ r h with h1 | h1
      · exact Or.inl h1
      · exact Or.inr (Or.inr (Or.inr (Or.inr h1)))
    · cases h
      have := init_loop_code ini (List.range ini.get_initial_state.vehicle_count) (reset c ini s)
      rw [← initialize_run_eq] at this
      simpa using this
  · intro fuel k hk hprev h1 h2 h3 h4
    have h1' : ¬ (ini.get_initial_state.vehicle k).path.length < 2 := by omega
    have h4' : (ini.get_graph.edges ((ini.get_initial_state.vehicle k).path.getD 0 0)
        ((ini.get_initial_state.vehicle k).path.getD 1 0)).length = 0 := by
      rw [h4]; rfl
    refine ⟨_, run_stops_at_first_failure c ini s fuel k hk hprev (-4) (by decide) ?_⟩
    intro rest s1
    rw [init_loop]; simp only []
    rw [if_neg h1', if_neg (not_not_intro h2), if_neg (not_not_intro h3), if_pos h4']
  · intro n s1 h hf hd
    have hs1 := (state_after_induction c ini s (fun _ => True) (fun _ => trivial)
      (fun _ _ _ _ _ => trivial) n s1 h).1
    have hfail := (do_step_fails_iff c ini _ (is_finished_sized c ini s1 hs1)).2 hd
    exact ⟨hfail, fun fuel hfuel => run_mid_run_failure c ini s n s1 h hf hfail fuel hfuel⟩
  · intro fuel k f hk hprev hf
    exact ⟨_, run_first_failed_check c ini s fuel k f hk hprev hf⟩
  · intro ini2 s2 fuel fuel2 k k2 f f2 r r2 hk hprev hf hk2 hprev2 hf2 hr hr2 hne heq
    rw [run_first_failed_check c ini s fuel k f hk hprev hf] at hr
    rw [run_first_failed_check c ini2 s2 fuel2 k2 f2 hk2 hprev2 hf2] at hr2
    rw [← Option.some.inj hr, ← Option.some.inj hr2] at heq
    exact hne (failure_code_injective heq)

/-- C2, instance: a single vehicle drives `0 → 1 → 2` on a graph without an edge from node 1
to node 2; the first `do_step` returns `-1` and `run` returns `-4` after that one step. -/
theorem run_status_codes_witness :
    run example_constants (dead_end_input ℚ) 1 (fresh_engine ℚ) =
      some (-4, ⟨1, [⟨0, 1, 0⟩], [0], [1], [0], [2]⟩, 1) := by
  have h := ((run_status_codes example_constants (dead_end_input ℚ) (fresh_engine ℚ)).2.2.2.1 0
    ⟨0, [⟨0, 0, 0⟩], [0], [1], [0], [2]⟩ (by decide!) (by decide!)
    ⟨0, by decide!, by decide!, by decide!, by unfold at_last_pair; decide!, by decide!⟩).2 1
    (by decide)
  rw [h]
  decide!

/-! ## Finished vehicles and occupancy -/

theorem is_finish_entry (c : model_constants α) (ini : graph_initial α)
    (s s1 : gno_modeling_simple_acceleration α) (v : uid)
    (h : s1.m_states.getD v vehicle_discrete_state.zero =
      s.m_states.getD v vehicle_discrete_state.zero) :
    is_finish c ini s1 v = is_finish c ini s v := by
  simp only [is_finish, h]

theorem flags_justified_init (c : model_constants α) (ini : graph_initial α)
    (s : gno_modeling_simple_acceleration α) :
    flags_justified c ini (initialize_run c ini s).2 := by
  intro v hv
  rw [initialize_run_eq, (init_loop_reset_shape c ini s _).2.1, getD_replicate_eq] at hv
  exact absurd hv (by decide)

theorem flags_justified_is_finished (c : model_constants α) (ini : graph_initial α)
    (s : gno_modeling_simple_acceleration α) (hs : sized ini s)
    (h : flags_justified c ini s) : flags_justified c ini (is_finished c ini s).2 := by
  obtain ⟨-, a2, -, -, -, -, a7, -⟩ := is_finished_spec c ini s hs.2.1
  intro v hv
  rw [is_finish_congr c ini s _ a2]
  rcases (a7 v).1 hv with h1 | ⟨-, h2⟩
  · exact h v h1
  · exact h2

theorem flags_justified_do_step (c : model_constants α) (ini : graph_initial α)
    (s : gno_modeling_simple_acceleration α) (hs : sized ini s)
    (h : flags_justified c ini s) : flags_justified c ini (do_step c ini s).2 := by
  obtain ⟨-, a2, -, -, -, a6⟩ := do_step_frame c ini s hs
  intro v hv
  rw [a2] at hv
  rw [is_finish_entry c ini s _ v (a6 v (Or.inl hv))]
  exact h v hv

theorem run_loop_success (c : model_constants α) (ini : graph_initial α) :
    ∀ (fuel steps : Nat) (s S : gno_modeling_simple_acceleration α) (k : Nat),
      sized ini s → flags_justified c ini s → run_loop c ini fuel steps s = some (0, S, k) →
      flags_justified c ini S ∧
        ∀ v, v < ini.get_initial_state.vehicle_count → S.m_finished.getD v 0 = 1
  | 0, _, _, _, _, _, _, h => by simp [run_loop] at h
  | fuel + 1, steps, s, S, k, hs, hj, h => by
    have hsf := is_finished_sized c ini s hs
    have hjf := flags_justified_is_finished c ini s hs hj
    rw [run_loop] at h
    split_ifs at h with h1 h2
    · cases h
      exact ⟨hjf, (is_finished_spec c ini s hs.2.1).2.2.2.2.2.2.2.1 h1⟩
    · exact run_loop_success c ini fuel _ _ S k (do_step_frame c ini _ hsf).1
        (flags_justified_do_step c ini _ hsf hjf) h
    · cases h

/-- C5: whenever `run` returns `0`, every vehicle is finished: its flag is 1, its `part`
is fuzzily equal to 1 and its current edge is among the edges ending at its declared
destination. -/
theorem run_success_all_finished (c : model_constants α) (ini : graph_initial α)
    (s S : gno_modeling_simple_acceleration α) (fuel k : Nat)
    (h : run c ini fuel s = some (0, S, k)) :
    ∀ v, v < ini.get_initial_state.vehicle_count →
      S.m_finished.getD v 0 = 1 ∧
      fuzzy_eq c (S.m_states.getD v vehicle_discrete_state.zero).part 1 = true ∧
      (S.m_states.getD v vehicle_discrete_state.zero).edge_uid ∈
        ini.get_graph.edges_ended_on (ini.get_initial_state.vehicle v).dst := by
  rw [run] at h
  split_ifs at h with h0
  · obtain ⟨hj, hall⟩ := run_loop_success c ini fuel 0 _ S k (initialize_run_sized c ini s)
      (flags_justified_init c ini s) h
    intro v hv
    exact ⟨hall v hv, (is_finish_iff c ini S v).1 (hj v (hall v hv))⟩
  · exact absurd (congrArg Prod.fst (Option.some.inj h)) h0

/-- C5, instance: the run of the two-vehicle input returns `0` after two steps with both
vehicles finished. -/
theorem run_success_all_finished_witness :
    run example_constants (two_vehicle_input ℚ) 3 (fresh_engine ℚ) =
      some (0, ⟨3 / 2, [⟨0, 1, 0⟩, ⟨1, 1, 1⟩], [1, 1], [1, 1], [2, 2], [0, 0]⟩, 2) ∧
    ∀ v, v < 2 →
      ([1, 1] : List Nat).getD v 0 = 1 ∧
      fuzzy_eq example_constants
        (([⟨0, 1, 0⟩, ⟨1, 1, 1⟩] : List (vehicle_discrete_state ℚ)).getD v
          vehicle_discrete_state.zero).part 1 = true ∧
      (([⟨0, 1, 0⟩, ⟨1, 1, 1⟩] : List (vehicle_discrete_state ℚ)).getD v
          vehicle_discrete_state.zero).edge_uid ∈
        (two_vehicle_input ℚ).get_graph.edges_ended_on
          ((two_vehicle_input ℚ).get_initial_state.vehicle v).dst :=
  ⟨by decide!,
    run_success_all_finished example_constants (two_vehicle_input ℚ) (fresh_engine ℚ)
      ⟨3 / 2, [⟨0, 1, 0⟩, ⟨1, 1, 1⟩], [1, 1], [1, 1], [2, 2], [0, 0]⟩ 3 2 (by decide!)⟩

theorem init_loop_sum (ini : graph_initial α) (hg : edges_in_range ini.get_graph) :
    ∀ (ids : List uid) (s : gno_modeling_simple_acceleration α),
      (∀ j ∈ ids, init_checks_pass ini j) →
      s.m_veh_on_edge.length = ini.get_graph.edge_count →
      (init_loop ini ids s).2.m_veh_on_edge.sum = s.m_veh_on_edge.sum + ids.length
  | [], s, _, _ => by simp [init_loop]
  | j :: ids, s, hpass, hlen => by
    have hj := hpass j (List.mem_cons_self _ _)
    rw [init_loop_cons_pass ini j ids s hj,
      init_loop_sum ini hg ids _ (fun i hi => hpass i (List.mem_cons_of_mem _ hi))
        (by rw [← hlen]; exact length_incr _ _)]
    show (incr s.m_veh_on_edge _).sum + _ = _
    rw [sum_incr _ _ (by rw [hlen]; exact hg _ _ _ (choose_edge_mem _ _ hj.2.2.2))]
    simp only [List.length_cons]
    push_cast
    ring

theorem occupancy_total_init (c : model_constants α) (ini : graph_initial α)
    (s : gno_modeling_simple_acceleration α) (hg : edges_in_range ini.get_graph)
    (h0 : (initialize_run c ini s).1 = 0) : occupancy_total ini (initialize_run c ini s).2 := by
  rw [initialize_run_eq] at h0 ⊢
  have hpass := (init_loop_ok_iff ini _ _).1 h0
  obtain ⟨-, -, -, -, h5, h6⟩ := init_loop_reset_shape c ini s
    (List.range ini.get_initial_state.vehicle_count)
  refine ⟨h6, ?_, ?_⟩
  · intro v hv
    rw [h5] at hv
    obtain ⟨e, he, hentry⟩ := init_loop_entry ini _ (reset c ini s) (List.nodup_range _) hpass v
      (List.mem_range.2 hv) (by
        show v < (resize _ _ _).length
        rw [length_resize]; exact hv)
    rw [hentry]
    exact hg _ _ _ he
  · rw [init_loop_sum ini hg _ _ hpass (by simp [reset])]
    simp [reset]

theorem occupancy_total_do_step (c : model_constants α) (ini : graph_initial α)
    (s : gno_modeling_simple_acceleration α) (hg : edges_in_range ini.get_graph)
    (hs : sized ini s) (h : occupancy_total ini s) :
    occupancy_total ini (do_step c ini s).2 := by
  obtain ⟨h1, h2, -⟩ := h
  have hrec := recount_loop_spec s.m_states (List.range ini.get_initial_state.vehicle_count)
    (List.replicate s.m_veh_on_edge.length 0)
  have hblen : (before_advance c ini s).m_veh_on_edge.length = ini.get_graph.edge_count := by
    show (recount_loop _ _ _).length = _
    rw [hrec.1]; simpa using h1
  have hbsum : (before_advance c ini s).m_veh_on_edge.sum =
      ini.get_initial_state.vehicle_count := by
    show (recount_loop _ _ _).sum = _
    rw [hrec.2 (fun v hv => by
      rw [List.length_replicate, h1]
      exact h2 v (by rw [hs.1]; exact List.mem_range.1 hv))]
    simp
  obtain ⟨a, b⟩ := advance_loop_sum c ini (min_critical_time c ini s) ini.get_graph.edge_count
    hg (List.range ini.get_initial_state.vehicle_count) (before_advance c ini s) hblen
    (fun v hv => by
      show v < s.m_states.length
      rw [hs.1]; exact List.mem_range.1 hv) h2
  obtain ⟨⟨-, -, a3, a4, -, a6⟩, -⟩ := advance_loop_spec c ini (min_critical_time c ini s)
    (List.range ini.get_initial_state.vehicle_count) (before_advance c ini s)
    (List.nodup_range _) (fun v hv => by
      show v < s.m_states.length
      rw [hs.1]; exact List.mem_range.1 hv)
  rw [do_step_eq]
  split_ifs with h0
  · obtain ⟨⟨-, v2, -, v4, -, -⟩, -⟩ := velocity_loop_spec c (min_critical_time c ini s)
      (List.range ini.get_initial_state.vehicle_count)
      (advance_loop c ini (min_critical_time c ini s)
        (List.range ini.get_initial_state.vehicle_count) (before_advance c ini s)).2
      (List.nodup_range _) (fun v hv => by
        rw [a3, a4]
        show v < s.m_velocities.length ∧ v < s.m_accelerations.length
        rw [hs.2.2.1, hs.2.2.2]; exact ⟨List.mem_range.1 hv, List.mem_range.1 hv⟩)
    refine ⟨?_, ?_, ?_⟩
    · show (velocity_loop _ _ _ _).m_veh_on_edge.length = _
      rw [v4, a6]; exact hblen
    · show ∀ v, v < (velocity_loop _ _ _ _).m_states.length →
        ((velocity_loop _ _ _ _).m_states.getD v _).edge_uid < _
      rw [v2]; exact b
    · show (velocity_loop _ _ _ _).m_veh_on_edge.sum = _
      rw [v4, a]; exact hbsum
  · exact ⟨a6.trans hblen, b, a.trans hbsum⟩

theorem occupancy_total_is_finished (c : model_constants α) (ini : graph_initial α)
    (s : gno_modeling_simple_acceleration α) (hs : sized ini s) (h : occupancy_total ini s) :
    occupancy_total ini (is_finished c ini s).2 := by
  obtain ⟨-, a2, a3, -⟩ := is_finished_spec c ini s hs.2.1
  unfold occupancy_total
  rw [a2, a3]
  exact h

/-- C6, counterexample: in the run of the two-vehicle input the state after the second
`do_step` has occupancy counters that add up to 2 although only one vehicle is
unfinished: the finished vehicle 0 is still counted on its last edge. -/
theorem occupancy_sum_counts_finished_vehicles :
    ∃ S : gno_modeling_simple_acceleration ℚ,
      state_after example_constants (two_vehicle_input ℚ) (fresh_engine ℚ) 2 = some S ∧
      S.m_veh_on_edge.sum = 2 ∧ unfinished_count (two_vehicle_input ℚ) S = 1 :=
  ⟨⟨3 / 2, [⟨0, 1, 0⟩, ⟨1, 1, 1⟩], [1, 0], [1, 1], [2, 2], [0, 0]⟩,
    by decide!, by decide!, by decide!⟩

/-- C6, amended: when every edge identifier returned by the graph is below `edge_count`,
in every state the run reaches after a successful initialization (after initialization
and after every `do_step`, successful or not) the occupancy counters add up to the total
number of vehicles, finished or not. -/
theorem occupancy_sum_counts_all_vehicles (c : model_constants α) (ini : graph_initial α)
    (s : gno_modeling_simple_acceleration α) (hg : edges_in_range ini.get_graph) (n : Nat)
    (s1 : gno_modeling_simple_acceleration α) (h : state_after c ini s n = some s1) :
    s1.m_veh_on_edge.sum = ini.get_initial_state.vehicle_count ∧
    ((is_finished c ini s1).1 = false →
      (do_step c ini (is_finished c ini s1).2).2.m_veh_on_edge.sum =
        ini.get_initial_state.vehicle_count) := by
  obtain ⟨hs1, ho1⟩ := state_after_induction c ini s (occupancy_total ini)
    (occupancy_total_init c ini s hg)
    (fun s0 hs0 hp0 _ _ => occupancy_total_do_step c ini _ hg (is_finished_sized c ini s0 hs0)
      (occupancy_total_is_finished c ini s0 hs0 hp0)) n s1 h
  exact ⟨ho1.2.2, fun _ => (occupancy_total_do_step c ini _ hg (is_finished_sized c ini s1 hs1)
    (occupancy_total_is_finished c ini s1 hs1 ho1)).2.2⟩

theorem chain_graph_in_range (β : Type) [LinearOrderedField β] :
    edges_in_range (chain_graph β) := by
  intro u v e he
  simp only [chain_graph] at he ⊢
  split_ifs at he <;> simp_all

/-- C6, instance of the amended statement: after the second `do_step` of the run of the
two-vehicle input the occupancy counters add up to the two vehicles. -/
theorem occupancy_sum_counts_all_vehicles_witness :
    state_after example_constants (two_vehicle_input ℚ) (fresh_engine ℚ) 2 =
      some ⟨3 / 2, [⟨0, 1, 0⟩, ⟨1, 1, 1⟩], [1, 0], [1, 1], [2, 2], [0, 0]⟩ ∧
    (⟨3 / 2, [⟨0, 1, 0⟩, ⟨1, 1, 1⟩], [1, 0], [1, 1], [2, 2], [0, 0]⟩ :
      gno_modeling_simple_acceleration ℚ).m_veh_on_edge.sum =
        (two_vehicle_input ℚ).get_initial_state.vehicle_count :=
  ⟨by decide!,
    (occupancy_sum_counts_all_vehicles example_constants (two_vehicle_input ℚ) (fresh_engine ℚ)
      (chain_graph_in_range ℚ) 2
      ⟨3 / 2, [⟨0, 1, 0⟩, ⟨1, 1, 1⟩], [1, 0], [1, 1], [2, 2], [0, 0]⟩ (by decide!)).1⟩

/-! ## Kinematics: the arithmetic of one step -/

theorem sqrt_ge_of_spec (sqrt : α → α)
    (hsq : ∀ x, 0 ≤ x → 0 ≤ sqrt x ∧ sqrt x * sqrt x = x) (V x : α) (hV : 0 ≤ V)
    (hx : 0 ≤ x) : V ≤ sqrt (V * V + x) := by
  obtain ⟨h1, h2⟩ := hsq (V * V + x) (by positivity)
  by_contra hlt
  have hlt' : sqrt (V * V + x) < V := not_le.1 hlt
  have := mul_self_lt_mul_self h1 hlt'
  linarith

/-- The displacement `V t + a t² / 2` at the time `t = (-V + √(V² + 2 a dS)) / a`. -/
theorem displacement_at_edge_end (a V dS r : α) (ha : 0 < a) (hr : r * r = V * V + 2 * a * dS) :
    V * ((-V + r) / a) + 1 / 2 * a * ((-V + r) / a) * ((-V + r) / a) = dS := by
  have ha' : a ≠ 0 := ne_of_gt ha
  have hat : a * ((-V + r) / a) = -V + r := mul_div_cancel₀ _ ha'
  apply mul_left_cancel₀ ha'
  linear_combination (1 / 2 * (a * ((-V + r) / a) + V + r)) * hat + 1 / 2 * hr

theorem displacement_mono (a V t1 t2 : α) (ha : 0 ≤ a) (hV : 0 ≤ V) (h1 : 0 ≤ t1)
    (h12 : t1 ≤ t2) :
    V * t1 + 1 / 2 * a * t1 * t1 ≤ V * t2 + 1 / 2 * a * t2 * t2 := by
  have h2 : 0 ≤ t2 := le_trans h1 h12
  have e1 : V * t1 ≤ V * t2 := mul_le_mul_of_nonneg_left h12 hV
  have e2 : t1 * t1 ≤ t2 * t2 := mul_le_mul h12 h12 h1 h2
  have e3 : 1 / 2 * a * (t1 * t1) ≤ 1 / 2 * a * (t2 * t2) :=
    mul_le_mul_of_nonneg_left e2 (by positivity)
  calc V * t1 + 1 / 2 * a * t1 * t1 = V * t1 + 1 / 2 * a * (t1 * t1) := by ring
    _ ≤ V * t2 + 1 / 2 * a * (t2 * t2) := add_le_add e1 e3
    _ = V * t2 + 1 / 2 * a * t2 * t2 := by ring

theorem displacement_nonneg (a V t : α) (ha : 0 ≤ a) (hV : 0 ≤ V) (ht : 0 ≤ t) :
    0 ≤ V * t + 1 / 2 * a * t * t := by
  have := displacement_mono a V 0 t ha hV le_rfl ht
  simpa using this

theorem fuzzy_eq_iff (c : model_constants α) (x y : α) :
    fuzzy_eq c x y = true ↔ |x - y| < c.eps := by
  simp [fuzzy_eq]

theorem fuzzy_eq_self (c : model_constants α) (x : α) (h : 0 < c.eps) :
    fuzzy_eq c x x = true := by
  rw [fuzzy_eq_iff]; simpa using h

theorem eps_pos_of_fuzzy_eq (c : model_constants α) (x y : α) (h : fuzzy_eq c x y = true) :
    0 < c.eps :=
  lt_of_le_of_lt (abs_nonneg _) ((fuzzy_eq_iff c x y).1 h)

/-- The critical time of a vehicle with velocity `V`, acceleration `a`, edge length `S` and
progress `p`, as a function of these numbers. -/
theorem critical_time_eq (c : model_constants α) (ini : graph_initial α)
    (s : gno_modeling_simple_acceleration α) (v : uid) (V a : α)
    (hV : s.m_velocities.getD v 0 = V) (ha : s.m_accelerations.getD v 0 = a) :
    critical_time c ini s v =
      if fuzzy_eq c a 0 then
        ini.get_graph.length (s.m_states.getD v vehicle_discrete_state.zero).edge_uid *
          (1 - (s.m_states.getD v vehicle_discrete_state.zero).part) / V
      else if (c.V_MAX - V) / a <
          (-V + c.sqrt (V * V + 2 * a *
            (ini.get_graph.length (s.m_states.getD v vehicle_discrete_state.zero).edge_uid *
              (1 - (s.m_states.getD v vehicle_discrete_state.zero).part)))) / a then
        (c.V_MAX - V) / a
      else
        (-V + c.sqrt (V * V + 2 * a *
          (ini.get_graph.length (s.m_states.getD v vehicle_discrete_state.zero).edge_uid *
            (1 - (s.m_states.getD v vehicle_discrete_state.zero).part)))) / a := by
  simp only [critical_time, hV, ha]

/-- The arithmetic of one vehicle in one step: its critical time `ct` is not negative, and
moving for a time `0 ≤ dt ≤ ct` keeps the progress at most 1 and the velocity at most
`V_MAX`; while `A_MAX` is fuzzily zero, `dt` is `0`. -/
theorem critical_time_bounds (c : model_constants α) (hsq : exact_sqrt c) (hA : 0 < c.A_MAX)
    (S p V a ct : α) (hS : 0 < S) (hp : p ≤ 1) (hV0 : 0 ≤ V) (hV1 : V ≤ c.V_MAX)
    (ha : a = c.A_MAX ∨ (a = 0 ∧ 0 < c.eps)) (hB : fuzzy_eq c c.A_MAX 0 = true → V = 0)
    (hct : ct = if fuzzy_eq c a 0 then S * (1 - p) / V
      else if (c.V_MAX - V) / a < (-V + c.sqrt (V * V + 2 * a * (S * (1 - p)))) / a then
        (c.V_MAX - V) / a
      else (-V + c.sqrt (V * V + 2 * a * (S * (1 - p)))) / a) :
    0 ≤ ct ∧ ∀ dt, 0 ≤ dt → dt ≤ ct →
      p + (V * dt + 1 / 2 * a * dt * dt) / S ≤ 1 ∧ V + dt * a ≤ c.V_MAX ∧
      (fuzzy_eq c c.A_MAX 0 = true → dt = 0) := by
  have hdS : 0 ≤ S * (1 - p) := mul_nonneg (le_of_lt hS) (by linarith)
  have hpart : ∀ d : α, d ≤ S * (1 - p) → p + d / S ≤ 1 := by
    intro d hd
    have : d / S ≤ 1 - p := by
      rw [div_le_iff₀ hS]; linarith [mul_comm S (1 - p)]
    linarith
  by_cases hf : fuzzy_eq c a 0 = true
  · rw [if_pos hf] at hct
    have hct0 : 0 ≤ ct := by rw [hct]; exact div_nonneg hdS hV0
    refine ⟨hct0, ?_⟩
    intro dt hdt0 hdt
    have hVdt : V * dt ≤ S * (1 - p) := by
      rcases eq_or_lt_of_le hV0 with hV | hV
      · rw [← hV]; simpa using hdS
      · have := mul_le_mul_of_nonneg_left hdt (le_of_lt hV)
        rw [hct, mul_div_cancel₀ _ (ne_of_gt hV)] at this
        exact this
    rcases ha with ha | ⟨ha, -⟩
    · -- `A_MAX` is fuzzily zero: the velocity is zero and so is the critical time
      have hV : V = 0 := hB (by rw [← ha]; exact hf)
      have hdt' : dt = 0 := by
        rw [hct, hV, div_zero] at hdt
        exact le_antisymm hdt hdt0
      refine ⟨?_, ?_, fun _ => hdt'⟩
      · rw [hdt']; simpa using hp
      · rw [hdt']; simpa using hV1
    · refine ⟨?_, ?_, ?_⟩
      · apply hpart
        rw [ha]; simpa using hVdt
      · rw [ha]; simpa using hV1
      · intro hfA
        have hV : V = 0 := hB hfA
        rw [hct, hV, div_zero] at hdt
        exact le_antisymm hdt hdt0
  · rw [if_neg hf] at hct
    have haA : a = c.A_MAX := by
      rcases ha with ha | ⟨ha, he⟩
      · exact ha
      · exact absurd (by rw [ha]; exact fuzzy_eq_self c 0 he) hf
    have ha0 : 0 < a := by rw [haA]; exact hA
    have hnB : ¬ fuzzy_eq c c.A_MAX 0 = true := by rw [← haA]; exact hf
    obtain ⟨hr0, hr⟩ := hsq (V * V + 2 * a * (S * (1 - p))) (by positivity)
    have hge : V ≤ c.sqrt (V * V + 2 * a * (S * (1 - p))) :=
      sqrt_ge_of_spec c.sqrt hsq V _ hV0 (by positivity)
    have hend : 0 ≤ (-V + c.sqrt (V * V + 2 * a * (S * (1 - p)))) / a :=
      div_nonneg (by linarith) (le_of_lt ha0)
    have hacc : 0 ≤ (c.V_MAX - V) / a := div_nonneg (by linarith) (le_of_lt ha0)
    have hle_end : ct ≤ (-V + c.sqrt (V * V + 2 * a * (S * (1 - p)))) / a := by
      rw [hct]; split_ifs with h
      · exact le_of_lt h
      · exact le_rfl
    have hle_acc : ct ≤ (c.V_MAX - V) / a := by
      rw [hct]; split_ifs with h
      · exact le_rfl
      · exact not_lt.1 h
    have hct0 : 0 ≤ ct := by
      rw [hct]; split_ifs
      · exact hacc
      · exact hend
    refine ⟨hct0, ?_⟩
    intro dt hdt0 hdt
    refine ⟨?_, ?_, fun h => absurd h hnB⟩
    · apply hpart
      calc V * dt + 1 / 2 * a * dt * dt
          ≤ V * ((-V + c.sqrt (V * V + 2 * a * (S * (1 - p)))) / a) +
            1 / 2 * a * ((-V + c.sqrt (V * V + 2 * a * (S * (1 - p)))) / a) *
              ((-V + c.sqrt (V * V + 2 * a * (S * (1 - p)))) / a) :=
            displacement_mono a V _ _ (le_of_lt ha0) hV0 hdt0 (le_trans hdt hle_end)
        _ = S * (1 - p) := displacement_at_edge_end a V _ _ ha0 hr
    · have h1 : dt * a ≤ (c.V_MAX - V) / a * a :=
        mul_le_mul_of_nonneg_right (le_trans hdt hle_acc) (le_of_lt ha0)
      rw [div_mul_cancel₀ _ (ne_of_gt ha0)] at h1
      linarith


theorem advanced_part_eq (ini : graph_initial α) (dt : α)
    (s : gno_modeling_simple_acceleration α) (v : uid) (V a : α)
    (hV : s.m_velocities.getD v 0 = V) (ha : s.m_accelerations.getD v 0 = a) :
    advanced_part ini dt s v =
      (s.m_states.getD v vehicle_discrete_state.zero).part +
        (V * dt + 1 / 2 * a * dt * dt) /
          ini.get_graph.length (s.m_states.getD v vehicle_discrete_state.zero).edge_uid := by
  simp only [advanced_part, hV, ha]

/-- One `do_step` from a state with an unfinished vehicle: the time step is not negative
and the kinematic invariant is preserved, whether the step succeeds or not. -/
theorem kinematic_inv_do_step (c : model_constants α) (ini : graph_initial α)
    (s : gno_modeling_simple_acceleration α) (hsq : exact_sqrt c) (hA : 0 < c.A_MAX)
    (hlen : ∀ e, 0 < ini.get_graph.length e) (hs : sized ini s)
    (hK : kinematic_inv c ini s)
    (hex : ∃ v, v < ini.get_initial_state.vehicle_count ∧ s.m_finished.getD v 0 ≠ 1) :
    0 ≤ min_critical_time c ini s ∧ kinematic_inv c ini (do_step c ini s).2 := by
  obtain ⟨V, a, hshared, hV0, hV1, ha, hB, hparts⟩ := hK
  obtain ⟨hmin_le, i, hi, hfi, hmin_eq⟩ := min_critical_time_spec c ini s hex
  have hcrit : ∀ v, v < ini.get_initial_state.vehicle_count →
      0 ≤ critical_time c ini s v ∧ ∀ dt, 0 ≤ dt → dt ≤ critical_time c ini s v →
        (s.m_states.getD v vehicle_discrete_state.zero).part +
          (V * dt + 1 / 2 * a * dt * dt) /
            ini.get_graph.length (s.m_states.getD v vehicle_discrete_state.zero).edge_uid ≤ 1 ∧
        V + dt * a ≤ c.V_MAX ∧ (fuzzy_eq c c.A_MAX 0 = true → dt = 0) :=
    fun v hv => critical_time_bounds c hsq hA _ _ V a _ (hlen _) (hparts v hv).2 hV0 hV1 ha hB
      (critical_time_eq c ini s v V a (hshared v hv).1 (hshared v hv).2)
  have hdt0 : 0 ≤ min_critical_time c ini s := by rw [hmin_eq]; exact (hcrit i hi).1
  have ha0 : 0 ≤ a := by
    rcases ha with ha | ⟨ha, -⟩
    · rw [ha]; exact le_of_lt hA
    · rw [ha]
  obtain ⟨-, hV1', hB'⟩ := (hcrit i hi).2 _ hdt0 (le_of_eq hmin_eq)
  have hpart_new : ∀ v, v < ini.get_initial_state.vehicle_count →
      s.m_finished.getD v 0 ≠ 1 →
      0 ≤ advanced_part ini (min_critical_time c ini s) s v ∧
        advanced_part ini (min_critical_time c ini s) s v ≤ 1 := by
    intro v hv hf
    rw [advanced_part_eq ini _ s v V a (hshared v hv).1 (hshared v hv).2]
    refine ⟨?_, ((hcrit v hv).2 _ hdt0 (hmin_le v hv hf)).1⟩
    exact add_nonneg (hparts v hv).1
      (div_nonneg (displacement_nonneg a V _ ha0 hV0 hdt0) (le_of_lt (hlen _)))
  have hparts' : ∀ v, v < ini.get_initial_state.vehicle_count →
      0 ≤ ((do_step c ini s).2.m_states.getD v vehicle_discrete_state.zero).part ∧
      ((do_step c ini s).2.m_states.getD v vehicle_discrete_state.zero).part ≤ 1 := by
    intro v hv
    by_cases hf : s.m_finished.getD v 0 = 1
    · rw [(do_step_frame c ini s hs).2.2.2.2.2 v (Or.inl hf)]
      exact hparts v hv
    · rcases do_step_entries c ini s hs v hv hf with ⟨h, -⟩ | hm | ⟨-, h, -⟩
      · rw [h]; exact hparts v hv
      · rcases hm with ⟨h, -⟩ | ⟨-, -, e, -, h⟩
        · rw [h]; exact hpart_new v hv hf
        · rw [h]; exact ⟨le_rfl, zero_le_one⟩
      · rw [h]; exact hpart_new v hv hf
  refine ⟨hdt0, ?_⟩
  rcases (do_step_frame c ini s hs).2.2.2.2.1 with h0 | h1
  · have hvel := (do_step_velocities c ini s hs).1 h0
    refine ⟨V + min_critical_time c ini s * a,
      if fuzzy_eq c (V + min_critical_time c ini s * a) c.V_MAX then 0 else a,
      ?_, ?_, hV1', ?_, ?_, hparts'⟩
    · intro v hv
      obtain ⟨e1, e2⟩ := hvel v hv
      rw [(hshared v hv).1, (hshared v hv).2] at e1 e2
      exact ⟨e1, e2⟩
    · exact add_nonneg hV0 (mul_nonneg hdt0 ha0)
    · split_ifs with hfz
      · exact Or.inr ⟨rfl, eps_pos_of_fuzzy_eq c _ _ hfz⟩
      · exact ha
    · intro hfA
      rw [hB' hfA, hB hfA]
      simp
  · obtain ⟨e1, e2⟩ := (do_step_velocities c ini s hs).2 h1
    refine ⟨V, a, ?_, hV0, hV1, ha, hB, hparts'⟩
    intro v hv
    rw [e1, e2]
    exact hshared v hv

theorem kinematic_inv_is_finished (c : model_constants α) (ini : graph_initial α)
    (s : gno_modeling_simple_acceleration α) (hs : sized ini s)
    (hK : kinematic_inv c ini s) : kinematic_inv c ini (is_finished c ini s).2 := by
  obtain ⟨-, a2, -, a4, a5, -⟩ := is_finished_spec c ini s hs.2.1
  unfold kinematic_inv
  rw [a2, a4, a5]
  exact hK

theorem kinematic_inv_init (c : model_constants α) (ini : graph_initial α)
    (s : gno_modeling_simple_acceleration α) (hV : 0 ≤ c.V_MAX)
    (h0 : (initialize_run c ini s).1 = 0) : kinematic_inv c ini (initialize_run c ini s).2 := by
  rw [initialize_run_eq] at h0 ⊢
  have hpass := (init_loop_ok_iff ini _ _).1 h0
  obtain ⟨-, -, h3, h4, -, -⟩ := init_loop_reset_shape c ini s
    (List.range ini.get_initial_state.vehicle_count)
  refine ⟨0, c.A_MAX, ?_, le_rfl, hV, Or.inl rfl, fun _ => rfl, ?_⟩
  · intro v hv
    rw [h3, h4]
    exact ⟨getD_replicate_eq _ _ _, getD_replicate_lt _ _ _ _ hv⟩
  · intro v hv
    obtain ⟨e, -, hentry⟩ := init_loop_entry ini _ (reset c ini s) (List.nodup_range _) hpass v
      (List.mem_range.2 hv) (by
        show v < (resize _ _ _).length
        rw [length_resize]; exact hv)
    rw [hentry]
    exact ⟨le_rfl, zero_le_one⟩

theorem real_sqrt_exact (c : model_constants ℝ) (hsqrt : c.sqrt = Real.sqrt) :
    exact_sqrt c := by
  intro x hx
  rw [hsqrt]
  exact ⟨Real.sqrt_nonneg x, Real.mul_self_sqrt hx⟩

/-- In every state the run reaches the per-vehicle vectors are sized and the kinematic
invariant holds. -/
theorem kinematic_inv_state_after (c : model_constants α) (ini : graph_initial α)
    (s : gno_modeling_simple_acceleration α) (hsq : exact_sqrt c) (hA : 0 < c.A_MAX)
    (hV : 0 ≤ c.V_MAX) (hlen : ∀ e, 0 < ini.get_graph.length e) (n : Nat)
    (s1 : gno_modeling_simple_acceleration α) (h : state_after c ini s n = some s1) :
    sized ini s1 ∧ kinematic_inv c ini s1 :=
  state_after_induction c ini s (kinematic_inv c ini) (kinematic_inv_init c ini s hV)
    (fun s0 hs0 hK0 hf _ =>
      (kinematic_inv_do_step c ini _ hsq hA hlen (is_finished_sized c ini s0 hs0)
        (kinematic_inv_is_finished c ini s0 hs0 hK0)
        ((is_finished_spec c ini s0 hs0.2.1).2.2.2.2.2.2.2.2 hf)).2) n s1 h

/-- The bounds the kinematic invariant gives for every vehicle. -/
theorem kinematic_inv_bounds (c : model_constants α) (ini : graph_initial α)
    (s : gno_modeling_simple_acceleration α) (hK : kinematic_inv c ini s) :
    ∀ v, v < ini.get_initial_state.vehicle_count →
      0 ≤ s.m_velocities.getD v 0 ∧ s.m_velocities.getD v 0 ≤ c.V_MAX ∧
      0 ≤ (s.m_states.getD v vehicle_discrete_state.zero).part ∧
      (s.m_states.getD v vehicle_discrete_state.zero).part ≤ 1 := by
  obtain ⟨V, a, hshared, hV0, hV1, -, -, hparts⟩ := hK
  intro v hv
  rw [(hshared v hv).1]
  exact ⟨hV0, hV1, hparts v hv⟩

/-- C7: over the reals (the constants carry the real square root), with `A_MAX` and `V_MAX`
positive and larger than the tolerance of `fuzzy_eq` and every edge length positive, in
every state the run reaches after a successful initialization (at every loop head, and
after the `do_step` called from that loop head, successful or not) every vehicle,
finished or not, has `0 ≤ velocity ≤ V_MAX` and `0 ≤ part ≤ 1` (exactly, hence also
within the tolerance). -/
theorem velocity_and_part_bounds (c : model_constants ℝ) (hsqrt : c.sqrt = Real.sqrt)
    (ini : graph_initial ℝ) (s : gno_modeling_simple_acceleration ℝ)
    (hA0 : 0 < c.A_MAX) (hV0 : 0 < c.V_MAX) (_hA : c.eps < c.A_MAX) (_hV : c.eps < c.V_MAX)
    (hlen : ∀ e, 0 < ini.get_graph.length e)
    (n : Nat) (s1 : gno_modeling_simple_acceleration ℝ) (h : state_after c ini s n = some s1) :
    (∀ v, v < ini.get_initial_state.vehicle_count →
      0 ≤ s1.m_velocities.getD v 0 ∧ s1.m_velocities.getD v 0 ≤ c.V_MAX ∧
      0 ≤ (s1.m_states.getD v vehicle_discrete_state.zero).part ∧
      (s1.m_states.getD v vehicle_discrete_state.zero).part ≤ 1) ∧
    ((is_finished c ini s1).1 = false →
      ∀ v, v < ini.get_initial_state.vehicle_count →
        0 ≤ (do_step c ini (is_finished c ini s1).2).2.m_velocities.getD v 0 ∧
        (do_step c ini (is_finished c ini s1).2).2.m_velocities.getD v 0 ≤ c.V_MAX ∧
        0 ≤ ((do_step c ini (is_finished c ini s1).2).2.m_states.getD v
          vehicle_discrete_state.zero).part ∧
        ((do_step c ini (is_finished c ini s1).2).2.m_states.getD v
          vehicle_discrete_state.zero).part ≤ 1) := by
  obtain ⟨hs1, hK1⟩ := kinematic_inv_state_after c ini s (real_sqrt_exact c hsqrt) hA0
    (le_of_lt hV0) hlen n s1 h
  refine ⟨kinematic_inv_bounds c ini s1 hK1, fun hf => ?_⟩
  exact kinematic_inv_bounds c ini _
    (kinematic_inv_do_step c ini _ (real_sqrt_exact c hsqrt) hA0 hlen
      (is_finished_sized c ini s1 hs1) (kinematic_inv_is_finished c ini s1 hs1 hK1)
      ((is_finished_spec c ini s1 hs1.2.1).2.2.2.2.2.2.2.2 hf)).2

/-- One iteration of the loop of `run` does not move the clock backwards. -/
theorem clock_step (c : model_constants α) (ini : graph_initial α)
    (s : gno_modeling_simple_acceleration α) (hsq : exact_sqrt c) (hA : 0 < c.A_MAX)
    (hV : 0 ≤ c.V_MAX) (hlen : ∀ e, 0 < ini.get_graph.length e) (n : Nat)
    (s1 : gno_modeling_simple_acceleration α) (h : state_after c ini s n = some s1) :
    (is_finished c ini s1).2.m_t = s1.m_t ∧
    ((is_finished c ini s1).1 = false →
      0 ≤ min_critical_time c ini (is_finished c ini s1).2 ∧
      (do_step c ini (is_finished c ini s1).2).2.m_t =
        s1.m_t + min_critical_time c ini (is_finished c ini s1).2 ∧
      s1.m_t ≤ (do_step c ini (is_finished c ini s1).2).2.m_t) := by
  obtain ⟨hs1, hK1⟩ := kinematic_inv_state_after c ini s hsq hA hV hlen n s1 h
  have hmt := (is_finished_spec c ini s1 hs1.2.1).1
  refine ⟨hmt, fun hf => ?_⟩
  have hdt := (kinematic_inv_do_step c ini _ hsq hA hlen
    (is_finished_sized c ini s1 hs1) (kinematic_inv_is_finished c ini s1 hs1 hK1)
    ((is_finished_spec c ini s1 hs1.2.1).2.2.2.2.2.2.2.2 hf)).1
  have hstep := (do_step_frame c ini _ (is_finished_sized c ini s1 hs1)).2.2.1
  rw [hmt] at hstep
  exact ⟨hdt, hstep, by rw [hstep]; exact le_add_of_nonneg_right hdt⟩

/-- The clock never decreases from one loop head of the run to a later one. -/
theorem clock_chain (c : model_constants α) (ini : graph_initial α)
    (s : gno_modeling_simple_acceleration α) (hsq : exact_sqrt c) (hA : 0 < c.A_MAX)
    (hV : 0 ≤ c.V_MAX) (hlen : ∀ e, 0 < ini.get_graph.length e) (n : Nat)
    (s1 : gno_modeling_simple_acceleration α) (h1 : state_after c ini s n = some s1) :
    ∀ (d : Nat) (s2 : gno_modeling_simple_acceleration α),
      state_after c ini s (n + d) = some s2 → s1.m_t ≤ s2.m_t
  | 0, s2, h2 => by
    rw [Nat.add_zero, h1] at h2
    cases h2
    exact le_rfl
  | d + 1, s2, h2 => by
    obtain ⟨s3, h3, hf, rfl⟩ := state_after_succ c ini s (n + d) s2 h2
    exact le_trans (clock_chain c ini s hsq hA hV hlen n s1 h1 d s3 h3)
      ((clock_step c ini s hsq hA hV hlen (n + d) s3 h3).2 hf).2.2

/-! ## Progress: every step is an event -/

/-- At its own critical time a vehicle either reaches the speed cap (while still
accelerating) or the end of its edge. -/
theorem critical_time_event (c : model_constants α) (hsq : exact_sqrt c) (hA : 0 < c.A_MAX)
    (hnf : ¬ fuzzy_eq c c.A_MAX 0 = true)
    (S p V a ct : α) (hS : 0 < S) (hp : p ≤ 1)
    (ha : a = c.A_MAX ∨ (a = 0 ∧ 0 < c.eps)) (hmove : a = 0 → 0 < V)
    (hct : ct = if fuzzy_eq c a 0 then S * (1 - p) / V
      else if (c.V_MAX - V) / a < (-V + c.sqrt (V * V + 2 * a * (S * (1 - p)))) / a then
        (c.V_MAX - V) / a
      else (-V + c.sqrt (V * V + 2 * a * (S * (1 - p)))) / a) :
    (a = c.A_MAX ∧ V + ct * a = c.V_MAX) ∨ p + (V * ct + 1 / 2 * a * ct * ct) / S = 1 := by
  have hS' : S ≠ 0 := ne_of_gt hS
  have hfull : ∀ d : α, d = S * (1 - p) → p + d / S = 1 := by
    intro d hd
    rw [hd, mul_div_cancel_left₀ _ hS']
    ring
  rcases ha with ha | ⟨ha, he⟩
  · -- still accelerating
    have hf : ¬ fuzzy_eq c a 0 = true := by rw [ha]; exact hnf
    have ha0 : 0 < a := by rw [ha]; exact hA
    rw [if_neg hf] at hct
    split_ifs at hct with h
    · left
      refine ⟨ha, ?_⟩
      rw [hct, div_mul_cancel₀ _ (ne_of_gt ha0)]
      ring
    · right
      apply hfull
      rw [hct]
      have hdS : 0 ≤ S * (1 - p) := mul_nonneg (le_of_lt hS) (by linarith)
      have hx : 0 ≤ V * V + 2 * a * (S * (1 - p)) :=
        add_nonneg (mul_self_nonneg V) (mul_nonneg (by linarith) hdS)
      exact displacement_at_edge_end a V _ _ ha0 (hsq _ hx).2
  · -- cruising
    have hV := hmove ha
    rw [ha, if_pos (fuzzy_eq_self c 0 he)] at hct
    right
    apply hfull
    rw [hct, ha, mul_div_cancel₀ _ (ne_of_gt hV)]
    ring

/-- From the initial kinematic state (velocity 0, acceleration `A_MAX`, progress 0) the
critical time is positive. -/
theorem critical_time_pos_at_start (c : model_constants α) (hsq : exact_sqrt c)
    (hA : 0 < c.A_MAX) (hV : 0 < c.V_MAX) (hnf : ¬ fuzzy_eq c c.A_MAX 0 = true)
    (S ct : α) (hS : 0 < S)
    (hct : ct = if fuzzy_eq c c.A_MAX 0 then S * (1 - 0) / 0
      else if (c.V_MAX - 0) / c.A_MAX <
          (-0 + c.sqrt (0 * 0 + 2 * c.A_MAX * (S * (1 - 0)))) / c.A_MAX then
        (c.V_MAX - 0) / c.A_MAX
      else (-0 + c.sqrt (0 * 0 + 2 * c.A_MAX * (S * (1 - 0)))) / c.A_MAX) :
    0 < ct := by
  rw [if_neg hnf] at hct
  have hx : 0 < 0 * 0 + 2 * c.A_MAX * (S * (1 - 0)) := by
    have : 0 < 2 * c.A_MAX * (S * (1 - 0)) := by
      have h1 : (0 : α) < 1 - 0 := by norm_num
      positivity
    linarith
  obtain ⟨hr0, hr⟩ := hsq _ (le_of_lt hx)
  generalize 0 * 0 + 2 * c.A_MAX * (S * (1 - 0)) = x at hx hr0 hr hct
  have hrpos : 0 < c.sqrt x := by
    rcases eq_or_lt_of_le hr0 with h | h
    · rw [← h, mul_zero] at hr
      rw [← hr] at hx
      exact absurd hx (lt_irrefl _)
    · exact h
  rw [hct]
  split_ifs
  · exact div_pos (by linarith) hA
  · exact div_pos (by linarith) hA

theorem progress_inv_is_finished (c : model_constants α) (ini : graph_initial α)
    (s : gno_modeling_simple_acceleration α) (h : progress_inv c ini s) :
    progress_inv c ini (is_finished c ini s).2 := by
  obtain ⟨hs, hK, hm, hp⟩ := h
  obtain ⟨-, a2, -, a4, a5, -⟩ := is_finished_spec c ini s hs.2.1
  refine ⟨is_finished_sized c ini s hs, kinematic_inv_is_finished c ini s hs hK, ?_, ?_⟩
  · unfold moving
    rw [a2, a4, a5]
    exact hm
  · unfold path_following
    rw [a2]
    exact hp

theorem progress_inv_init (c : model_constants α) (ini : graph_initial α)
    (s : gno_modeling_simple_acceleration α) (hV : 0 ≤ c.V_MAX)
    (h0 : (initialize_run c ini s).1 = 0) : progress_inv c ini (initialize_run c ini s).2 := by
  refine ⟨initialize_run_sized c ini s, kinematic_inv_init c ini s hV h0, ?_, ?_⟩
  all_goals
    rw [initialize_run_eq] at h0 ⊢
    have hpass := (init_loop_ok_iff ini _ _).1 h0
    obtain ⟨-, -, h3, h4, -, -⟩ := init_loop_reset_shape c ini s
      (List.range ini.get_initial_state.vehicle_count)
    have hentry : ∀ v, v < ini.get_initial_state.vehicle_count →
        ∃ e ∈ ini.get_graph.edges ((ini.get_initial_state.vehicle v).path.getD 0 0)
            ((ini.get_initial_state.vehicle v).path.getD 1 0),
          (init_loop ini (List.range ini.get_initial_state.vehicle_count)
            (reset c ini s)).2.m_states.getD v vehicle_discrete_state.zero = ⟨e, 0, 0⟩ :=
      fun v hv => init_loop_entry ini _ (reset c ini s) (List.nodup_range _) hpass v
        (List.mem_range.2 hv) (by
          show v < (resize _ _ _).length
          rw [length_resize]; exact hv)
  · right
    refine ⟨fun v hv => ?_, fun v hv => ?_⟩
    · rw [h3, h4]
      exact ⟨getD_replicate_eq _ _ _, getD_replicate_lt _ _ _ _ hv⟩
    · obtain ⟨e, -, he⟩ := hentry v hv
      rw [he]
  · intro v hv
    obtain ⟨e, hmem, he⟩ := hentry v hv
    rw [he]
    exact ⟨(hpass v (List.mem_range.2 hv)).1, hmem⟩

/-- On connected paths no vehicle that follows its path runs into a dead end. -/
theorem no_dead_end (c : model_constants α) (ini : graph_initial α)
    (s : gno_modeling_simple_acceleration α) (hconn : connected_paths ini)
    (hp : path_following ini s) (v : uid) (hv : v < ini.get_initial_state.vehicle_count)
    (p : α) : ¬ dead_end c ini v (s.m_states.getD v vehicle_discrete_state.zero) p := by
  rintro ⟨-, hnl, hnil⟩
  obtain ⟨h1, -⟩ := hp v hv
  have hlt : (s.m_states.getD v vehicle_discrete_state.zero).node_num + 1 + 1 <
      (ini.get_initial_state.vehicle v).path.length := by
    unfold at_last_pair at hnl
    omega
  exact (hconn v hv).2 _ hlt hnil

theorem do_step_ok_of_connected (c : model_constants α) (ini : graph_initial α)
    (s : gno_modeling_simple_acceleration α) (hconn : connected_paths ini)
    (hs : sized ini s) (hp : path_following ini s) : (do_step c ini s).1 = 0 := by
  rcases (do_step_frame c ini s hs).2.2.2.2.1 with h | h
  · exact h
  · obtain ⟨v, hv, -, hd⟩ := (do_step_fails_iff c ini s hs).1 h
    exact absurd hd (no_dead_end c ini s hconn hp v hv _)

/-- After a successful step every unfinished vehicle has moved on. -/
theorem do_step_moved_on (c : model_constants α) (ini : graph_initial α)
    (s : gno_modeling_simple_acceleration α) (hs : sized ini s)
    (h0 : (do_step c ini s).1 = 0) (v : uid) (hv : v < ini.get_initial_state.vehicle_count)
    (hf : s.m_finished.getD v 0 ≠ 1) :
    moved_on c ini v (s.m_states.getD v vehicle_discrete_state.zero)
      (advanced_part ini (min_critical_time c ini s) s v)
      ((do_step c ini s).2.m_states.getD v vehicle_discrete_state.zero) := by
  rcases do_step_entries c ini s hs v hv hf with ⟨-, h⟩ | hm | ⟨-, -, h⟩
  · rw [h0] at h; exact absurd h (by decide)
  · exact hm
  · rw [h0] at h; exact absurd h (by decide)

theorem path_following_do_step (c : model_constants α) (ini : graph_initial α)
    (s : gno_modeling_simple_acceleration α) (hs : sized ini s)
    (h0 : (do_step c ini s).1 = 0) (hp : path_following ini s) :
    path_following ini (do_step c ini s).2 := by
  intro v hv
  by_cases hf : s.m_finished.getD v 0 = 1
  · rw [(do_step_frame c ini s hs).2.2.2.2.2 v (Or.inl hf)]
    exact hp v hv
  · obtain ⟨h1, h2⟩ := hp v hv
    rcases do_step_moved_on c ini s hs h0 v hv hf with ⟨h, -⟩ | ⟨-, hnl, e, he, h⟩
    · rw [h]; exact ⟨h1, h2⟩
    · rw [h]
      unfold at_last_pair at hnl
      exact ⟨by show _ + 1 + 2 ≤ _; omega, he⟩


theorem moving_do_step (c : model_constants α) (ini : graph_initial α)
    (s : gno_modeling_simple_acceleration α) (hsq : exact_sqrt c) (hA : 0 < c.A_MAX)
    (hV : 0 < c.V_MAX) (hnf : ¬ fuzzy_eq c c.A_MAX 0 = true)
    (hlen : ∀ e, 0 < ini.get_graph.length e) (hs : sized ini s) (hK : kinematic_inv c ini s)
    (hm : moving c ini s)
    (hex : ∃ v, v < ini.get_initial_state.vehicle_count ∧ s.m_finished.getD v 0 ≠ 1)
    (h0 : (do_step c ini s).1 = 0) : moving c ini (do_step c ini s).2 := by
  have hdt0 := (kinematic_inv_do_step c ini s hsq hA hlen hs hK hex).1
  obtain ⟨V, a, hshared, -, -, ha, -, -⟩ := hK
  have ha0 : 0 ≤ a := by
    rcases ha with ha | ⟨ha, -⟩
    · rw [ha]; exact le_of_lt hA
    · rw [ha]
  have hvel := (do_step_velocities c ini s hs).1 h0
  left
  intro v hv
  rw [(hvel v hv).1]
  rcases hm with hm | ⟨hm1, hm2⟩
  · have := hm v hv
    rw [(hshared v hv).2]
    have h2 : 0 ≤ min_critical_time c ini s * a := mul_nonneg hdt0 ha0
    linarith
  · obtain ⟨-, i, hi, -, hmin⟩ := min_critical_time_spec c ini s hex
    have hct := critical_time_eq c ini s i 0 c.A_MAX (hm1 i hi).1 (hm1 i hi).2
    rw [hm2 i hi] at hct
    have hpos := critical_time_pos_at_start c hsq hA hV hnf _ _ (hlen _) hct
    rw [(hm1 v hv).1, (hm1 v hv).2, hmin, zero_add]
    exact mul_pos hpos hA

/-- One iteration of the loop of `run` on connected paths: the step succeeds, the
invariant is kept and the step budget drops. -/
theorem progress_step (c : model_constants α) (ini : graph_initial α)
    (s : gno_modeling_simple_acceleration α) (hsq : exact_sqrt c) (he : 0 < c.eps)
    (hA : c.eps < c.A_MAX) (hV : 0 < c.V_MAX) (hlen : ∀ e, 0 < ini.get_graph.length e)
    (hg : edges_end_at_target ini.get_graph) (hconn : connected_paths ini)
    (hinv : progress_inv c ini s) (hf : (is_finished c ini s).1 = false) :
    (do_step c ini (is_finished c ini s).2).1 = 0 ∧
    progress_inv c ini (do_step c ini (is_finished c ini s).2).2 ∧
    step_budget c ini (do_step c ini (is_finished c ini s).2).2 < step_budget c ini s := by
  have hA0 : 0 < c.A_MAX := lt_trans he hA
  have hnf : ¬ fuzzy_eq c c.A_MAX 0 = true := by
    rw [fuzzy_eq_iff, sub_zero, abs_of_pos hA0]
    exact not_lt.2 (le_of_lt hA)
  have hflag := (is_finished_spec c ini s hinv.1.2.1).2.2.2.2.2.2.1
  have hstates := (is_finished_spec c ini s hinv.1.2.1).2.1
  have hex := (is_finished_spec c ini s hinv.1.2.1).2.2.2.2.2.2.2.2 hf
  obtain ⟨hs, hK, hm, hp⟩ := progress_inv_is_finished c ini s hinv
  have h0 := do_step_ok_of_connected c ini _ hconn hs hp
  have hK' := (kinematic_inv_do_step c ini _ hsq hA0 hlen hs hK hex).2
  have hframe := do_step_frame c ini _ hs
  refine ⟨h0, ⟨hframe.1, hK', moving_do_step c ini _ hsq hA0 hV hnf hlen hs hK hm hex h0,
    path_following_do_step c ini _ hs h0 hp⟩, ?_⟩
  -- the budget
  have hrem : ∀ v, v < ini.get_initial_state.vehicle_count →
      remaining c ini s v =
        if (is_finished c ini s).2.m_finished.getD v 0 = 1 then 0
        else (ini.get_initial_state.vehicle v).path.length - 1 -
          ((is_finished c ini s).2.m_states.getD v vehicle_discrete_state.zero).node_num := by
    intro v hv
    unfold remaining
    rw [hstates]
    by_cases h1 : (is_finished c ini s).2.m_finished.getD v 0 = 1
    · rw [if_pos h1, if_pos]
      rcases (hflag v).1 h1 with h | ⟨-, h⟩
      · exact Or.inl h
      · exact Or.inr h
    · rw [if_neg h1, if_neg]
      rintro (h | h)
      · exact h1 ((hflag v).2 (Or.inl h))
      · exact h1 ((hflag v).2 (Or.inr ⟨hv, h⟩))
  have hle : ∀ v ∈ Finset.range ini.get_initial_state.vehicle_count,
      remaining c ini (do_step c ini (is_finished c ini s).2).2 v ≤ remaining c ini s v := by
    intro v hv
    have hv' := Finset.mem_range.1 hv
    rw [hrem v hv']
    by_cases h1 : (is_finished c ini s).2.m_finished.getD v 0 = 1
    · rw [if_pos h1]
      unfold remaining
      rw [hframe.2.1, if_pos (Or.inl h1)]
    · rw [if_neg h1]
      unfold remaining
      split_ifs
      · exact Nat.zero_le _
      · rcases do_step_moved_on c ini _ hs h0 v hv' h1 with ⟨h, -⟩ | ⟨-, -, e, -, h⟩
        · rw [h]
        · rw [h]
          show _ - 1 - (_ + 1) ≤ _
          omega
  obtain ⟨V, a, hshared, hV0, hV1, ha, hB, hparts⟩ := hK
  obtain ⟨hmin_le, i, hi, hfi, hmin⟩ := min_critical_time_spec c ini _ hex
  have hn0 : 0 < ini.get_initial_state.vehicle_count := lt_of_le_of_lt (Nat.zero_le _) hi
  have hvel := (do_step_velocities c ini _ hs).1 h0
  have hcap : cap_pending (do_step c ini (is_finished c ini s).2).2 ≤
      cap_pending (is_finished c ini s).2 := by
    unfold cap_pending
    rw [(hvel 0 hn0).2]
    split_ifs with h1 h2 h3 <;> simp_all
  have hcap_eq : cap_pending (is_finished c ini s).2 = cap_pending s := by
    unfold cap_pending
    rw [(is_finished_spec c ini s hinv.1.2.1).2.2.2.2.1]
  have hmove : a = 0 → 0 < V := by
    intro ha0
    rcases hm with hm | ⟨hm1, -⟩
    · rw [← (hshared i hi).1]; exact hm i hi
    · have := (hm1 i hi).2
      rw [(hshared i hi).2, ha0] at this
      exact absurd this.symm (ne_of_gt hA0)
  have hevent := critical_time_event c hsq hA0 hnf _ _ V a _ (hlen _) (hparts i hi).2 ha hmove
    (critical_time_eq c ini _ i V a (hshared i hi).1 (hshared i hi).2)
  rw [← hmin] at hevent
  unfold step_budget
  rcases hevent with ⟨haA, hcapv⟩ | hend
  · -- the step at which the speed cap is reached
    have h1 : cap_pending (do_step c ini (is_finished c ini s).2).2 = 0 := by
      unfold cap_pending
      rw [(hvel 0 hn0).2, (hshared 0 hn0).1, (hshared 0 hn0).2, hcapv,
        fuzzy_eq_self c _ he]
      simp
    have h2 : cap_pending s = 1 := by
      rw [← hcap_eq]
      unfold cap_pending
      rw [(hshared 0 hn0).2, haA, if_neg (ne_of_gt hA0)]
    rw [h1, h2]
    exact Nat.lt_succ_of_le (Finset.sum_le_sum hle)
  · -- vehicle `i` completes its edge
    rw [← advanced_part_eq ini _ _ i V a (hshared i hi).1 (hshared i hi).2] at hend
    have hfz : fuzzy_eq c (advanced_part ini
        (min_critical_time c ini (is_finished c ini s).2) (is_finished c ini s).2 i) 1 = true := by
      rw [hend]; exact fuzzy_eq_self c 1 he
    have hlt : remaining c ini (do_step c ini (is_finished c ini s).2).2 i <
        remaining c ini s i := by
      obtain ⟨hp1, hp2⟩ := hp i hi
      rw [hrem i hi, if_neg hfi]
      rcases do_step_moved_on c ini _ hs h0 i hi hfi with ⟨h, hl⟩ | ⟨-, -, e, -, h⟩
      · have hlast := hl hfz
        unfold at_last_pair at hlast
        have hk : ((is_finished c ini s).2.m_states.getD i
            vehicle_discrete_state.zero).node_num + 1 =
            (ini.get_initial_state.vehicle i).path.length - 1 := by omega
        have hfin : is_finish c ini (do_step c ini (is_finished c ini s).2).2 i = true := by
          rw [is_finish_iff, h]
          refine ⟨by show fuzzy_eq c (advanced_part _ _ _ _) 1 = true; exact hfz, ?_⟩
          show ((is_finished c ini s).2.m_states.getD i vehicle_discrete_state.zero).edge_uid ∈ _
          rw [← (hconn i hi).1.2.2.1, ← hk]
          exact hg _ _ _ hp2
        unfold remaining
        rw [if_pos (Or.inr hfin)]
        omega
      · unfold remaining
        split_ifs
        · omega
        · rw [h]
          show _ - 1 - (_ + 1) < _
          omega
    have hsum := Finset.sum_lt_sum hle ⟨i, Finset.mem_range.2 hi, hlt⟩
    rw [← hcap_eq]
    omega

/-! ## Termination -/

theorem run_loop_terminates (c : model_constants α) (ini : graph_initial α)
    (hsq : exact_sqrt c) (he : 0 < c.eps) (hA : c.eps < c.A_MAX) (hV : 0 < c.V_MAX)
    (hlen : ∀ e, 0 < ini.get_graph.length e) (hg : edges_end_at_target ini.get_graph)
    (hconn : connected_paths ini) :
    ∀ (m : Nat) (s : gno_modeling_simple_acceleration α) (steps : Nat),
      progress_inv c ini s → step_budget c ini s ≤ m →
      ∃ j S, j ≤ m ∧ ∀ fuel, j < fuel → run_loop c ini fuel steps s = some (0, S, steps + j) := by
  intro m
  induction m with
  | zero =>
    intro s steps hinv hb
    by_cases hf : (is_finished c ini s).1 = true
    · refine ⟨0, (is_finished c ini s).2, le_rfl, fun fuel hfuel => ?_⟩
      obtain ⟨f, rfl⟩ : ∃ f, fuel = f + 1 := ⟨fuel - 1, by omega⟩
      rw [run_loop, if_pos hf]
      rfl
    · have := (progress_step c ini s hsq he hA hV hlen hg hconn hinv (by simpa using hf)).2.2
      omega
  | succ m ih =>
    intro s steps hinv hb
    by_cases hf : (is_finished c ini s).1 = true
    · refine ⟨0, (is_finished c ini s).2, Nat.zero_le _, fun fuel hfuel => ?_⟩
      obtain ⟨f, rfl⟩ : ∃ f, fuel = f + 1 := ⟨fuel - 1, by omega⟩
      rw [run_loop, if_pos hf]
      rfl
    · obtain ⟨h0, hinv', hlt⟩ :=
        progress_step c ini s hsq he hA hV hlen hg hconn hinv (by simpa using hf)
      obtain ⟨j, S, hj, hrun⟩ := ih (do_step c ini (is_finished c ini s).2).2 (steps + 1) hinv'
        (by omega)
      refine ⟨j + 1, S, by omega, fun fuel hfuel => ?_⟩
      obtain ⟨f, rfl⟩ : ∃ f, fuel = f + 1 := ⟨fuel - 1, by omega⟩
      rw [run_loop, if_neg hf, if_pos (by rw [h0]; rfl), hrun f (by omega)]
      congr 3
      omega

theorem step_budget_init (c : model_constants α) (ini : graph_initial α)
    (s : gno_modeling_simple_acceleration α) :
    step_budget c ini s ≤
      1 + ∑ j in Finset.range ini.get_initial_state.vehicle_count,
        ((ini.get_initial_state.vehicle j).path.length - 1) := by
  unfold step_budget
  have h1 : cap_pending s ≤ 1 := by
    unfold cap_pending
    split_ifs <;> omega
  have h2 : ∑ v in Finset.range ini.get_initial_state.vehicle_count, remaining c ini s v ≤
      ∑ j in Finset.range ini.get_initial_state.vehicle_count,
        ((ini.get_initial_state.vehicle j).path.length - 1) := by
    apply Finset.sum_le_sum
    intro v _
    unfold remaining
    split_ifs
    · exact Nat.zero_le _
    · exact Nat.sub_le _ _
  omega

/-- On connected paths, with the tolerance positive and below `A_MAX`, the run terminates
with status 0 within the step bound. -/
theorem terminates_on_connected_paths (c : model_constants α) (ini : graph_initial α)
    (s : gno_modeling_simple_acceleration α)
    (hsq : exact_sqrt c) (he : 0 < c.eps) (hA : c.eps < c.A_MAX) (hV : 0 < c.V_MAX)
    (hlen : ∀ e, 0 < ini.get_graph.length e) (hg : edges_end_at_target ini.get_graph)
    (hconn : connected_paths ini) :
    ∃ k S,
      k ≤ 1 + ∑ j in Finset.range ini.get_initial_state.vehicle_count,
        ((ini.get_initial_state.vehicle j).path.length - 1) ∧
      ∀ fuel, k < fuel → run c ini fuel s = some (0, S, k) := by
  have h0 : (initialize_run c ini s).1 = 0 := by
    rw [initialize_run_eq, init_loop_ok_iff]
    exact fun j hj => (hconn j (List.mem_range.1 hj)).1
  obtain ⟨j, S, hj, hrun⟩ := run_loop_terminates c ini hsq he hA hV hlen hg hconn _
    (initialize_run c ini s).2 0 (progress_inv_init c ini s (le_of_lt hV) h0)
    (step_budget_init c ini _)
  refine ⟨j, S, hj, fun fuel hfuel => ?_⟩
  rw [run, if_pos h0, hrun fuel hfuel, Nat.zero_add]

/-- C9, amended: over the reals (the constants carry the real square root), with the
tolerance of `fuzzy_eq` positive and smaller than `A_MAX`, `V_MAX` positive, every edge
length positive, every edge returned for a node pair `(u, v)` among the edges ending at
`v`, and every vehicle on a valid path whose consecutive nodes are joined by an edge, `run`
returns 0 after at most `1 + Σ (path length - 1)` calls of `do_step`. -/
theorem run_terminates (c : model_constants ℝ) (hsqrt : c.sqrt = Real.sqrt)
    (ini : graph_initial ℝ) (s : gno_modeling_simple_acceleration ℝ)
    (he : 0 < c.eps) (hA : c.eps < c.A_MAX) (hV : 0 < c.V_MAX)
    (hlen : ∀ e, 0 < ini.get_graph.length e) (hg : edges_end_at_target ini.get_graph)
    (hconn : connected_paths ini) :
    ∃ k S,
      k ≤ 1 + ∑ j in Finset.range ini.get_initial_state.vehicle_count,
        ((ini.get_initial_state.vehicle j).path.length - 1) ∧
      ∀ fuel, k < fuel → run c ini fuel s = some (0, S, k) :=
  terminates_on_connected_paths c ini s (real_sqrt_exact c hsqrt) he hA hV hlen hg hconn

/-! ## Concrete runs over the reals -/

theorem stall_init :
    initialize_run (⟨1 / 1000, 10, 1 / 100, Real.sqrt⟩ : model_constants ℝ) (one_hop_input ℝ)
      (fresh_engine ℝ) = (0, ⟨0, [⟨0, 0, 0⟩], [0], [1, 0], [0], [1 / 1000]⟩) := by
  rfl

theorem stall_is_finished :
    is_finished (⟨1 / 1000, 10, 1 / 100, Real.sqrt⟩ : model_constants ℝ) (one_hop_input ℝ)
      ⟨0, [⟨0, 0, 0⟩], [0], [1, 0], [0], [1 / 1000]⟩ =
      (false, ⟨0, [⟨0, 0, 0⟩], [0], [1, 0], [0], [1 / 1000]⟩) := by
  simp [is_finished, is_finished_loop, is_finish, fuzzy_eq, one_hop_input,
    graph_initial_state_base.vehicle_count, List.range, List.range.loop,
    vehicle_discrete_state.zero]
  norm_num

theorem stall_do_step :
    do_step (⟨1 / 1000, 10, 1 / 100, Real.sqrt⟩ : model_constants ℝ) (one_hop_input ℝ)
      ⟨0, [⟨0, 0, 0⟩], [0], [1, 0], [0], [1 / 1000]⟩ =
      (0, ⟨0, [⟨0, 0, 0⟩], [0], [1, 0], [0], [1 / 1000]⟩) := by
  norm_num [do_step, min_critical_time, min_loop, critical_time, fuzzy_eq, recount_loop,
    advance_loop, advanced_part, velocity_loop, incr, decr, occupancy, find_critical_time,
    one_hop_input, chain_graph, graph_initial_state_base.vehicle_count, List.range,
    List.range.loop, vehicle_discrete_state.zero, abs_lt, List.replicate]


theorem stall_loop :
    ∀ fuel steps : Nat,
      run_loop (⟨1 / 1000, 10, 1 / 100, Real.sqrt⟩ : model_constants ℝ) (one_hop_input ℝ) fuel
        steps ⟨0, [⟨0, 0, 0⟩], [0], [1, 0], [0], [1 / 1000]⟩ = none
  | 0, _ => rfl
  | fuel + 1, steps => by
    rw [run_loop, stall_is_finished, stall_do_step]
    simp only [Bool.false_eq_true, if_false]
    rw [if_pos (by decide)]
    exact stall_loop fuel (steps + 1)

theorem chain_graph_ends_at_target (β : Type) [LinearOrderedField β] :
    edges_end_at_target (chain_graph β) := by
  intro u v e he
  simp only [chain_graph] at he ⊢
  split_ifs at he with h1 h2
  · obtain ⟨-, rfl⟩ := h1
    simpa using he
  · obtain ⟨-, rfl⟩ := h2
    simpa using he
  · simp at he

theorem one_hop_connected (β : Type) [LinearOrderedField β] :
    connected_paths (one_hop_input β) := by
  intro j hj
  have hj0 : j = 0 := Nat.lt_one_iff.1 hj
  subst hj0
  refine ⟨⟨?_, ?_, ?_, ?_⟩, ?_⟩
  · simp [one_hop_input, graph_initial_state_base.vehicle]
  · simp [one_hop_input, graph_initial_state_base.vehicle]
  · simp [one_hop_input, graph_initial_state_base.vehicle]
  · simp [one_hop_input, graph_initial_state_base.vehicle, chain_graph]
  · intro k hk
    have hk0 : k = 0 := by
      have : k + 1 < 2 := hk
      omega
    subst hk0
    simp [one_hop_input, graph_initial_state_base.vehicle, chain_graph]

/-- C9, counterexample: with `A_MAX = 1/1000` below the tolerance `1/100` of `fuzzy_eq`
(and `V_MAX = 10`), one vehicle driving the single edge `0 → 1` of length 1 never
finishes, although every hypothesis of the claim holds: the acceleration counts as zero,
so `do_step` takes the time to the edge end to be the remaining distance divided by the
velocity 0 (the quotient is 0 in the field), the vehicle never moves and `run` returns
for no amount of fuel. -/
theorem run_stalls_below_tolerance :
    (0 : ℝ) < 1 / 1000 ∧ (0 : ℝ) < 10 ∧
    (∀ e, 0 < (one_hop_input ℝ).get_graph.length e) ∧
    edges_end_at_target (one_hop_input ℝ).get_graph ∧
    connected_paths (one_hop_input ℝ) ∧
    ∀ fuel, run (⟨1 / 1000, 10, 1 / 100, Real.sqrt⟩ : model_constants ℝ) (one_hop_input ℝ)
      fuel (fresh_engine ℝ) = none := by
  refine ⟨by norm_num, by norm_num, fun e => ?_, chain_graph_ends_at_target ℝ,
    one_hop_connected ℝ, fun fuel => ?_⟩
  · show (0 : ℝ) < 1
    norm_num
  · rw [run, stall_init]
    exact stall_loop fuel 0

theorem two_vehicle_connected (β : Type) [LinearOrderedField β] :
    connected_paths (two_vehicle_input β) := by
  intro j hj
  have hj2 : j < 2 := hj
  interval_cases j
  · refine ⟨⟨?_, ?_, ?_, ?_⟩, ?_⟩
    · simp [two_vehicle_input, graph_initial_state_base.vehicle]
    · simp [two_vehicle_input, graph_initial_state_base.vehicle]
    · simp [two_vehicle_input, graph_initial_state_base.vehicle]
    · simp [two_vehicle_input, graph_initial_state_base.vehicle, chain_graph]
    · intro k hk
      have hk2 : k + 1 < 2 := hk
      have hk0 : k = 0 := by omega
      subst hk0
      simp [two_vehicle_input, graph_initial_state_base.vehicle, chain_graph]
  · refine ⟨⟨?_, ?_, ?_, ?_⟩, ?_⟩
    · simp [two_vehicle_input, graph_initial_state_base.vehicle]
    · simp [two_vehicle_input, graph_initial_state_base.vehicle]
    · simp [two_vehicle_input, graph_initial_state_base.vehicle]
    · simp [two_vehicle_input, graph_initial_state_base.vehicle, chain_graph]
    · intro k hk
      have hk3 : k + 1 < 3 := hk
      have hk2 : k < 2 := by omega
      interval_cases k
      · simp [two_vehicle_input, graph_initial_state_base.vehicle, chain_graph]
      · simp [two_vehicle_input, graph_initial_state_base.vehicle, chain_graph]

theorem chain_graph_length_pos (β : Type) [LinearOrderedField β] (e : uid) :
    0 < (chain_graph β).length e := by
  show (0 : β) < 1
  exact zero_lt_one

theorem two_vehicle_start :
    state_after (⟨2, 2, 1 / 1000, Real.sqrt⟩ : model_constants ℝ) (two_vehicle_input ℝ)
      (fresh_engine ℝ) 0 =
    some ⟨0, [⟨0, 0, 0⟩, ⟨0, 0, 0⟩], [0, 0], [2, 0], [0, 0], [2, 2]⟩ :=
  rfl

theorem two_vehicle_start_unfinished :
    (is_finished (⟨2, 2, 1 / 1000, Real.sqrt⟩ : model_constants ℝ) (two_vehicle_input ℝ)
      ⟨0, [⟨0, 0, 0⟩, ⟨0, 0, 0⟩], [0, 0], [2, 0], [0, 0], [2, 2]⟩).1 = false := by
  norm_num [is_finished, is_finished_loop, is_finish, fuzzy_eq, two_vehicle_input,
    graph_initial_state_base.vehicle_count, List.range, List.range.loop,
    vehicle_discrete_state.zero, abs_lt]

/-- C7, instance: in the run of the two-vehicle input over the reals (acceleration 2, speed
cap 2, tolerance 1/1000) the bounds hold for vehicle 1 after the first `do_step`. -/
theorem velocity_and_part_bounds_witness :
    0 ≤ (do_step (⟨2, 2, 1 / 1000, Real.sqrt⟩ : model_constants ℝ) (two_vehicle_input ℝ)
      (is_finished ⟨2, 2, 1 / 1000, Real.sqrt⟩ (two_vehicle_input ℝ)
        ⟨0, [⟨0, 0, 0⟩, ⟨0, 0, 0⟩], [0, 0], [2, 0], [0, 0],
          [2, 2]⟩).2).2.m_velocities.getD 1 0 ∧
    (do_step (⟨2, 2, 1 / 1000, Real.sqrt⟩ : model_constants ℝ) (two_vehicle_input ℝ)
      (is_finished ⟨2, 2, 1 / 1000, Real.sqrt⟩ (two_vehicle_input ℝ)
        ⟨0, [⟨0, 0, 0⟩, ⟨0, 0, 0⟩], [0, 0], [2, 0], [0, 0],
          [2, 2]⟩).2).2.m_velocities.getD 1 0 ≤ 2 ∧
    0 ≤ ((do_step (⟨2, 2, 1 / 1000, Real.sqrt⟩ : model_constants ℝ) (two_vehicle_input ℝ)
      (is_finished ⟨2, 2, 1 / 1000, Real.sqrt⟩ (two_vehicle_input ℝ)
        ⟨0, [⟨0, 0, 0⟩, ⟨0, 0, 0⟩], [0, 0], [2, 0], [0, 0],
          [2, 2]⟩).2).2.m_states.getD 1 vehicle_discrete_state.zero).part ∧
    ((do_step (⟨2, 2, 1 / 1000, Real.sqrt⟩ : model_constants ℝ) (two_vehicle_input ℝ)
      (is_finished ⟨2, 2, 1 / 1000, Real.sqrt⟩ (two_vehicle_input ℝ)
        ⟨0, [⟨0, 0, 0⟩, ⟨0, 0, 0⟩], [0, 0], [2, 0], [0, 0],
          [2, 2]⟩).2).2.m_states.getD 1 vehicle_discrete_state.zero).part ≤ 1 :=
  (velocity_and_part_bounds ⟨2, 2, 1 / 1000, Real.sqrt⟩ rfl (two_vehicle_input ℝ)
    (fresh_engine ℝ) (by norm_num) (by norm_num) (by norm_num) (by norm_num)
    (chain_graph_length_pos ℝ) 0 _ two_vehicle_start).2 two_vehicle_start_unfinished 1
    (by decide)

/-- C9, instance of the amended statement: the run of the two-vehicle input over the reals
(acceleration 2, speed cap 2, tolerance 1/1000) returns 0 within the step bound. -/
theorem run_terminates_witness :
    ∃ k S,
      k ≤ 1 + ∑ j in Finset.range (two_vehicle_input ℝ).get_initial_state.vehicle_count,
        (((two_vehicle_input ℝ).get_initial_state.vehicle j).path.length - 1) ∧
      ∀ fuel, k < fuel →
        run (⟨2, 2, 1 / 1000, Real.sqrt⟩ : model_constants ℝ) (two_vehicle_input ℝ) fuel
          (fresh_engine ℝ) = some (0, S, k) :=
  run_terminates ⟨2, 2, 1 / 1000, Real.sqrt⟩ rfl (two_vehicle_input ℝ) (fresh_engine ℝ)
    (by norm_num) (by norm_num) (by norm_num) (chain_graph_length_pos ℝ)
    (chain_graph_ends_at_target ℝ) (two_vehicle_connected ℝ)

/-! ## Velocities and accelerations along the run -/

theorem initialize_run_kinematics (c : model_constants α) (ini : graph_initial α)
    (s : gno_modeling_simple_acceleration α) :
    ∀ v, v < ini.get_initial_state.vehicle_count →
      (initialize_run c ini s).2.m_velocities.getD v 0 = 0 ∧
      (initialize_run c ini s).2.m_accelerations.getD v 0 = c.A_MAX := by
  intro v hv
  rw [initialize_run_eq]
  obtain ⟨-, -, hvel, hacc, -, -⟩ :=
    init_loop_reset_shape c ini s (List.range ini.get_initial_state.vehicle_count)
  rw [hvel, hacc]
  exact ⟨getD_replicate_lt _ _ _ _ hv, getD_replicate_lt _ _ _ _ hv⟩

theorem is_finished_kinematics (c : model_constants α) (ini : graph_initial α)
    (s : gno_modeling_simple_acceleration α) (hs : sized ini s) :
    (is_finished c ini s).2.m_velocities = s.m_velocities ∧
    (is_finished c ini s).2.m_accelerations = s.m_accelerations ∧
    (is_finished c ini s).2.m_states = s.m_states := by
  obtain ⟨-, h2, -, h4, h5, -⟩ := is_finished_spec c ini s hs.2.1
  exact ⟨h4, h5, h2⟩

/-- The velocity update of `do_step` for one vehicle, whatever the status of the step:
either nothing changes (early exit) or lines 201-206 are applied. -/
theorem do_step_velocity_cases (c : model_constants α) (ini : graph_initial α)
    (s : gno_modeling_simple_acceleration α) (hs : sized ini s) :
    ((do_step c ini s).2.m_velocities = s.m_velocities ∧
      (do_step c ini s).2.m_accelerations = s.m_accelerations) ∨
    ∀ v, v < ini.get_initial_state.vehicle_count →
      (do_step c ini s).2.m_velocities.getD v 0 =
        s.m_velocities.getD v 0 + min_critical_time c ini s * s.m_accelerations.getD v 0 ∧
      (do_step c ini s).2.m_accelerations.getD v 0 =
        if fuzzy_eq c (s.m_velocities.getD v 0 +
            min_critical_time c ini s * s.m_accelerations.getD v 0) c.V_MAX = true then 0
        else s.m_accelerations.getD v 0 := by
  obtain ⟨-, -, -, -, hcode, -⟩ := do_step_frame c ini s hs
  rcases hcode with h0 | h1
  · exact Or.inr ((do_step_velocities c ini s hs).1 h0)
  · exact Or.inl ((do_step_velocities c ini s hs).2 h1)

theorem shared_kinematics_do_step (c : model_constants α) (ini : graph_initial α)
    (s : gno_modeling_simple_acceleration α) (hs : sized ini s)
    (h : shared_kinematics c ini s) : shared_kinematics c ini (do_step c ini s).2 := by
  obtain ⟨V, a, hsh, ha⟩ := h
  rcases do_step_velocity_cases c ini s hs with ⟨hv, hacc⟩ | hupd
  · exact ⟨V, a, fun v hv' => by rw [hv, hacc]; exact hsh v hv', ha⟩
  · refine ⟨V + min_critical_time c ini s * a,
      if fuzzy_eq c (V + min_critical_time c ini s * a) c.V_MAX = true then 0 else a,
      fun v hv' => ?_, ?_⟩
    · obtain ⟨h1, h2⟩ := hupd v hv'
      rw [h1, h2, (hsh v hv').1, (hsh v hv').2]
      exact ⟨rfl, rfl⟩
    · split_ifs
      · exact Or.inr rfl
      · exact ha

theorem zero_acceleration_do_step (c : model_constants α) (ini : graph_initial α)
    (s : gno_modeling_simple_acceleration α) (hs : sized ini s) (v : uid)
    (hv : v < ini.get_initial_state.vehicle_count) (ha : s.m_accelerations.getD v 0 = 0) :
    (do_step c ini s).2.m_velocities.getD v 0 = s.m_velocities.getD v 0 ∧
    (do_step c ini s).2.m_accelerations.getD v 0 = 0 := by
  rcases do_step_velocity_cases c ini s hs with ⟨hv', hacc⟩ | hupd
  · rw [hv', hacc]
    exact ⟨rfl, ha⟩
  · obtain ⟨h1, h2⟩ := hupd v hv
    rw [h1, h2, ha, mul_zero, add_zero]
    refine ⟨rfl, ?_⟩
    split_ifs <;> rfl

theorem state_after_sized (c : model_constants α) (ini : graph_initial α)
    (s : gno_modeling_simple_acceleration α) (n : Nat) (s1 : gno_modeling_simple_acceleration α)
    (h : state_after c ini s n = some s1) : sized ini s1 :=
  (state_after_induction c ini s (fun _ => True) (fun _ => trivial)
    (fun _ _ _ _ _ => trivial) n s1 h).1

theorem shared_kinematics_state_after (c : model_constants α) (ini : graph_initial α)
    (s : gno_modeling_simple_acceleration α) (n : Nat) (s1 : gno_modeling_simple_acceleration α)
    (h : state_after c ini s n = some s1) : shared_kinematics c ini s1 := by
  refine (state_after_induction c ini s (shared_kinematics c ini) (fun _ => ?_)
    (fun s1 hs1 hP _ _ => ?_) n s1 h).2
  · exact ⟨0, c.A_MAX, initialize_run_kinematics c ini s, Or.inl rfl⟩
  · refine shared_kinematics_do_step c ini _ (is_finished_sized c ini s1 hs1) ?_
    obtain ⟨V, a, hsh, ha⟩ := hP
    obtain ⟨hv, hacc, -⟩ := is_finished_kinematics c ini s1 hs1
    exact ⟨V, a, fun v hv' => by rw [hv, hacc]; exact hsh v hv', ha⟩

theorem zero_acceleration_state_after (c : model_constants α) (ini : graph_initial α)
    (s : gno_modeling_simple_acceleration α) (n : Nat) (s1 : gno_modeling_simple_acceleration α)
    (h : state_after c ini s n = some s1) (v : uid)
    (hv : v < ini.get_initial_state.vehicle_count) (ha : s1.m_accelerations.getD v 0 = 0) :
    ∀ d s2, state_after c ini s (n + d) = some s2 →
      s2.m_velocities.getD v 0 = s1.m_velocities.getD v 0 ∧
      s2.m_accelerations.getD v 0 = 0 := by
  intro d
  induction d with
  | zero =>
    intro s2 h2
    rw [Nat.add_zero, h] at h2
    cases Option.some.inj h2
    exact ⟨rfl, ha⟩
  | succ d ih =>
    intro s2 h2
    obtain ⟨s3, h3, -, rfl⟩ := state_after_succ c ini s (n + d) s2 h2
    obtain ⟨hv3, ha3⟩ := ih s3 h3
    have hs3 := state_after_sized c ini s (n + d) s3 h3
    obtain ⟨hvel, hacc, -⟩ := is_finished_kinematics c ini s3 hs3
    have := zero_acceleration_do_step c ini _ (is_finished_sized c ini s3 hs3) v hv
      (by rw [hacc]; exact ha3)
    rw [hvel] at this
    exact ⟨this.1.trans hv3, this.2⟩

theorem critical_time_zero_acc (c : model_constants α) (ini : graph_initial α)
    (s : gno_modeling_simple_acceleration α) (v : uid)
    (hz : fuzzy_eq c (s.m_accelerations.getD v 0) 0 = true) :
    critical_time c ini s v = crit_time_zero_acc ini s v := by
  simp only [critical_time, crit_time_zero_acc]
  rw [if_pos hz]

theorem real_sqrt_four : Real.sqrt 4 = 2 := by
  rw [show (4 : ℝ) = 2 ^ 2 by norm_num]
  exact Real.sqrt_sq (by norm_num)

theorem two_vehicle_first_step :
    do_step (⟨2, 2, 1 / 1000, Real.sqrt⟩ : model_constants ℝ) (two_vehicle_input ℝ)
      ⟨0, [⟨0, 0, 0⟩, ⟨0, 0, 0⟩], [0, 0], [2, 0], [0, 0], [2, 2]⟩ =
      (0, ⟨1, [⟨0, 1, 0⟩, ⟨1, 0, 1⟩], [0, 0], [1, 1], [2, 2], [0, 0]⟩) := by
  norm_num [do_step, min_critical_time, min_loop, critical_time, fuzzy_eq, recount_loop,
    advance_loop, advanced_part, velocity_loop, incr, decr, occupancy, find_critical_time,
    two_vehicle_input, chain_graph, graph_initial_state_base.vehicle_count,
    graph_initial_state_base.vehicle, List.range, choose_edge,
    List.range.loop, vehicle_discrete_state.zero, abs_lt, List.replicate, real_sqrt_four,
    Option.some_ne_none]

theorem two_vehicle_start_is_finished :
    is_finished (⟨2, 2, 1 / 1000, Real.sqrt⟩ : model_constants ℝ) (two_vehicle_input ℝ)
      ⟨0, [⟨0, 0, 0⟩, ⟨0, 0, 0⟩], [0, 0], [2, 0], [0, 0], [2, 2]⟩ =
      (false, ⟨0, [⟨0, 0, 0⟩, ⟨0, 0, 0⟩], [0, 0], [2, 0], [0, 0], [2, 2]⟩) := by
  norm_num [is_finished, is_finished_loop, is_finish, fuzzy_eq, two_vehicle_input,
    graph_initial_state_base.vehicle_count, List.range, List.range.loop,
    vehicle_discrete_state.zero, abs_lt]

theorem two_vehicle_after_one :
    state_after (⟨2, 2, 1 / 1000, Real.sqrt⟩ : model_constants ℝ) (two_vehicle_input ℝ)
      (fresh_engine ℝ) 1 =
    some ⟨1, [⟨0, 1, 0⟩, ⟨1, 0, 1⟩], [0, 0], [1, 1], [2, 2], [0, 0]⟩ := by
  rw [state_after, two_vehicle_start]
  simp only []
  rw [two_vehicle_start_is_finished, two_vehicle_first_step]
  simp only [Bool.false_eq_true, if_false]
  rw [if_pos (by decide)]

theorem path_following_init (c : model_constants α) (ini : graph_initial α)
    (s : gno_modeling_simple_acceleration α) (h0 : (initialize_run c ini s).1 = 0) :
    path_following ini (initialize_run c ini s).2 := by
  rw [initialize_run_eq] at h0 ⊢
  have hpass := (init_loop_ok_iff ini _ _).1 h0
  intro v hv
  obtain ⟨e, hmem, he⟩ := init_loop_entry ini _ (reset c ini s) (List.nodup_range _) hpass v
    (List.mem_range.2 hv) (by
      show v < (resize _ _ _).length
      rw [length_resize]; exact hv)
  rw [he]
  exact ⟨(hpass v (List.mem_range.2 hv)).1, hmem⟩

/-- A call of `do_step` keeps every vehicle on its path, whatever status it returns. -/
theorem path_following_do_step_any (c : model_constants α) (ini : graph_initial α)
    (s : gno_modeling_simple_acceleration α) (hs : sized ini s) (hp : path_following ini s) :
    path_following ini (do_step c ini s).2 := by
  intro v hv
  by_cases hf : s.m_finished.getD v 0 = 1
  · rw [(do_step_frame c ini s hs).2.2.2.2.2 v (Or.inl hf)]
    exact hp v hv
  · obtain ⟨h1, h2⟩ := hp v hv
    rcases do_step_entries c ini s hs v hv hf with ⟨h, -⟩ | h | ⟨-, h, -⟩
    · rw [h]; exact ⟨h1, h2⟩
    · rcases h with ⟨h, -⟩ | ⟨-, hnl, e, he, h⟩
      · rw [h]; exact ⟨h1, h2⟩
      · rw [h]
        unfold at_last_pair at hnl
        exact ⟨by show _ + 1 + 2 ≤ _; omega, he⟩
    · rw [h]; exact ⟨h1, h2⟩

theorem path_following_is_finished (c : model_constants α) (ini : graph_initial α)
    (s : gno_modeling_simple_acceleration α) (hs : sized ini s) (hp : path_following ini s) :
    path_following ini (is_finished c ini s).2 := by
  intro v hv
  rw [(is_finished_kinematics c ini s hs).2.2]
  exact hp v hv

theorem path_following_state_after (c : model_constants α) (ini : graph_initial α)
    (s : gno_modeling_simple_acceleration α) (n : Nat) (s1 : gno_modeling_simple_acceleration α)
    (h : state_after c ini s n = some s1) : path_following ini s1 :=
  (state_after_induction c ini s (path_following ini) (path_following_init c ini s)
    (fun s1 hs1 hP _ _ => path_following_do_step_any c ini _ (is_finished_sized c ini s1 hs1)
      (path_following_is_finished c ini s1 hs1 hP)) n s1 h).2

/-- C18: in every state reached by `run` after a successful initialization (the loop
head after any number of steps and the state a further `do_step` returns, successful or
not) every vehicle satisfies `node_num + 1 < path.size ()` and its current edge is one of
`graph.edges (path[node_num], path[node_num + 1])`. Consequently, for the entries
`do_step` works on, the path has at least two nodes (so `path.size () - 2` does not
wrap around) and, whenever the test of line 173 fails so that lines 176-177 are reached,
the indices `node_num + 1` and `node_num + 2` are below `path.size ()`. -/
theorem path_following_invariant (c : model_constants α) (ini : graph_initial α)
    (s : gno_modeling_simple_acceleration α) (n : Nat)
    (s1 : gno_modeling_simple_acceleration α) (h : state_after c ini s n = some s1) :
    (∀ v, v < ini.get_initial_state.vehicle_count →
      (s1.m_states.getD v vehicle_discrete_state.zero).node_num + 1 <
        (ini.get_initial_state.vehicle v).path.length ∧
      (s1.m_states.getD v vehicle_discrete_state.zero).edge_uid ∈
        ini.get_graph.edges
          ((ini.get_initial_state.vehicle v).path.getD
            (s1.m_states.getD v vehicle_discrete_state.zero).node_num 0)
          ((ini.get_initial_state.vehicle v).path.getD
            ((s1.m_states.getD v vehicle_discrete_state.zero).node_num + 1) 0)) ∧
    (∀ v, v < ini.get_initial_state.vehicle_count →
      ((do_step c ini (is_finished c ini s1).2).2.m_states.getD v
          vehicle_discrete_state.zero).node_num + 1 <
        (ini.get_initial_state.vehicle v).path.length ∧
      ((do_step c ini (is_finished c ini s1).2).2.m_states.getD v
          vehicle_discrete_state.zero).edge_uid ∈
        ini.get_graph.edges
          ((ini.get_initial_state.vehicle v).path.getD
            ((do_step c ini (is_finished c ini s1).2).2.m_states.getD v
              vehicle_discrete_state.zero).node_num 0)
          ((ini.get_initial_state.vehicle v).path.getD
            (((do_step c ini (is_finished c ini s1).2).2.m_states.getD v
              vehicle_discrete_state.zero).node_num + 1) 0)) ∧
    (∀ v, v < ini.get_initial_state.vehicle_count →
      2 ≤ (ini.get_initial_state.vehicle v).path.length ∧
      (¬ at_last_pair ini v
          ((is_finished c ini s1).2.m_states.getD v vehicle_discrete_state.zero) →
        ((is_finished c ini s1).2.m_states.getD v vehicle_discrete_state.zero).node_num + 1 <
          (ini.get_initial_state.vehicle v).path.length ∧
        ((is_finished c ini s1).2.m_states.getD v vehicle_discrete_state.zero).node_num + 2 <
          (ini.get_initial_state.vehicle v).path.length)) := by
  have hs1 := state_after_sized c ini s n s1 h
  have hp := path_following_state_after c ini s n s1 h
  have hp2 := path_following_is_finished c ini s1 hs1 hp
  have hp3 := path_following_do_step_any c ini _ (is_finished_sized c ini s1 hs1) hp2
  refine ⟨fun v hv => ⟨?_, (hp v hv).2⟩, fun v hv => ⟨?_, (hp3 v hv).2⟩, fun v hv => ?_⟩
  · have := (hp v hv).1
    omega
  · have := (hp3 v hv).1
    omega
  · have := (hp2 v hv).1
    refine ⟨by omega, fun hnl => ?_⟩
    unfold at_last_pair at hnl
    omega

/-- C18, instance: after the first step of the two-vehicle run over the reals vehicle 1
is at path index 1 of its three-node path, on edge 1, which joins nodes 1 and 2. -/
theorem path_following_invariant_witness :
    (1 : Nat) + 1 < ((two_vehicle_input ℝ).get_initial_state.vehicle 1).path.length ∧
    (1 : uid) ∈ (two_vehicle_input ℝ).get_graph.edges
      (((two_vehicle_input ℝ).get_initial_state.vehicle 1).path.getD 1 0)
      (((two_vehicle_input ℝ).get_initial_state.vehicle 1).path.getD (1 + 1) 0) :=
  (path_following_invariant ⟨2, 2, 1 / 1000, Real.sqrt⟩ (two_vehicle_input ℝ)
    (fresh_engine ℝ) 1 _ two_vehicle_after_one).1 1 (by decide)

/-! ## Finished vehicles -/

theorem finished_is_finished (c : model_constants α) (ini : graph_initial α)
    (s : gno_modeling_simple_acceleration α) (hs : sized ini s) (v : uid)
    (hf : s.m_finished.getD v 0 = 1) :
    (is_finished c ini s).2.m_finished.getD v 0 = 1 ∧
    (is_finished c ini s).2.m_states.getD v vehicle_discrete_state.zero =
      s.m_states.getD v vehicle_discrete_state.zero := by
  obtain ⟨-, h2, -, -, -, -, h7, -⟩ := is_finished_spec c ini s hs.2.1
  exact ⟨(h7 v).2 (Or.inl hf), by rw [h2]⟩

theorem finished_do_step (c : model_constants α) (ini : graph_initial α)
    (s : gno_modeling_simple_acceleration α) (hs : sized ini s) (v : uid)
    (hf : s.m_finished.getD v 0 = 1) :
    (do_step c ini s).2.m_finished.getD v 0 = 1 ∧
    (do_step c ini s).2.m_states.getD v vehicle_discrete_state.zero =
      s.m_states.getD v vehicle_discrete_state.zero := by
  obtain ⟨-, h2, -, -, -, h6⟩ := do_step_frame c ini s hs
  exact ⟨by rw [h2]; exact hf, h6 v (Or.inl hf)⟩

theorem finished_state_after (c : model_constants α) (ini : graph_initial α)
    (s : gno_modeling_simple_acceleration α) (n : Nat) (s1 : gno_modeling_simple_acceleration α)
    (h : state_after c ini s n = some s1) (v : uid)
    (hf : (is_finished c ini s1).2.m_finished.getD v 0 = 1) :
    ∀ d s2, state_after c ini s (n + d) = some s2 →
      (is_finished c ini s2).2.m_finished.getD v 0 = 1 ∧
      (is_finished c ini s2).2.m_states.getD v vehicle_discrete_state.zero =
        s1.m_states.getD v vehicle_discrete_state.zero := by
  intro d
  induction d with
  | zero =>
    intro s2 h2
    rw [Nat.add_zero, h] at h2
    cases Option.some.inj h2
    exact ⟨hf, by rw [(is_finished_kinematics c ini s1
      (state_after_sized c ini s n s1 h)).2.2]⟩
  | succ d ih =>
    intro s2 h2
    obtain ⟨s3, h3, -, rfl⟩ := state_after_succ c ini s (n + d) s2 h2
    obtain ⟨hf3, he3⟩ := ih s3 h3
    have hs3 := is_finished_sized c ini s3 (state_after_sized c ini s (n + d) s3 h3)
    obtain ⟨hf4, he4⟩ := finished_do_step c ini _ hs3 v hf3
    obtain ⟨hf5, he5⟩ := finished_is_finished c ini _ (do_step_frame c ini _ hs3).1 v hf4
    exact ⟨hf5, by rw [he5, he4, he3]⟩

theorem two_vehicle_second_check :
    is_finished (⟨2, 2, 1 / 1000, Real.sqrt⟩ : model_constants ℝ) (two_vehicle_input ℝ)
      ⟨1, [⟨0, 1, 0⟩, ⟨1, 0, 1⟩], [0, 0], [1, 1], [2, 2], [0, 0]⟩ =
      (false, ⟨1, [⟨0, 1, 0⟩, ⟨1, 0, 1⟩], [1, 0], [1, 1], [2, 2], [0, 0]⟩) := by
  norm_num [is_finished, is_finished_loop, is_finish, fuzzy_eq, two_vehicle_input,
    chain_graph, graph_initial_state_base.vehicle, 
    graph_initial_state_base.vehicle_count, List.range, List.range.loop,
    vehicle_discrete_state.zero, abs_lt]

/-- C14: within a run, once `is_finished` has set the finished flag of a vehicle (at the
loop head reached after `n` steps), the following `do_step` leaves the flag set and the
discrete state of the vehicle (edge, part, path index) unchanged, and so does every
later `is_finished` and every later `do_step` of the run, successful or not. -/
theorem finished_is_sticky (c : model_constants α) (ini : graph_initial α)
    (s : gno_modeling_simple_acceleration α) (n : Nat)
    (s1 : gno_modeling_simple_acceleration α) (h : state_after c ini s n = some s1)
    (v : uid) (hf : (is_finished c ini s1).2.m_finished.getD v 0 = 1) :
    ∀ d s2, state_after c ini s (n + d) = some s2 →
      ((is_finished c ini s2).2.m_finished.getD v 0 = 1 ∧
        (is_finished c ini s2).2.m_states.getD v vehicle_discrete_state.zero =
          s1.m_states.getD v vehicle_discrete_state.zero) ∧
      ((do_step c ini (is_finished c ini s2).2).2.m_finished.getD v 0 = 1 ∧
        (do_step c ini (is_finished c ini s2).2).2.m_states.getD v
            vehicle_discrete_state.zero =
          s1.m_states.getD v vehicle_discrete_state.zero) := by
  intro d s2 h2
  obtain ⟨hf2, he2⟩ := finished_state_after c ini s n s1 h v hf d s2 h2
  have hs2 := is_finished_sized c ini s2 (state_after_sized c ini s (n + d) s2 h2)
  obtain ⟨hf3, he3⟩ := finished_do_step c ini _ hs2 v hf2
  exact ⟨⟨hf2, he2⟩, hf3, by rw [he3, he2]⟩

/-- C14, instance: in the two-vehicle run over the reals `is_finished` flags vehicle 0
after the first step; the second `do_step` leaves the flag set and the vehicle at the
end of edge 0. -/
theorem finished_is_sticky_witness :
    (do_step (⟨2, 2, 1 / 1000, Real.sqrt⟩ : model_constants ℝ) (two_vehicle_input ℝ)
      (is_finished ⟨2, 2, 1 / 1000, Real.sqrt⟩ (two_vehicle_input ℝ)
        ⟨1, [⟨0, 1, 0⟩, ⟨1, 0, 1⟩], [0, 0], [1, 1], [2, 2], [0, 0]⟩).2).2.m_finished.getD 0 0
      = 1 ∧
    (do_step (⟨2, 2, 1 / 1000, Real.sqrt⟩ : model_constants ℝ) (two_vehicle_input ℝ)
      (is_finished ⟨2, 2, 1 / 1000, Real.sqrt⟩ (two_vehicle_input ℝ)
        ⟨1, [⟨0, 1, 0⟩, ⟨1, 0, 1⟩], [0, 0], [1, 1], [2, 2], [0, 0]⟩).2).2.m_states.getD 0
        vehicle_discrete_state.zero = ⟨0, 1, 0⟩ :=
  (finished_is_sticky ⟨2, 2, 1 / 1000, Real.sqrt⟩ (two_vehicle_input ℝ) (fresh_engine ℝ) 1 _
    two_vehicle_after_one 0 (by rw [two_vehicle_second_check]; rfl) 0 _
    two_vehicle_after_one).2

/-! ## The time to the end of the edge -/

theorem critical_time_accelerating (c : model_constants α) (ini : graph_initial α)
    (s : gno_modeling_simple_acceleration α) (v : uid)
    (hz : ¬ fuzzy_eq c (s.m_accelerations.getD v 0) 0 = true) :
    critical_time c ini s v =
      if crit_time_end_acc c s v < crit_time_end_edge c ini s v then crit_time_end_acc c s v
      else crit_time_end_edge c ini s v := by
  simp only [critical_time, crit_time_end_acc, crit_time_end_edge]
  rw [if_neg hz]

theorem countP_update (f g : Nat → Bool) (j : Nat) (h : ∀ v, v ≠ j → g v = f v) :
    ∀ ids : List Nat, ids.Nodup →
      (j ∉ ids → ids.countP g = ids.countP f) ∧
      (j ∈ ids → (ids.countP g : Int) =
        ids.countP f - (if f j = true then 1 else 0) + (if g j = true then 1 else 0))
  | [], _ => ⟨fun _ => rfl, fun hj => absurd hj (List.not_mem_nil _)⟩
  | x :: rest, hnd => by
    obtain ⟨hx, hnd'⟩ := List.nodup_cons.1 hnd
    obtain ⟨ih1, ih2⟩ := countP_update f g j h rest hnd'
    refine ⟨fun hj => ?_, fun hj => ?_⟩
    · have hxj : x ≠ j := fun e => hj (e ▸ List.mem_cons_self _ _)
      have hjr : j ∉ rest := fun e => hj (List.mem_cons_of_mem _ e)
      rw [List.countP_cons, List.countP_cons, ih1 hjr, h x hxj]
    · rw [List.countP_cons, List.countP_cons]
      by_cases hxj : x = j
      · subst hxj
        rw [ih1 hx]
        push_cast
        ring
      · have hjr : j ∈ rest := by
          rcases List.mem_cons.1 hj with e | e
          · exact absurd e.symm hxj
          · exact e
        rw [h x hxj]
        push_cast
        rw [ih2 hjr]
        ring

theorem occupancy_incr_ite (occ : List Int) (e e' : uid) (h : e < occ.length) :
    occupancy (incr occ e) e' = occupancy occ e' + (if e = e' then 1 else 0) := by
  by_cases he : e = e'
  · subst he
    rw [if_pos rfl, occupancy_incr_self occ e h]
  · rw [if_neg he, occupancy_incr_other occ e e' he, add_zero]

theorem occupancy_decr_ite (occ : List Int) (e e' : uid) (h : e < occ.length) :
    occupancy (decr occ e) e' = occupancy occ e' - (if e = e' then 1 else 0) := by
  simp only [occupancy, decr]
  by_cases he : e = e'
  · subst he
    rw [if_pos rfl, getD_set_self _ _ _ _ h]
  · rw [if_neg he, getD_set_other _ _ _ _ _ he, sub_zero]

/-- The recount of lines 150-151 adds to each counter the number of visited vehicles on
that edge. -/
theorem recount_loop_count (m_states : List (vehicle_discrete_state α)) (e : uid) :
    ∀ (ids : List uid) (occ : List Int),
      (∀ v ∈ ids, (m_states.getD v vehicle_discrete_state.zero).edge_uid < occ.length) →
      occupancy (recount_loop m_states ids occ) e =
        occupancy occ e + (ids.countP
          (fun v => decide ((m_states.getD v vehicle_discrete_state.zero).edge_uid = e)) : Nat)
  | [], occ, _ => by simp [recount_loop]
  | j :: ids, occ, h => by
    rw [recount_loop, recount_loop_count m_states e ids _ (fun v hv => by
      rw [length_incr]; exact h v (List.mem_cons_of_mem _ hv)),
      occupancy_incr_ite _ _ _ (h j (List.mem_cons_self _ _)), List.countP_cons]
    push_cast
    simp only [decide_eq_true_eq]
    ring

/-- An induction rule for the moving loop of `do_step`: a property of the engine state
that survives the update of one `part` and the transition of one vehicle to a chosen
next edge holds after the loop. -/
theorem advance_loop_induction (c : model_constants α) (ini : graph_initial α) (dt : α)
    (P : gno_modeling_simple_acceleration α → Prop)
    (hpart : ∀ (s : gno_modeling_simple_acceleration α) (j : uid) (p : α),
      j < s.m_states.length → P s →
      P { s with
        m_states := s.m_states.set j
          { s.m_states.getD j vehicle_discrete_state.zero with part := p } })
    (hmove : ∀ (s : gno_modeling_simple_acceleration α) (j u w : uid) (k : Nat),
      j < s.m_states.length → P s → ini.get_graph.edges u w ≠ [] →
      P { s with
        m_veh_on_edge := incr (decr s.m_veh_on_edge
            (s.m_states.getD j vehicle_discrete_state.zero).edge_uid)
          (choose_edge s.m_veh_on_edge (ini.get_graph.edges u w))
        m_states := s.m_states.set j
          ⟨choose_edge s.m_veh_on_edge (ini.get_graph.edges u w), 0, k⟩ }) :
    ∀ (ids : List uid) (s : gno_modeling_simple_acceleration α),
      (∀ v ∈ ids, v < s.m_states.length) → P s → P (advance_loop c ini dt ids s).2
  | [], s, _, hP => by simpa [advance_loop] using hP
  | j :: ids, s, hids, hP => by
    have hjl : j < s.m_states.length := hids j (List.mem_cons_self _ _)
    have hids' : ∀ v ∈ ids, v < s.m_states.length :=
      fun v hv => hids v (List.mem_cons_of_mem _ hv)
    have h1P := hpart s j (advanced_part ini dt s j) hjl hP
    rw [advance_loop]
    simp only []
    split_ifs with h1 h2 h3 h4
    · exact advance_loop_induction c ini dt P hpart hmove ids s hids' hP
    · exact advance_loop_induction c ini dt P hpart hmove ids _ (by simpa using hids') h1P
    · exact h1P
    · have hne : ini.get_graph.edges
          ((ini.get_initial_state.vehicle j).path.getD
            ((s.m_states.getD j vehicle_discrete_state.zero).node_num + 1) 0)
          ((ini.get_initial_state.vehicle j).path.getD
            ((s.m_states.getD j vehicle_discrete_state.zero).node_num + 2) 0) ≠ [] :=
        fun h => h4 (List.length_eq_zero.2 h)
      have h2P := hmove _ j _ _ ((s.m_states.getD j vehicle_discrete_state.zero).node_num + 1)
        (by simpa using hjl) h1P hne
      simp only [getD_set_self _ _ _ _ hjl] at h2P
      exact advance_loop_induction c ini dt P hpart hmove ids _ (by simpa using hids') h2P
    · exact advance_loop_induction c ini dt P hpart hmove ids _ (by simpa using hids') h1P

theorem occupancy_consistent_congr (ini : graph_initial α)
    (s s1 : gno_modeling_simple_acceleration α) (h1 : s1.m_states = s.m_states)
    (h2 : s1.m_veh_on_edge = s.m_veh_on_edge) (h : occupancy_consistent ini s) :
    occupancy_consistent ini s1 := by
  unfold occupancy_consistent vehicles_on at h ⊢
  rw [h1, h2]
  exact h

theorem occupancy_consistent_part (ini : graph_initial α)
    (s : gno_modeling_simple_acceleration α) (j : uid) (p : α) (hj : j < s.m_states.length)
    (h : occupancy_consistent ini s) :
    occupancy_consistent ini { s with
      m_states := s.m_states.set j
        { s.m_states.getD j vehicle_discrete_state.zero with part := p } } := by
  have hedge : ∀ v, ((s.m_states.set j
      { s.m_states.getD j vehicle_discrete_state.zero with part := p }).getD v
        vehicle_discrete_state.zero).edge_uid =
      (s.m_states.getD v vehicle_discrete_state.zero).edge_uid := by
    intro v
    by_cases hjv : j = v
    · subst hjv
      rw [getD_set_self _ _ _ _ hj]
    · rw [getD_set_other _ _ _ _ _ hjv]
  unfold occupancy_consistent vehicles_on at h ⊢
  simp only [hedge]
  exact h

theorem occupancy_consistent_move (ini : graph_initial α)
    (hg : edges_in_range ini.get_graph) (s : gno_modeling_simple_acceleration α)
    (j u w : uid) (k : Nat) (hj : j < s.m_states.length)
    (hn : s.m_states.length = ini.get_initial_state.vehicle_count)
    (h : occupancy_consistent ini s) (hne : ini.get_graph.edges u w ≠ []) :
    occupancy_consistent ini { s with
      m_veh_on_edge := incr (decr s.m_veh_on_edge
          (s.m_states.getD j vehicle_discrete_state.zero).edge_uid)
        (choose_edge s.m_veh_on_edge (ini.get_graph.edges u w))
      m_states := s.m_states.set j
        ⟨choose_edge s.m_veh_on_edge (ini.get_graph.edges u w), 0, k⟩ } := by
  obtain ⟨hL, hin, hcount⟩ := h
  have hjn : j < ini.get_initial_state.vehicle_count := hn ▸ hj
  have hnew : choose_edge s.m_veh_on_edge (ini.get_graph.edges u w) <
      ini.get_graph.edge_count := hg _ _ _ (choose_edge_mem _ _ hne)
  generalize choose_edge s.m_veh_on_edge (ini.get_graph.edges u w) = new at hnew ⊢
  have hold := hin j hjn
  refine ⟨?_, fun v hv => ?_, fun e => ?_⟩
  · show (incr _ _).length = _
    rw [length_incr, length_decr, hL]
  · show ((s.m_states.set j _).getD v vehicle_discrete_state.zero).edge_uid < _
    by_cases hjv : j = v
    · subst hjv
      rw [getD_set_self _ _ _ _ hj]
      exact hnew
    · rw [getD_set_other _ _ _ _ _ hjv]
      exact hin v hv
  · show occupancy (incr _ _) e = _
    rw [occupancy_incr_ite _ _ _ (by rw [length_decr, hL]; exact hnew),
      occupancy_decr_ite _ _ _ (by rw [hL]; exact hold), hcount e]
    have hupd := (countP_update
      (fun v => decide ((s.m_states.getD v vehicle_discrete_state.zero).edge_uid = e))
      (fun v => decide (((s.m_states.set j (⟨new, 0, k⟩ : vehicle_discrete_state α)).getD v
        vehicle_discrete_state.zero).edge_uid = e)) j
      (fun v hv => by
        show decide _ = decide _
        rw [getD_set_other _ _ _ _ _ (Ne.symm hv)])
      (List.range ini.get_initial_state.vehicle_count) (List.nodup_range _)).2
      (List.mem_range.2 hjn)
    simp only [getD_set_self _ _ _ _ hj, decide_eq_true_eq] at hupd
    unfold vehicles_on
    rw [hupd]

/-- The moving loop of `do_step` keeps every counter equal to the number of vehicles on
its edge. -/
theorem advance_loop_consistent (c : model_constants α) (ini : graph_initial α) (dt : α)
    (hg : edges_in_range ini.get_graph) (ids : List uid)
    (s : gno_modeling_simple_acceleration α) (hids : ∀ v ∈ ids, v < s.m_states.length)
    (hn : s.m_states.length = ini.get_initial_state.vehicle_count)
    (h : occupancy_consistent ini s) :
    occupancy_consistent ini (advance_loop c ini dt ids s).2 :=
  (advance_loop_induction c ini dt
    (fun s => occupancy_consistent ini s ∧
      s.m_states.length = ini.get_initial_state.vehicle_count)
    (fun s j p hj hP => ⟨occupancy_consistent_part ini s j p hj hP.1, by
      show (s.m_states.set j _).length = _
      rw [List.length_set]; exact hP.2⟩)
    (fun s j u w k hj hP hne => ⟨occupancy_consistent_move ini hg s j u w k hj hP.2 hP.1 hne, by
      show (s.m_states.set j _).length = _
      rw [List.length_set]; exact hP.2⟩)
    ids s hids ⟨h, hn⟩).1

theorem before_advance_consistent (c : model_constants α) (ini : graph_initial α)
    (s : gno_modeling_simple_acceleration α)
    (hL : s.m_veh_on_edge.length = ini.get_graph.edge_count)
    (hin : ∀ v, v < ini.get_initial_state.vehicle_count →
      (s.m_states.getD v vehicle_discrete_state.zero).edge_uid < ini.get_graph.edge_count) :
    occupancy_consistent ini (before_advance c ini s) := by
  refine ⟨?_, hin, fun e => ?_⟩
  · show (recount_loop _ _ _).length = _
    rw [(recount_loop_spec _ _ _).1, List.length_replicate, hL]
  · show occupancy (recount_loop _ _ _) e = _
    rw [recount_loop_count s.m_states e _ _ (fun v hv => by
      rw [List.length_replicate, hL]; exact hin v (List.mem_range.1 hv)),
      occupancy_replicate_zero, zero_add]
    rfl

theorem occupancy_consistent_do_step (c : model_constants α) (ini : graph_initial α)
    (s : gno_modeling_simple_acceleration α) (hg : edges_in_range ini.get_graph)
    (hs : sized ini s) (h : occupancy_consistent ini s) :
    occupancy_consistent ini (do_step c ini s).2 := by
  have hadv := advance_loop_consistent c ini (min_critical_time c ini s) hg
    (List.range ini.get_initial_state.vehicle_count) (before_advance c ini s)
    (fun v hv => by
      show v < s.m_states.length
      rw [hs.1]; exact List.mem_range.1 hv) hs.1
    (before_advance_consistent c ini s h.1 h.2.1)
  obtain ⟨⟨-, -, h3, h4, h5, -⟩, -⟩ := advance_loop_spec c ini (min_critical_time c ini s)
    (List.range ini.get_initial_state.vehicle_count) (before_advance c ini s)
    (List.nodup_range _) (fun v hv => by
      show v < s.m_states.length
      rw [hs.1]; exact List.mem_range.1 hv)
  rw [do_step_eq]
  split_ifs with h0
  · obtain ⟨⟨-, hst, -, hocc, -, -⟩, -⟩ := velocity_loop_spec c (min_critical_time c ini s)
      (List.range ini.get_initial_state.vehicle_count)
      (advance_loop c ini (min_critical_time c ini s)
        (List.range ini.get_initial_state.vehicle_count) (before_advance c ini s)).2
      (List.nodup_range _) (fun v hv => by
        rw [h3, h4]
        show v < s.m_velocities.length ∧ v < s.m_accelerations.length
        rw [hs.2.2.1, hs.2.2.2]
        exact ⟨List.mem_range.1 hv, List.mem_range.1 hv⟩)
    exact occupancy_consistent_congr ini _ _ hst hocc hadv
  · exact hadv

theorem occupancy_consistent_is_finished (c : model_constants α) (ini : graph_initial α)
    (s : gno_modeling_simple_acceleration α) (hs : sized ini s)
    (h : occupancy_consistent ini s) : occupancy_consistent ini (is_finished c ini s).2 := by
  obtain ⟨-, h2, h3, -⟩ := is_finished_spec c ini s hs.2.1
  exact occupancy_consistent_congr ini _ _ h2 h3 h

/-- The vehicle loop of `run` adds to each counter the number of visited vehicles it
places on that edge. -/
theorem init_loop_count (ini : graph_initial α) (hg : edges_in_range ini.get_graph) (e : uid) :
    ∀ (ids : List uid) (s : gno_modeling_simple_acceleration α), ids.Nodup →
      (∀ j ∈ ids, init_checks_pass ini j) → (∀ v ∈ ids, v < s.m_states.length) →
      s.m_veh_on_edge.length = ini.get_graph.edge_count →
      occupancy (init_loop ini ids s).2.m_veh_on_edge e =
        occupancy s.m_veh_on_edge e + (ids.countP (fun v => decide
          (((init_loop ini ids s).2.m_states.getD v vehicle_discrete_state.zero).edge_uid = e)) :
            Nat)
  | [], s, _, _, _, _ => by simp [init_loop]
  | j :: ids, s, hnd, hpass, hlen, hL => by
    obtain ⟨hj, hnd'⟩ := List.nodup_cons.1 hnd
    have hjl : j < s.m_states.length := hlen j (List.mem_cons_self _ _)
    have hpj := hpass j (List.mem_cons_self _ _)
    have hsel : choose_edge s.m_veh_on_edge
        (ini.get_graph.edges ((ini.get_initial_state.vehicle j).path.getD 0 0)
          ((ini.get_initial_state.vehicle j).path.getD 1 0)) < s.m_veh_on_edge.length := by
      rw [hL]
      exact hg _ _ _ (choose_edge_mem _ _ hpj.2.2.2)
    rw [init_loop_cons_pass ini j ids s hpj]
    generalize choose_edge s.m_veh_on_edge
        (ini.get_graph.edges ((ini.get_initial_state.vehicle j).path.getD 0 0)
          ((ini.get_initial_state.vehicle j).path.getD 1 0)) = sel at hsel ⊢
    have ih := init_loop_count ini hg e ids
      { s with
        m_states := s.m_states.set j ⟨sel, 0, 0⟩
        m_veh_on_edge := incr s.m_veh_on_edge sel } hnd'
      (fun v hv => hpass v (List.mem_cons_of_mem _ hv))
      (fun v hv => by
        show v < (s.m_states.set j _).length
        rw [List.length_set]; exact hlen v (List.mem_cons_of_mem _ hv))
      (by show (incr _ _).length = _; rw [length_incr, hL])
    have hentry := (init_loop_frame ini ids
      { s with
        m_states := s.m_states.set j ⟨sel, 0, 0⟩
        m_veh_on_edge := incr s.m_veh_on_edge sel }).2.2.2.2.2.2 j hj
    rw [ih, List.countP_cons, hentry]
    show occupancy (incr s.m_veh_on_edge sel) e + _ = _
    rw [occupancy_incr_ite _ _ _ hsel]
    show _ = _ + ((_ + if decide (((s.m_states.set j _).getD j
      vehicle_discrete_state.zero).edge_uid = e) = true then 1 else 0 : Nat) : Int)
    rw [getD_set_self _ _ _ _ hjl]
    push_cast
    simp only [decide_eq_true_eq]
    ring

theorem occupancy_consistent_init (c : model_constants α) (ini : graph_initial α)
    (s : gno_modeling_simple_acceleration α) (hg : edges_in_range ini.get_graph)
    (h0 : (initialize_run c ini s).1 = 0) :
    occupancy_consistent ini (initialize_run c ini s).2 := by
  rw [initialize_run_eq] at h0 ⊢
  have hpass := (init_loop_ok_iff ini _ _).1 h0
  have hlen : ∀ v ∈ List.range ini.get_initial_state.vehicle_count,
      v < (reset c ini s).m_states.length := fun v hv => by
    show v < (resize _ _ _).length
    rw [length_resize]; exact List.mem_range.1 hv
  refine ⟨(init_loop_reset_shape c ini s _).2.2.2.2.2, fun v hv => ?_, fun e => ?_⟩
  · obtain ⟨e, hmem, he⟩ := init_loop_entry ini _ (reset c ini s) (List.nodup_range _) hpass v
      (List.mem_range.2 hv) (hlen v (List.mem_range.2 hv))
    rw [he]
    exact hg _ _ _ hmem
  · rw [init_loop_count ini hg e _ (reset c ini s) (List.nodup_range _) hpass hlen
      (by show (List.replicate _ _).length = _; rw [List.length_replicate])]
    show occupancy (List.replicate _ 0) e + _ = _
    rw [occupancy_replicate_zero, zero_add]
    rfl

theorem occupancy_consistent_state_after (c : model_constants α) (ini : graph_initial α)
    (s : gno_modeling_simple_acceleration α) (hg : edges_in_range ini.get_graph) (n : Nat)
    (s1 : gno_modeling_simple_acceleration α) (h : state_after c ini s n = some s1) :
    occupancy_consistent ini s1 :=
  (state_after_induction c ini s (occupancy_consistent ini)
    (occupancy_consistent_init c ini s hg)
    (fun s1 hs1 hP _ _ => occupancy_consistent_do_step c ini _ hg
      (is_finished_sized c ini s1 hs1) (occupancy_consistent_is_finished c ini s1 hs1 hP))
    n s1 h).2

theorem list_eq_of_occupancy (l1 l2 : List Int) (hlen : l1.length = l2.length)
    (h : ∀ e, e < l1.length → occupancy l1 e = occupancy l2 e) : l1 = l2 := by
  refine List.ext_getElem hlen (fun i h1 h2 => ?_)
  have := h i h1
  simp only [occupancy, List.getD_eq_getElem?_getD, List.getElem?_eq_getElem h1,
    List.getElem?_eq_getElem h2, Option.getD_some] at this
  exact this

/-- In a state with consistent counters the occupancy vector is what the recount of
lines 149-151 computes from scratch. -/
theorem occupancy_consistent_recount (ini : graph_initial α)
    (s : gno_modeling_simple_acceleration α) (h : occupancy_consistent ini s) :
    s.m_veh_on_edge = recount_loop s.m_states (List.range ini.get_initial_state.vehicle_count)
      (List.replicate s.m_veh_on_edge.length 0) := by
  obtain ⟨hL, hin, hcount⟩ := h
  refine list_eq_of_occupancy _ _ ?_ (fun e _ => ?_)
  · rw [(recount_loop_spec _ _ _).1, List.length_replicate]
  · rw [recount_loop_count s.m_states e _ _ (fun v hv => by
      rw [List.length_replicate, hL]; exact hin v (List.mem_range.1 hv)),
      occupancy_replicate_zero, zero_add, hcount e]
    rfl

/-- C13: provided every edge id returned by the graph is below `edge_count`, after a
successful initialization and after every `do_step` (successful or not) the counter
`m_veh_on_edge[e]` of every edge `e` equals the number of vehicles, finished or not,
whose current `edge_uid` is `e`; equivalently the occupancy vector kept by the
decrements and increments of `do_step` is the vector a recount from scratch (lines
149-151) computes from the vehicle states. -/
theorem occupancy_matches_vehicles (c : model_constants α) (ini : graph_initial α)
    (s : gno_modeling_simple_acceleration α) (hg : edges_in_range ini.get_graph) (n : Nat)
    (s1 : gno_modeling_simple_acceleration α) (h : state_after c ini s n = some s1) :
    ((∀ e, e < ini.get_graph.edge_count →
        occupancy s1.m_veh_on_edge e = (vehicles_on ini s1 e : Int)) ∧
      s1.m_veh_on_edge = recount_loop s1.m_states
        (List.range ini.get_initial_state.vehicle_count)
        (List.replicate s1.m_veh_on_edge.length 0)) ∧
    ((∀ e, e < ini.get_graph.edge_count →
        occupancy (do_step c ini (is_finished c ini s1).2).2.m_veh_on_edge e =
          (vehicles_on ini (do_step c ini (is_finished c ini s1).2).2 e : Int)) ∧
      (do_step c ini (is_finished c ini s1).2).2.m_veh_on_edge =
        recount_loop (do_step c ini (is_finished c ini s1).2).2.m_states
          (List.range ini.get_initial_state.vehicle_count)
          (List.replicate (do_step c ini (is_finished c ini s1).2).2.m_veh_on_edge.length 0)) := by
  have hs1 := state_after_sized c ini s n s1 h
  have h1 := occupancy_consistent_state_after c ini s hg n s1 h
  have h2 := occupancy_consistent_do_step c ini _ hg (is_finished_sized c ini s1 hs1)
    (occupancy_consistent_is_finished c ini s1 hs1 h1)
  exact ⟨⟨fun e _ => h1.2.2 e, occupancy_consistent_recount ini s1 h1⟩,
    ⟨fun e _ => h2.2.2 e, occupancy_consistent_recount ini _ h2⟩⟩

/-- C13, instance: after the first step of the two-vehicle run over the reals vehicle 0
is on edge 0 and vehicle 1 on edge 1, and the counter of edge 1 is 1. -/
theorem occupancy_matches_vehicles_witness :
    occupancy ([1, 1] : List Int) 1 =
      (vehicles_on (two_vehicle_input ℝ)
        ⟨1, [⟨0, 1, 0⟩, ⟨1, 0, 1⟩], [0, 0], [1, 1], [2, 2], [0, 0]⟩ 1 : Int) :=
  (occupancy_matches_vehicles ⟨2, 2, 1 / 1000, Real.sqrt⟩ (two_vehicle_input ℝ)
    (fresh_engine ℝ) (chain_graph_in_range ℝ) 1 _ two_vehicle_after_one).1.1 1 (by decide)

/-! ## A step without unfinished vehicles -/

theorem list_eq_of_getD {β : Type} (d : β) (l1 l2 : List β) (hlen : l1.length = l2.length)
    (h : ∀ i, i < l1.length → l1.getD i d = l2.getD i d) : l1 = l2 := by
  refine List.ext_getElem hlen (fun i h1 h2 => ?_)
  have := h i h1
  simp only [List.getD_eq_getElem?_getD, List.getElem?_eq_getElem h1,
    List.getElem?_eq_getElem h2, Option.getD_some] at this
  exact this

theorem min_critical_time_all_finished (c : model_constants α) (ini : graph_initial α)
    (s : gno_modeling_simple_acceleration α)
    (hall : ∀ v, v < ini.get_initial_state.vehicle_count → s.m_finished.getD v 0 = 1) :
    min_critical_time c ini s = -1 := by
  unfold min_critical_time
  rcases min_loop_none c ini s (List.range ini.get_initial_state.vehicle_count) (-1) with
    ⟨-, h⟩ | ⟨-, i, hi, hne, -⟩
  · rw [h]
  · exact absurd (hall i (List.mem_range.1 hi)) hne

theorem all_finished_frame (c : model_constants α) (ini : graph_initial α)
    (s : gno_modeling_simple_acceleration α) (hs : sized ini s)
    (hall : ∀ v, v < ini.get_initial_state.vehicle_count → s.m_finished.getD v 0 = 1) :
    (do_step c ini s).1 = 0 ∧ (do_step c ini s).2.m_states = s.m_states := by
  obtain ⟨hs', -, -, -, hcode, hkeep⟩ := do_step_frame c ini s hs
  refine ⟨?_, ?_⟩
  · rcases hcode with h0 | h1
    · exact h0
    · obtain ⟨v, hv, hne, -⟩ := (do_step_fails_iff c ini s hs).1 h1
      exact absurd (hall v hv) hne
  · refine list_eq_of_getD vehicle_discrete_state.zero _ _ (by rw [hs'.1, hs.1])
      (fun i _ => hkeep i ?_)
    by_cases hi : i < ini.get_initial_state.vehicle_count
    · exact Or.inl (hall i hi)
    · exact Or.inr (not_lt.1 hi)

/-- C12, counterexample: the two-vehicle run over `ℚ` returns 0 after two steps in a state
with both finished flags set and clock `3/2`; a call of `do_step` on that state returns
the success status 0 and sets the clock back to `1/2`. -/
theorem do_step_succeeds_without_unfinished_vehicle :
    run example_constants (two_vehicle_input ℚ) 5 (fresh_engine ℚ) =
      some (0, ⟨3 / 2, [⟨0, 1, 0⟩, ⟨1, 1, 1⟩], [1, 1], [1, 1], [2, 2], [0, 0]⟩, 2) ∧
    do_step example_constants (two_vehicle_input ℚ)
      ⟨3 / 2, [⟨0, 1, 0⟩, ⟨1, 1, 1⟩], [1, 1], [1, 1], [2, 2], [0, 0]⟩ =
      (0, ⟨1 / 2, [⟨0, 1, 0⟩, ⟨1, 1, 1⟩], [1, 1], [1, 1], [2, 2], [0, 0]⟩) := by
  decide!

/-- C12, amended: `do_step` has no failure path for a state without unfinished vehicles.
In an engine state whose per-vehicle vectors have one entry per vehicle and in which
every finished flag is set, `do_step` returns 0, leaves the finished flags and the
discrete state of every vehicle unchanged, keeps the initial value `-1` of
`min_critical_time` as its time step, so that the clock is set back by 1 and every
velocity is updated with the time step `-1`. Within `run` the case does not arise: a
`do_step` is only called after `is_finished` has returned `false`, and then at least one
finished flag is not set. -/
theorem do_step_all_finished (c : model_constants α) (ini : graph_initial α)
    (s : gno_modeling_simple_acceleration α) (hs : sized ini s)
    (hall : ∀ v, v < ini.get_initial_state.vehicle_count → s.m_finished.getD v 0 = 1) :
    ((do_step c ini s).1 = 0 ∧
      (do_step c ini s).2.m_finished = s.m_finished ∧
      (do_step c ini s).2.m_states = s.m_states ∧
      min_critical_time c ini s = -1 ∧
      (do_step c ini s).2.m_t = s.m_t + -1 ∧
      ∀ v, v < ini.get_initial_state.vehicle_count →
        (do_step c ini s).2.m_velocities.getD v 0 =
          s.m_velocities.getD v 0 + -1 * s.m_accelerations.getD v 0) ∧
    ∀ (s0 : gno_modeling_simple_acceleration α) (n : Nat)
      (s1 : gno_modeling_simple_acceleration α),
      state_after c ini s0 n = some s1 → (is_finished c ini s1).1 = false →
      ∃ v, v < ini.get_initial_state.vehicle_count ∧
        (is_finished c ini s1).2.m_finished.getD v 0 ≠ 1 := by
  obtain ⟨h0, hst⟩ := all_finished_frame c ini s hs hall
  obtain ⟨-, hfin, ht, -, -, -⟩ := do_step_frame c ini s hs
  have hmin := min_critical_time_all_finished c ini s hall
  refine ⟨⟨h0, hfin, hst, hmin, by rw [ht, hmin], fun v hv => ?_⟩, fun s0 n s1 h hf => ?_⟩
  · rw [((do_step_velocities c ini s hs).1 h0 v hv).1, hmin]
  · exact (is_finished_spec c ini s1 (state_after_sized c ini s0 n s1 h).2.1).2.2.2.2.2.2.2.2 hf

/-- C12, instance of the amended statement: on the final state of the one-vehicle run
over `ℚ` (flag set, clock 1) `do_step` returns 0 and the clock becomes `1 + -1`. -/
theorem do_step_all_finished_witness :
    (do_step example_constants (one_hop_input ℚ)
      ⟨1, [⟨0, 1, 0⟩], [1], [1, 0], [2], [0]⟩).1 = 0 ∧
    (do_step example_constants (one_hop_input ℚ)
      ⟨1, [⟨0, 1, 0⟩], [1], [1, 0], [2], [0]⟩).2.m_t = 1 + -1 :=
  ⟨(do_step_all_finished example_constants (one_hop_input ℚ)
      ⟨1, [⟨0, 1, 0⟩], [1], [1, 0], [2], [0]⟩ ⟨rfl, rfl, rfl, rfl⟩ (by decide)).1.1,
    (do_step_all_finished example_constants (one_hop_input ℚ)
      ⟨1, [⟨0, 1, 0⟩], [1], [1, 0], [2], [0]⟩ ⟨rfl, rfl, rfl, rfl⟩ (by decide)).1.2.2.2.2.1⟩

/-! ## Every step reaches an event -/

theorem not_fuzzy_zero_of_lt (c : model_constants α) (hA : c.eps < c.A_MAX) :
    ¬ fuzzy_eq c c.A_MAX 0 = true := by
  intro h
  rw [fuzzy_eq_iff, sub_zero] at h
  exact absurd (lt_of_le_of_lt (le_abs_self _) h) (not_lt.2 hA.le)

theorem moving_is_finished (c : model_constants α) (ini : graph_initial α)
    (s : gno_modeling_simple_acceleration α) (hs : sized ini s) (h : moving c ini s) :
    moving c ini (is_finished c ini s).2 := by
  obtain ⟨h1, h2, h3⟩ := is_finished_kinematics c ini s hs
  unfold moving at h ⊢
  rw [h1, h2, h3]
  exact h

theorem kinematic_moving_state_after (c : model_constants α) (ini : graph_initial α)
    (s : gno_modeling_simple_acceleration α) (hsq : exact_sqrt c) (hE : 0 < c.eps)
    (hA : c.eps < c.A_MAX) (hV : 0 < c.V_MAX) (hlen : ∀ e, 0 < ini.get_graph.length e)
    (n : Nat) (s1 : gno_modeling_simple_acceleration α)
    (h : state_after c ini s n = some s1) :
    sized ini s1 ∧ kinematic_inv c ini s1 ∧ moving c ini s1 := by
  refine state_after_induction c ini s (fun s => kinematic_inv c ini s ∧ moving c ini s)
    (fun h0 => ?_) (fun s1 hs1 hP hf h0 => ?_) n s1 h
  · have := progress_inv_init c ini s hV.le h0
    exact ⟨this.2.1, this.2.2.1⟩
  · have hs2 := is_finished_sized c ini s1 hs1
    have hK := kinematic_inv_is_finished c ini s1 hs1 hP.1
    have hM := moving_is_finished c ini s1 hs1 hP.2
    have hex := (is_finished_spec c ini s1 hs1.2.1).2.2.2.2.2.2.2.2 hf
    exact ⟨(kinematic_inv_do_step c ini _ hsq (lt_trans hE hA) hlen hs2 hK hex).2,
      moving_do_step c ini _ hsq (lt_trans hE hA) hV (not_fuzzy_zero_of_lt c hA) hlen hs2 hK hM
        hex h0⟩

/-- The critical time of a vehicle whose acceleration is `A_MAX` (not fuzzily zero) or
exactly `0` (with a positive tolerance). -/
theorem critical_time_cases (c : model_constants α) (ini : graph_initial α)
    (s : gno_modeling_simple_acceleration α) (v : uid) (hE : 0 < c.eps)
    (hA : c.eps < c.A_MAX)
    (ha : s.m_accelerations.getD v 0 = c.A_MAX ∨ s.m_accelerations.getD v 0 = 0) :
    critical_time c ini s v =
      if s.m_accelerations.getD v 0 = 0 then crit_time_zero_acc ini s v
      else min (crit_time_end_acc c s v) (crit_time_end_edge c ini s v) := by
  by_cases h0 : s.m_accelerations.getD v 0 = 0
  · rw [if_pos h0]
    exact critical_time_zero_acc c ini s v (by rw [h0]; exact fuzzy_eq_self c 0 hE)
  · rw [if_neg h0]
    have hA' : s.m_accelerations.getD v 0 = c.A_MAX := ha.resolve_right h0
    rw [critical_time_accelerating c ini s v (by rw [hA']; exact not_fuzzy_zero_of_lt c hA)]
    split_ifs with hlt
    · exact (min_eq_left hlt.le).symm
    · exact (min_eq_right (not_lt.1 hlt)).symm

/-- The event a successful `do_step` brings about for a vehicle that attains the minimum
of the critical times. -/
theorem do_step_event (c : model_constants α) (ini : graph_initial α)
    (s : gno_modeling_simple_acceleration α) (hsq : exact_sqrt c) (hE : 0 < c.eps)
    (hA : c.eps < c.A_MAX) (hlen : ∀ e, 0 < ini.get_graph.length e) (hs : sized ini s)
    (hK : kinematic_inv c ini s) (hM : moving c ini s) (h0 : (do_step c ini s).1 = 0)
    (i : uid) (hi : i < ini.get_initial_state.vehicle_count)
    (hfi : s.m_finished.getD i 0 ≠ 1)
    (hmin : min_critical_time c ini s = critical_time c ini s i) :
    ((∃ e ∈ next_edges ini i (s.m_states.getD i vehicle_discrete_state.zero),
        (do_step c ini s).2.m_states.getD i vehicle_discrete_state.zero =
          ⟨e, 0, (s.m_states.getD i vehicle_discrete_state.zero).node_num + 1⟩) ∨
      ((do_step c ini s).2.m_states.getD i vehicle_discrete_state.zero =
          { s.m_states.getD i vehicle_discrete_state.zero with part := 1 } ∧
        at_last_pair ini i (s.m_states.getD i vehicle_discrete_state.zero))) ∨
    ((do_step c ini s).2.m_velocities.getD i 0 = c.V_MAX ∧
      (do_step c ini s).2.m_accelerations.getD i 0 = 0) := by
  have hA0 : 0 < c.A_MAX := lt_trans hE hA
  have hnf := not_fuzzy_zero_of_lt c hA
  obtain ⟨V, a, hshared, -, -, ha, -, hparts⟩ := hK
  obtain ⟨hVi, hai⟩ := hshared i hi
  have hmove : a = 0 → 0 < V := by
    intro ha0
    rcases hM with hm | ⟨hm, -⟩
    · rw [← hVi]; exact hm i hi
    · have := (hm i hi).2
      rw [hai, ha0] at this
      exact absurd this.symm (ne_of_gt hA0)
  have hct := critical_time_eq c ini s i V a hVi hai
  rcases critical_time_event c hsq hA0 hnf _ _ V a _ (hlen _) (hparts i hi).2 ha hmove hct with
    ⟨haA, hcap⟩ | hend
  · right
    obtain ⟨h1, h2⟩ := (do_step_velocities c ini s hs).1 h0 i hi
    rw [h1, h2, hVi, hai, hmin, hcap, if_pos (fuzzy_eq_self c _ hE)]
    exact ⟨rfl, rfl⟩
  · left
    have hp : advanced_part ini (min_critical_time c ini s) s i = 1 := by
      rw [advanced_part_eq ini _ s i V a hVi hai, hmin]
      exact hend
    have hmv := do_step_moved_on c ini s hs h0 i hi hfi
    rw [hp] at hmv
    rcases hmv with ⟨hnew, hlast⟩ | ⟨-, -, e, he, hnew⟩
    · exact Or.inr ⟨hnew, hlast (fuzzy_eq_self c 1 hE)⟩
    · exact Or.inl ⟨e, he, hnew⟩

theorem dead_end_start :
    state_after (⟨2, 2, 1 / 1000, Real.sqrt⟩ : model_constants ℝ) (dead_end_input ℝ)
      (fresh_engine ℝ) 0 = some ⟨0, [⟨0, 0, 0⟩], [0], [1], [0], [2]⟩ :=
  rfl

theorem dead_end_is_finished :
    is_finished (⟨2, 2, 1 / 1000, Real.sqrt⟩ : model_constants ℝ) (dead_end_input ℝ)
      ⟨0, [⟨0, 0, 0⟩], [0], [1], [0], [2]⟩ =
      (false, ⟨0, [⟨0, 0, 0⟩], [0], [1], [0], [2]⟩) := by
  norm_num [is_finished, is_finished_loop, is_finish, fuzzy_eq, dead_end_input,
    graph_initial_state_base.vehicle_count, List.range, List.range.loop,
    vehicle_discrete_state.zero, abs_lt]

theorem dead_end_do_step :
    do_step (⟨2, 2, 1 / 1000, Real.sqrt⟩ : model_constants ℝ) (dead_end_input ℝ)
      ⟨0, [⟨0, 0, 0⟩], [0], [1], [0], [2]⟩ =
      (-1, ⟨1, [⟨0, 1, 0⟩], [0], [1], [0], [2]⟩) := by
  norm_num [do_step, min_critical_time, min_loop, critical_time, fuzzy_eq, recount_loop,
    advance_loop, advanced_part, velocity_loop, incr, decr, occupancy, find_critical_time,
    dead_end_input, broken_chain_graph, graph_initial_state_base.vehicle_count,
    graph_initial_state_base.vehicle, List.range, choose_edge,
    List.range.loop, vehicle_discrete_state.zero, abs_lt, List.replicate, real_sqrt_four,
    Option.some_ne_none]

/-- C15, counterexample: (1) with `A_MAX = 1/1000` below the tolerance `1/100` (and
`V_MAX = 10`, edge length 1) the state after the initialization of the one-vehicle run
over the reals is reachable and its vehicle is unfinished, yet `do_step` chooses the
time step 0 and returns the state unchanged: the vehicle is still at `part = 0` of its
edge and its velocity is still 0 with acceleration `1/1000`, so it has neither completed
its edge nor reached `V_MAX`. (2) With `A_MAX = 2`, `V_MAX = 2` and tolerance `1/1000`, on
the chain graph without its second edge, the first `do_step` of the vehicle driving
`0 → 1 → 2` returns `-1`: the vehicle is left at `part = 1` on edge 0, which is not the
last node pair of its path, and its velocity is still 0. -/
theorem step_without_boundary_event :
    ((0 : ℝ) < 1 / 1000 ∧ (0 : ℝ) < 10 ∧
      (∀ e, 0 < (one_hop_input ℝ).get_graph.length e) ∧
      state_after (⟨1 / 1000, 10, 1 / 100, Real.sqrt⟩ : model_constants ℝ) (one_hop_input ℝ)
        (fresh_engine ℝ) 0 = some ⟨0, [⟨0, 0, 0⟩], [0], [1, 0], [0], [1 / 1000]⟩ ∧
      is_finished (⟨1 / 1000, 10, 1 / 100, Real.sqrt⟩ : model_constants ℝ) (one_hop_input ℝ)
        ⟨0, [⟨0, 0, 0⟩], [0], [1, 0], [0], [1 / 1000]⟩ =
        (false, ⟨0, [⟨0, 0, 0⟩], [0], [1, 0], [0], [1 / 1000]⟩) ∧
      do_step (⟨1 / 1000, 10, 1 / 100, Real.sqrt⟩ : model_constants ℝ) (one_hop_input ℝ)
        ⟨0, [⟨0, 0, 0⟩], [0], [1, 0], [0], [1 / 1000]⟩ =
        (0, ⟨0, [⟨0, 0, 0⟩], [0], [1, 0], [0], [1 / 1000]⟩) ∧
      (0 : ℝ) ≠ 1 ∧ (0 : ℝ) ≠ 10 ∧ (1 / 1000 : ℝ) ≠ 0) ∧
    ((∀ e, 0 < (dead_end_input ℝ).get_graph.length e) ∧
      state_after (⟨2, 2, 1 / 1000, Real.sqrt⟩ : model_constants ℝ) (dead_end_input ℝ)
        (fresh_engine ℝ) 0 = some ⟨0, [⟨0, 0, 0⟩], [0], [1], [0], [2]⟩ ∧
      is_finished (⟨2, 2, 1 / 1000, Real.sqrt⟩ : model_constants ℝ) (dead_end_input ℝ)
        ⟨0, [⟨0, 0, 0⟩], [0], [1], [0], [2]⟩ =
        (false, ⟨0, [⟨0, 0, 0⟩], [0], [1], [0], [2]⟩) ∧
      do_step (⟨2, 2, 1 / 1000, Real.sqrt⟩ : model_constants ℝ) (dead_end_input ℝ)
        ⟨0, [⟨0, 0, 0⟩], [0], [1], [0], [2]⟩ =
        (-1, ⟨1, [⟨0, 1, 0⟩], [0], [1], [0], [2]⟩) ∧
      ¬ at_last_pair (dead_end_input ℝ) 0 (⟨0, 1, 0⟩ : vehicle_discrete_state ℝ) ∧
      (0 : ℝ) ≠ 2) := by
  refine ⟨⟨by norm_num, by norm_num, chain_graph_length_pos ℝ, ?_, stall_is_finished,
    stall_do_step, by norm_num, by norm_num, by norm_num⟩,
    ⟨fun e => ?_, dead_end_start, dead_end_is_finished, dead_end_do_step, ?_, by norm_num⟩⟩
  · rw [state_after, stall_init]
    rfl
  · show (0 : ℝ) < 1
    norm_num
  · simp [at_last_pair, dead_end_input, graph_initial_state_base.vehicle]

/-- C15, amended: over the reals with a positive tolerance, `A_MAX` larger than the
tolerance, `V_MAX > 0` and positive edge lengths, whenever `run` calls `do_step` (at a
reachable loop head where `is_finished` returned `false`, so that an unfinished vehicle
exists): the critical time of a vehicle is the time to its edge end when its
acceleration is `0` and the minimum of the time to the speed cap and the time to the
edge end otherwise; the time step `do_step` adds to the clock is the minimum of the
critical times over the unfinished vehicles and is attained by one of them; and if
`do_step` returns 0, then an unfinished vehicle attaining the minimum has been moved to
an edge of its next node pair with `part = 0`, or stays on the last node pair of its path
with `part = 1`, or has velocity `V_MAX` and acceleration `0` after the step. -/
theorem step_reaches_boundary_event (c : model_constants ℝ) (hsqrt : c.sqrt = Real.sqrt)
    (ini : graph_initial ℝ) (s : gno_modeling_simple_acceleration ℝ) (hE : 0 < c.eps)
    (hA : c.eps < c.A_MAX) (hV : 0 < c.V_MAX) (hlen : ∀ e, 0 < ini.get_graph.length e)
    (n : Nat) (s1 : gno_modeling_simple_acceleration ℝ)
    (h : state_after c ini s n = some s1) (hf : (is_finished c ini s1).1 = false) :
    (∃ v, v < ini.get_initial_state.vehicle_count ∧
      (is_finished c ini s1).2.m_finished.getD v 0 ≠ 1) ∧
    (∀ v, v < ini.get_initial_state.vehicle_count →
      critical_time c ini (is_finished c ini s1).2 v =
        if (is_finished c ini s1).2.m_accelerations.getD v 0 = 0 then
          crit_time_zero_acc ini (is_finished c ini s1).2 v
        else min (crit_time_end_acc c (is_finished c ini s1).2 v)
          (crit_time_end_edge c ini (is_finished c ini s1).2 v)) ∧
    (do_step c ini (is_finished c ini s1).2).2.m_t =
      (is_finished c ini s1).2.m_t + min_critical_time c ini (is_finished c ini s1).2 ∧
    (∀ v, v < ini.get_initial_state.vehicle_count →
      (is_finished c ini s1).2.m_finished.getD v 0 ≠ 1 →
      min_critical_time c ini (is_finished c ini s1).2 ≤
        critical_time c ini (is_finished c ini s1).2 v) ∧
    ∃ i, i < ini.get_initial_state.vehicle_count ∧
      (is_finished c ini s1).2.m_finished.getD i 0 ≠ 1 ∧
      min_critical_time c ini (is_finished c ini s1).2 =
        critical_time c ini (is_finished c ini s1).2 i ∧
      ((do_step c ini (is_finished c ini s1).2).1 = 0 →
        ((∃ e ∈ next_edges ini i
              ((is_finished c ini s1).2.m_states.getD i vehicle_discrete_state.zero),
            (do_step c ini (is_finished c ini s1).2).2.m_states.getD i
                vehicle_discrete_state.zero =
              ⟨e, 0, ((is_finished c ini s1).2.m_states.getD i
                vehicle_discrete_state.zero).node_num + 1⟩) ∨
          ((do_step c ini (is_finished c ini s1).2).2.m_states.getD i
                vehicle_discrete_state.zero =
              { (is_finished c ini s1).2.m_states.getD i vehicle_discrete_state.zero with
                part := 1 } ∧
            at_last_pair ini i
              ((is_finished c ini s1).2.m_states.getD i vehicle_discrete_state.zero))) ∨
        ((do_step c ini (is_finished c ini s1).2).2.m_velocities.getD i 0 = c.V_MAX ∧
          (do_step c ini (is_finished c ini s1).2).2.m_accelerations.getD i 0 = 0)) := by
  have hsq := real_sqrt_exact c hsqrt
  obtain ⟨hs1, hK1, hM1⟩ := kinematic_moving_state_after c ini s hsq hE hA hV hlen n s1 h
  have hs2 := is_finished_sized c ini s1 hs1
  have hK := kinematic_inv_is_finished c ini s1 hs1 hK1
  have hM := moving_is_finished c ini s1 hs1 hM1
  have hex := (is_finished_spec c ini s1 hs1.2.1).2.2.2.2.2.2.2.2 hf
  obtain ⟨hle, i, hi, hfi, hmin⟩ := min_critical_time_spec c ini _ hex
  refine ⟨hex, fun v hv => ?_, (do_step_frame c ini _ hs2).2.2.1, hle, i, hi, hfi, hmin,
    fun h0 => do_step_event c ini _ hsq hE hA hlen hs2 hK hM h0 i hi hfi hmin⟩
  obtain ⟨V, a, hshared, -, -, ha, -, -⟩ := hK
  refine critical_time_cases c ini _ v hE hA ?_
  rw [(hshared v hv).2]
  rcases ha with ha | ⟨ha, -⟩
  · exact Or.inl ha
  · exact Or.inr ha

/-- C15, instance of the amended statement: at the start of the two-vehicle run over the
reals (acceleration 2, speed cap 2, tolerance 1/1000) the first `do_step` adds the
minimum critical time to the clock. -/
theorem step_reaches_boundary_event_witness :
    (do_step (⟨2, 2, 1 / 1000, Real.sqrt⟩ : model_constants ℝ) (two_vehicle_input ℝ)
      (is_finished ⟨2, 2, 1 / 1000, Real.sqrt⟩ (two_vehicle_input ℝ)
        ⟨0, [⟨0, 0, 0⟩, ⟨0, 0, 0⟩], [0, 0], [2, 0], [0, 0], [2, 2]⟩).2).2.m_t =
      (is_finished (⟨2, 2, 1 / 1000, Real.sqrt⟩ : model_constants ℝ) (two_vehicle_input ℝ)
        ⟨0, [⟨0, 0, 0⟩, ⟨0, 0, 0⟩], [0, 0], [2, 0], [0, 0], [2, 2]⟩).2.m_t +
      min_critical_time (⟨2, 2, 1 / 1000, Real.sqrt⟩ : model_constants ℝ)
        (two_vehicle_input ℝ)
        (is_finished ⟨2, 2, 1 / 1000, Real.sqrt⟩ (two_vehicle_input ℝ)
          ⟨0, [⟨0, 0, 0⟩, ⟨0, 0, 0⟩], [0, 0], [2, 0], [0, 0], [2, 2]⟩).2 :=
  (step_reaches_boundary_event ⟨2, 2, 1 / 1000, Real.sqrt⟩ rfl (two_vehicle_input ℝ)
    (fresh_engine ℝ) (by norm_num) (by norm_num) (by norm_num) (chain_graph_length_pos ℝ) 0 _
    two_vehicle_start two_vehicle_start_unfinished).2.2.1

/-! ## The single-vehicle scenario -/

/-- A property of the engine state that `is_finished` and `do_step` preserve holds in
the state on return of the `while` loop of `run`. -/
theorem run_loop_invariant (c : model_constants α) (ini : graph_initial α)
    (P : gno_modeling_simple_acceleration α → Prop)
    (hfin : ∀ s, sized ini s → P s → P (is_finished c ini s).2)
    (hstep : ∀ s, sized ini s → P s → P (do_step c ini s).2) :
    ∀ (fuel steps : Nat) (s : gno_modeling_simple_acceleration α)
      (r : Int × gno_modeling_simple_acceleration α × Nat),
      sized ini s → P s → run_loop c ini fuel steps s = some r → P r.2.1
  | 0, _, _, _, _, _, h => by simp [run_loop] at h
  | fuel + 1, steps, s, r, hs, hP, h => by
    have hs2 := is_finished_sized c ini s hs
    have hP2 := hfin s hs hP
    rw [run_loop] at h
    split_ifs at h with h1 h2
    · rw [← Option.some.inj h]
      exact hP2
    · exact run_loop_invariant c ini P hfin hstep fuel (steps + 1) _ r
        (do_step_frame c ini _ hs2).1 (hstep _ hs2 hP2) h
    · rw [← Option.some.inj h]
      exact hstep _ hs2 hP2

theorem run_success_invariant (c : model_constants α) (ini : graph_initial α)
    (P : gno_modeling_simple_acceleration α → Prop)
    (hinit : ∀ s, (initialize_run c ini s).1 = 0 → P (initialize_run c ini s).2)
    (hfin : ∀ s, sized ini s → P s → P (is_finished c ini s).2)
    (hstep : ∀ s, sized ini s → P s → P (do_step c ini s).2)
    (fuel : Nat) (s S : gno_modeling_simple_acceleration α) (k : Nat)
    (h : run c ini fuel s = some (0, S, k)) :
    P S ∧ ∀ v, v < ini.get_initial_state.vehicle_count → S.m_finished.getD v 0 = 1 := by
  unfold run at h
  split_ifs at h with h0
  · exact ⟨run_loop_invariant c ini P hfin hstep fuel 0 _ _ (initialize_run_sized c ini s)
      (hinit s h0) h, (run_loop_success c ini fuel 0 _ S k (initialize_run_sized c ini s)
      (flags_justified_init c ini s) h).2⟩
  · exact absurd (congrArg Prod.fst (Option.some.inj h)) h0

theorem hundred_chain_in_range (β : Type) [LinearOrderedField β] :
    edges_in_range (hundred_chain_graph β) := by
  intro u v e he
  simp only [hundred_chain_graph] at he ⊢
  split_ifs at he
  · rw [List.mem_singleton.1 he]; decide
  · rw [List.mem_singleton.1 he]; decide
  · simp at he

theorem hundred_chain_ends_at_target (β : Type) [LinearOrderedField β] :
    edges_end_at_target (hundred_chain_graph β) := by
  intro u v e he
  simp only [hundred_chain_graph] at he ⊢
  split_ifs at he with h1 h2
  · obtain ⟨-, rfl⟩ := h1
    simpa using he
  · obtain ⟨-, rfl⟩ := h2
    simpa using he
  · simp at he

theorem hundred_chain_length_pos (β : Type) [LinearOrderedField β] (e : uid) :
    0 < (hundred_chain_graph β).length e := by
  show (0 : β) < 100
  norm_num

theorem single_vehicle_connected (β : Type) [LinearOrderedField β] :
    connected_paths (single_vehicle_input β) := by
  intro j hj
  have hj0 : j = 0 := Nat.lt_one_iff.1 hj
  subst hj0
  refine ⟨⟨?_, ?_, ?_, ?_⟩, ?_⟩
  · simp [single_vehicle_input, graph_initial_state_base.vehicle]
  · simp [single_vehicle_input, graph_initial_state_base.vehicle]
  · simp [single_vehicle_input, graph_initial_state_base.vehicle]
  · simp [single_vehicle_input, graph_initial_state_base.vehicle, hundred_chain_graph]
  · intro k hk
    have hk3 : k + 1 < 3 := hk
    have hk2 : k < 2 := by omega
    interval_cases k
    · simp [single_vehicle_input, graph_initial_state_base.vehicle, hundred_chain_graph]
    · simp [single_vehicle_input, graph_initial_state_base.vehicle, hundred_chain_graph]

/-- On return of a successful run of the single-vehicle scenario the vehicle is flagged,
stands on the second edge, and the counters are 0 for the first and 1 for the second
edge. -/
theorem single_vehicle_final_state (c : model_constants α) (fuel : Nat)
    (s S : gno_modeling_simple_acceleration α) (k : Nat)
    (h : run c (single_vehicle_input α) fuel s = some (0, S, k)) :
    S.m_finished.getD 0 0 = 1 ∧
    (S.m_states.getD 0 vehicle_discrete_state.zero).edge_uid = 1 ∧
    fuzzy_eq c (S.m_states.getD 0 vehicle_discrete_state.zero).part 1 = true ∧
    occupancy S.m_veh_on_edge 0 = 0 ∧ occupancy S.m_veh_on_edge 1 = 1 := by
  obtain ⟨⟨hcons, hfj⟩, hall⟩ := run_success_invariant c (single_vehicle_input α)
    (fun s => occupancy_consistent (single_vehicle_input α) s ∧
      flags_justified c (single_vehicle_input α) s)
    (fun s h0 => ⟨occupancy_consistent_init c _ s (hundred_chain_in_range α) h0,
      flags_justified_init c _ s⟩)
    (fun s hs hP => ⟨occupancy_consistent_is_finished c _ s hs hP.1,
      flags_justified_is_finished c _ s hs hP.2⟩)
    (fun s hs hP => ⟨occupancy_consistent_do_step c _ s (hundred_chain_in_range α) hs hP.1,
      flags_justified_do_step c _ s hs hP.2⟩) fuel s S k h
  have hflag : S.m_finished.getD 0 0 = 1 := hall 0 Nat.zero_lt_one
  obtain ⟨hpart, hmem⟩ := (is_finish_iff c _ S 0).1 (hfj 0 hflag)
  have hedge : (S.m_states.getD 0 vehicle_discrete_state.zero).edge_uid = 1 := by
    simpa [single_vehicle_input, hundred_chain_graph, graph_initial_state_base.vehicle]
      using hmem
  have h0 : occupancy S.m_veh_on_edge 0 = (([0] : List Nat).countP (fun v =>
      decide ((S.m_states.getD v vehicle_discrete_state.zero).edge_uid = 0)) : Nat) :=
    hcons.2.2 0
  have h1 : occupancy S.m_veh_on_edge 1 = (([0] : List Nat).countP (fun v =>
      decide ((S.m_states.getD v vehicle_discrete_state.zero).edge_uid = 1)) : Nat) :=
    hcons.2.2 1
  rw [List.countP_cons, List.countP_nil, hedge] at h0 h1
  exact ⟨hflag, hedge, hpart, by simpa using h0, by simpa using h1⟩

theorem real_sqrt_four_hundred : Real.sqrt 400 = 20 := by
  rw [show (400 : ℝ) = 20 ^ 2 by norm_num]
  exact Real.sqrt_sq (by norm_num)

theorem single_vehicle_init :
    initialize_run (⟨2, 10, 1 / 1000, Real.sqrt⟩ : model_constants ℝ) (single_vehicle_input ℝ)
      (fresh_engine ℝ) = (0, ⟨0, [⟨0, 0, 0⟩], [0], [1, 0], [0], [2]⟩) :=
  rfl

theorem single_vehicle_check_zero :
    is_finished (⟨2, 10, 1 / 1000, Real.sqrt⟩ : model_constants ℝ) (single_vehicle_input ℝ)
      ⟨0, [⟨0, 0, 0⟩], [0], [1, 0], [0], [2]⟩ =
      (false, ⟨0, [⟨0, 0, 0⟩], [0], [1, 0], [0], [2]⟩) := by
  norm_num [is_finished, is_finished_loop, is_finish, fuzzy_eq, single_vehicle_input,
    hundred_chain_graph, graph_initial_state_base.vehicle,
    graph_initial_state_base.vehicle_count, List.range, List.range.loop,
    vehicle_discrete_state.zero, abs_lt]

theorem single_vehicle_check_one :
    is_finished (⟨2, 10, 1 / 1000, Real.sqrt⟩ : model_constants ℝ) (single_vehicle_input ℝ)
      ⟨5, [⟨0, 1 / 4, 0⟩], [0], [1, 0], [10], [0]⟩ =
      (false, ⟨5, [⟨0, 1 / 4, 0⟩], [0], [1, 0], [10], [0]⟩) := by
  norm_num [is_finished, is_finished_loop, is_finish, fuzzy_eq, single_vehicle_input,
    hundred_chain_graph, graph_initial_state_base.vehicle,
    graph_initial_state_base.vehicle_count, List.range, List.range.loop,
    vehicle_discrete_state.zero, abs_lt]

theorem single_vehicle_check_two :
    is_finished (⟨2, 10, 1 / 1000, Real.sqrt⟩ : model_constants ℝ) (single_vehicle_input ℝ)
      ⟨25 / 2, [⟨1, 0, 1⟩], [0], [0, 1], [10], [0]⟩ =
      (false, ⟨25 / 2, [⟨1, 0, 1⟩], [0], [0, 1], [10], [0]⟩) := by
  norm_num [is_finished, is_finished_loop, is_finish, fuzzy_eq, single_vehicle_input,
    hundred_chain_graph, graph_initial_state_base.vehicle,
    graph_initial_state_base.vehicle_count, List.range, List.range.loop,
    vehicle_discrete_state.zero, abs_lt]

theorem single_vehicle_step_one :
    do_step (⟨2, 10, 1 / 1000, Real.sqrt⟩ : model_constants ℝ) (single_vehicle_input ℝ)
      ⟨0, [⟨0, 0, 0⟩], [0], [1, 0], [0], [2]⟩ =
      (0, ⟨5, [⟨0, 1 / 4, 0⟩], [0], [1, 0], [10], [0]⟩) := by
  norm_num [do_step, min_critical_time, min_loop, critical_time, fuzzy_eq, recount_loop,
    advance_loop, advanced_part, velocity_loop, incr, decr, occupancy, find_critical_time,
    single_vehicle_input, hundred_chain_graph, graph_initial_state_base.vehicle_count,
    graph_initial_state_base.vehicle, List.range, choose_edge,
    List.range.loop, vehicle_discrete_state.zero, abs_lt, List.replicate,
    real_sqrt_four_hundred, Option.some_ne_none]

theorem single_vehicle_step_two :
    do_step (⟨2, 10, 1 / 1000, Real.sqrt⟩ : model_constants ℝ) (single_vehicle_input ℝ)
      ⟨5, [⟨0, 1 / 4, 0⟩], [0], [1, 0], [10], [0]⟩ =
      (0, ⟨25 / 2, [⟨1, 0, 1⟩], [0], [0, 1], [10], [0]⟩) := by
  norm_num [do_step, min_critical_time, min_loop, critical_time, fuzzy_eq, recount_loop,
    advance_loop, advanced_part, velocity_loop, incr, decr, occupancy, find_critical_time,
    single_vehicle_input, hundred_chain_graph, graph_initial_state_base.vehicle_count,
    graph_initial_state_base.vehicle, List.range, choose_edge,
    List.range.loop, vehicle_discrete_state.zero, abs_lt, List.replicate,
    Option.some_ne_none]

theorem single_vehicle_step_three :
    do_step (⟨2, 10, 1 / 1000, Real.sqrt⟩ : model_constants ℝ) (single_vehicle_input ℝ)
      ⟨25 / 2, [⟨1, 0, 1⟩], [0], [0, 1], [10], [0]⟩ =
      (0, ⟨45 / 2, [⟨1, 1, 1⟩], [0], [0, 1], [10], [0]⟩) := by
  norm_num [do_step, min_critical_time, min_loop, critical_time, fuzzy_eq, recount_loop,
    advance_loop, advanced_part, velocity_loop, incr, decr, occupancy, find_critical_time,
    single_vehicle_input, hundred_chain_graph, graph_initial_state_base.vehicle_count,
    graph_initial_state_base.vehicle, List.range, choose_edge,
    List.range.loop, vehicle_discrete_state.zero, abs_lt, List.replicate,
    Option.some_ne_none]
  rfl

theorem single_vehicle_last_check :
    is_finished (⟨2, 10, 1 / 1000, Real.sqrt⟩ : model_constants ℝ) (single_vehicle_input ℝ)
      ⟨45 / 2, [⟨1, 1, 1⟩], [0], [0, 1], [10], [0]⟩ =
      (true, ⟨45 / 2, [⟨1, 1, 1⟩], [1], [0, 1], [10], [0]⟩) := by
  norm_num [is_finished, is_finished_loop, is_finish, fuzzy_eq, single_vehicle_input,
    hundred_chain_graph, graph_initial_state_base.vehicle,
    graph_initial_state_base.vehicle_count, List.range, List.range.loop,
    vehicle_discrete_state.zero, abs_lt]

theorem single_vehicle_run_value (fuel : Nat) (h : 3 < fuel) :
    run (⟨2, 10, 1 / 1000, Real.sqrt⟩ : model_constants ℝ) (single_vehicle_input ℝ) fuel
      (fresh_engine ℝ) = some (0, ⟨45 / 2, [⟨1, 1, 1⟩], [1], [0, 1], [10], [0]⟩, 3) := by
  obtain ⟨f, rfl⟩ : ∃ f, fuel = f + 4 := ⟨fuel - 4, by omega⟩
  rw [run, single_vehicle_init]
  simp only [if_true]
  rw [run_loop, single_vehicle_check_zero, single_vehicle_step_one]
  simp only [Bool.false_eq_true, if_false]
  rw [if_pos (by decide), run_loop, single_vehicle_check_one, single_vehicle_step_two]
  simp only [Bool.false_eq_true, if_false]
  rw [if_pos (by decide), run_loop, single_vehicle_check_two, single_vehicle_step_three]
  simp only [Bool.false_eq_true, if_false]
  rw [if_pos (by decide), run_loop, single_vehicle_last_check]
  simp only [if_true]

theorem single_vehicle_stall_init :
    initialize_run (⟨1 / 1000, 10, 1 / 100, Real.sqrt⟩ : model_constants ℝ)
      (single_vehicle_input ℝ) (fresh_engine ℝ) =
      (0, ⟨0, [⟨0, 0, 0⟩], [0], [1, 0], [0], [1 / 1000]⟩) := by
  rfl

theorem single_vehicle_stall_check :
    is_finished (⟨1 / 1000, 10, 1 / 100, Real.sqrt⟩ : model_constants ℝ)
      (single_vehicle_input ℝ) ⟨0, [⟨0, 0, 0⟩], [0], [1, 0], [0], [1 / 1000]⟩ =
      (false, ⟨0, [⟨0, 0, 0⟩], [0], [1, 0], [0], [1 / 1000]⟩) := by
  norm_num [is_finished, is_finished_loop, is_finish, fuzzy_eq, single_vehicle_input,
    hundred_chain_graph, graph_initial_state_base.vehicle,
    graph_initial_state_base.vehicle_count, List.range, List.range.loop,
    vehicle_discrete_state.zero, abs_lt]

theorem single_vehicle_stall_step :
    do_step (⟨1 / 1000, 10, 1 / 100, Real.sqrt⟩ : model_constants ℝ) (single_vehicle_input ℝ)
      ⟨0, [⟨0, 0, 0⟩], [0], [1, 0], [0], [1 / 1000]⟩ =
      (0, ⟨0, [⟨0, 0, 0⟩], [0], [1, 0], [0], [1 / 1000]⟩) := by
  norm_num [do_step, min_critical_time, min_loop, critical_time, fuzzy_eq, recount_loop,
    advance_loop, advanced_part, velocity_loop, incr, decr, occupancy, find_critical_time,
    single_vehicle_input, hundred_chain_graph, graph_initial_state_base.vehicle_count,
    List.range, List.range.loop, vehicle_discrete_state.zero, abs_lt, List.replicate]

theorem single_vehicle_stall_loop :
    ∀ fuel steps : Nat,
      run_loop (⟨1 / 1000, 10, 1 / 100, Real.sqrt⟩ : model_constants ℝ)
        (single_vehicle_input ℝ) fuel steps
        ⟨0, [⟨0, 0, 0⟩], [0], [1, 0], [0], [1 / 1000]⟩ = none
  | 0, _ => rfl
  | fuel + 1, steps => by
    rw [run_loop, single_vehicle_stall_check, single_vehicle_stall_step]
    simp only [Bool.false_eq_true, if_false]
    rw [if_pos (by decide)]
    exact single_vehicle_stall_loop fuel (steps + 1)

/-- C11, counterexample: (1) in the single-vehicle scenario over the reals with
`A_MAX = 2`, `V_MAX = 10` and tolerance `1/1000`, `run` returns 0 after three steps with the
vehicle flagged, but the counter of the second edge is 1 in the final state, not 0: the
finished vehicle stays counted on its last edge. (2) With `A_MAX = 1/1000`, positive but
below the tolerance `1/100`, `run` returns for no amount of fuel. -/
theorem single_vehicle_stays_counted :
    ((0 : ℝ) < 2 ∧ (0 : ℝ) < 10 ∧
      (∀ fuel, 3 < fuel →
        run (⟨2, 10, 1 / 1000, Real.sqrt⟩ : model_constants ℝ) (single_vehicle_input ℝ) fuel
          (fresh_engine ℝ) =
            some (0, ⟨45 / 2, [⟨1, 1, 1⟩], [1], [0, 1], [10], [0]⟩, 3)) ∧
      occupancy ([0, 1] : List Int) 1 = 1) ∧
    ((0 : ℝ) < 1 / 1000 ∧ (0 : ℝ) < 10 ∧
      ∀ fuel, run (⟨1 / 1000, 10, 1 / 100, Real.sqrt⟩ : model_constants ℝ)
        (single_vehicle_input ℝ) fuel (fresh_engine ℝ) = none) := by
  refine ⟨⟨by norm_num, by norm_num, single_vehicle_run_value, rfl⟩,
    ⟨by norm_num, by norm_num, fun fuel => ?_⟩⟩
  rw [run, single_vehicle_stall_init]
  exact single_vehicle_stall_loop fuel 0

/-- C11, amended: in the single-vehicle scenario (one vehicle with the three-node path
`0 → 1 → 2`, one edge per hop, both of length 100, each edge ending at the end node of its
hop) over the reals with a positive tolerance, `A_MAX` larger than the tolerance and
`V_MAX > 0`, `run` returns 0 after at most three steps, whatever the engine state before
the call; in the final state the vehicle is marked finished and stands on the second
edge, the occupancy counter of the first edge is 0 and the counter of the second edge is
1. -/
theorem single_vehicle_scenario (c : model_constants ℝ) (hsqrt : c.sqrt = Real.sqrt)
    (hE : 0 < c.eps) (hA : c.eps < c.A_MAX) (hV : 0 < c.V_MAX)
    (s : gno_modeling_simple_acceleration ℝ) :
    ∃ k S, k ≤ 3 ∧
      (∀ fuel, k < fuel → run c (single_vehicle_input ℝ) fuel s = some (0, S, k)) ∧
      S.m_finished.getD 0 0 = 1 ∧
      (S.m_states.getD 0 vehicle_discrete_state.zero).edge_uid = 1 ∧
      occupancy S.m_veh_on_edge 0 = 0 ∧ occupancy S.m_veh_on_edge 1 = 1 := by
  obtain ⟨k, S, hk, hrun⟩ := terminates_on_connected_paths c (single_vehicle_input ℝ) s
    (real_sqrt_exact c hsqrt) hE hA hV (hundred_chain_length_pos ℝ)
    (hundred_chain_ends_at_target ℝ) (single_vehicle_connected ℝ)
  obtain ⟨h1, h2, -, h4, h5⟩ := single_vehicle_final_state c (k + 1) s S k
    (hrun (k + 1) (Nat.lt_succ_self k))
  refine ⟨k, S, ?_, hrun, h1, h2, h4, h5⟩
  have : (1 + ∑ j in Finset.range (single_vehicle_input ℝ).get_initial_state.vehicle_count,
      (((single_vehicle_input ℝ).get_initial_state.vehicle j).path.length - 1)) = 3 := by
    decide
  omega

/-- C11, instance of the amended statement: the single-vehicle scenario over the reals
with `A_MAX = 2`, `V_MAX = 10` and tolerance `1/1000`, run on a fresh engine. -/
theorem single_vehicle_scenario_witness :
    ∃ k S, k ≤ 3 ∧
      (∀ fuel, k < fuel →
        run (⟨2, 10, 1 / 1000, Real.sqrt⟩ : model_constants ℝ) (single_vehicle_input ℝ) fuel
          (fresh_engine ℝ) = some (0, S, k)) ∧
      S.m_finished.getD 0 0 = 1 ∧
      (S.m_states.getD 0 vehicle_discrete_state.zero).edge_uid = 1 ∧
      occupancy S.m_veh_on_edge 0 = 0 ∧ occupancy S.m_veh_on_edge 1 = 1 :=
  single_vehicle_scenario ⟨2, 10, 1 / 1000, Real.sqrt⟩ rfl (by norm_num) (by norm_num)
    (by norm_num) (fresh_engine ℝ)

/-! ## Steps without a division by zero -/

theorem reachable_invariants (c : model_constants α) (ini : graph_initial α)
    (s : gno_modeling_simple_acceleration α) (hsq : exact_sqrt c) (hA0 : 0 < c.A_MAX)
    (hA : c.eps < c.A_MAX) (hV : 0 < c.V_MAX) (hlen : ∀ e, 0 < ini.get_graph.length e)
    (n : Nat) (s1 : gno_modeling_simple_acceleration α)
    (h : state_after c ini s n = some s1) :
    sized ini s1 ∧ kinematic_inv c ini s1 ∧ moving c ini s1 := by
  refine state_after_induction c ini s (fun s => kinematic_inv c ini s ∧ moving c ini s)
    (fun h0 => ?_) (fun s1 hs1 hP hf h0 => ?_) n s1 h
  · have := progress_inv_init c ini s hV.le h0
    exact ⟨this.2.1, this.2.2.1⟩
  · have hs2 := is_finished_sized c ini s1 hs1
    have hK := kinematic_inv_is_finished c ini s1 hs1 hP.1
    have hM := moving_is_finished c ini s1 hs1 hP.2
    have hex := (is_finished_spec c ini s1 hs1.2.1).2.2.2.2.2.2.2.2 hf
    exact ⟨(kinematic_inv_do_step c ini _ hsq hA0 hlen hs2 hK hex).2,
      moving_do_step c ini _ hsq hA0 hV (not_fuzzy_zero_of_lt c hA) hlen hs2 hK hM hex h0⟩

/-- Under the invariants of the run no quotient of `do_step` has a zero divisor and no
square root a negative argument. -/
theorem step_defined_of_invariants (c : model_constants α) (ini : graph_initial α)
    (s : gno_modeling_simple_acceleration α) (hA0 : 0 < c.A_MAX) (hA : c.eps < c.A_MAX)
    (hlen : ∀ e, 0 < ini.get_graph.length e) (hK : kinematic_inv c ini s)
    (hM : moving c ini s) : step_defined c ini s := by
  intro v hv _
  obtain ⟨V, a, hshared, hV0, -, ha, -, hparts⟩ := hK
  obtain ⟨hVv, hav⟩ := hshared v hv
  refine ⟨ne_of_gt (hlen _), fun hz => ?_, fun hz => ?_⟩
  · rcases hM with hm | ⟨hm, -⟩
    · exact ne_of_gt (hm v hv)
    · rw [(hm v hv).2] at hz
      exact absurd hz (not_fuzzy_zero_of_lt c hA)
  · rw [hav] at hz ⊢
    rw [hVv]
    rcases ha with ha | ⟨ha, hE⟩
    · rw [ha]
      refine ⟨ne_of_gt hA0, add_nonneg (mul_self_nonneg V) (mul_nonneg
        (mul_nonneg (by norm_num) hA0.le) (mul_nonneg (hlen _).le ?_))⟩
      linarith [(hparts v hv).2]
    · rw [ha, fuzzy_eq_self c 0 hE] at hz
      exact absurd hz (by decide)

theorem step_defined_state_after (c : model_constants α) (ini : graph_initial α)
    (s : gno_modeling_simple_acceleration α) (hsq : exact_sqrt c) (hA0 : 0 < c.A_MAX)
    (hA : c.eps < c.A_MAX) (hV : 0 < c.V_MAX) (hlen : ∀ e, 0 < ini.get_graph.length e)
    (n : Nat) (s1 : gno_modeling_simple_acceleration α)
    (h : state_after c ini s n = some s1) :
    step_defined c ini (is_finished c ini s1).2 := by
  obtain ⟨hs1, hK, hM⟩ := reachable_invariants c ini s hsq hA0 hA hV hlen n s1 h
  exact step_defined_of_invariants c ini _ hA0 hA hlen
    (kinematic_inv_is_finished c ini s1 hs1 hK) (moving_is_finished c ini s1 hs1 hM)

/-- With `A_MAX = 1/1000` below the tolerance `1/100` the first step of the one-vehicle
run divides by the velocity 0. -/
theorem stall_step_undefined :
    ¬ step_defined (⟨1 / 1000, 10, 1 / 100, Real.sqrt⟩ : model_constants ℝ) (one_hop_input ℝ)
      ⟨0, [⟨0, 0, 0⟩], [0], [1, 0], [0], [1 / 1000]⟩ := by
  intro h
  exact (h 0 (by decide) (by decide)).2.1 (by norm_num [fuzzy_eq, abs_lt]) rfl

/-- C8, counterexample: with `A_MAX = 1/1000` below the tolerance `1/100` (and
`V_MAX = 10`, edge length 1) every hypothesis of the claim holds, the state after the
initialization of the one-vehicle run over the reals is reachable and `is_finished`
returns `false` on it, but the step `do_step` is to add to the clock is not defined: the
acceleration of the only vehicle is fuzzily zero, so the minimum critical time is the
quotient `dS / V` of line 125, and the velocity `V` it divides by is 0. -/
theorem first_step_divides_by_zero :
    (0 : ℝ) < 1 / 1000 ∧ (0 : ℝ) < 10 ∧
    (∀ e, 0 < (one_hop_input ℝ).get_graph.length e) ∧
    state_after (⟨1 / 1000, 10, 1 / 100, Real.sqrt⟩ : model_constants ℝ) (one_hop_input ℝ)
      (fresh_engine ℝ) 0 = some ⟨0, [⟨0, 0, 0⟩], [0], [1, 0], [0], [1 / 1000]⟩ ∧
    is_finished (⟨1 / 1000, 10, 1 / 100, Real.sqrt⟩ : model_constants ℝ) (one_hop_input ℝ)
      ⟨0, [⟨0, 0, 0⟩], [0], [1, 0], [0], [1 / 1000]⟩ =
      (false, ⟨0, [⟨0, 0, 0⟩], [0], [1, 0], [0], [1 / 1000]⟩) ∧
    fuzzy_eq (⟨1 / 1000, 10, 1 / 100, Real.sqrt⟩ : model_constants ℝ)
      ((⟨0, [⟨0, 0, 0⟩], [0], [1, 0], [0], [1 / 1000]⟩ :
        gno_modeling_simple_acceleration ℝ).m_accelerations.getD 0 0) 0 = true ∧
    (⟨0, [⟨0, 0, 0⟩], [0], [1, 0], [0], [1 / 1000]⟩ :
      gno_modeling_simple_acceleration ℝ).m_velocities.getD 0 0 = 0 ∧
    min_critical_time (⟨1 / 1000, 10, 1 / 100, Real.sqrt⟩ : model_constants ℝ)
      (one_hop_input ℝ) ⟨0, [⟨0, 0, 0⟩], [0], [1, 0], [0], [1 / 1000]⟩ =
      crit_time_zero_acc (one_hop_input ℝ) ⟨0, [⟨0, 0, 0⟩], [0], [1, 0], [0], [1 / 1000]⟩ 0 ∧
    ¬ step_defined (⟨1 / 1000, 10, 1 / 100, Real.sqrt⟩ : model_constants ℝ) (one_hop_input ℝ)
      ⟨0, [⟨0, 0, 0⟩], [0], [1, 0], [0], [1 / 1000]⟩ := by
  refine ⟨by norm_num, by norm_num, chain_graph_length_pos ℝ, ?_, stall_is_finished,
    by norm_num [fuzzy_eq, abs_lt], rfl, ?_, stall_step_undefined⟩
  · rw [state_after, stall_init]
    rfl
  · norm_num [min_critical_time, min_loop, critical_time, crit_time_zero_acc, fuzzy_eq,
      one_hop_input, chain_graph, graph_initial_state_base.vehicle_count, List.range,
      List.range.loop, vehicle_discrete_state.zero, abs_lt]

/-- C8, amended: over the reals (the constants carry the real square root), with `A_MAX`
positive and larger than the tolerance of `fuzzy_eq`, `V_MAX` positive and every edge
length positive: the clock is 0 after initialization, `is_finished` does not change it,
and every `do_step` called by the loop of `run` computes its quotients with non-zero
divisors and its square roots with non-negative arguments and adds a minimum critical
time that is not negative, so the clock after the step is at least the clock before it;
the clock never decreases from one loop head to a later one. -/
theorem clock_monotone (c : model_constants ℝ) (hsqrt : c.sqrt = Real.sqrt)
    (ini : graph_initial ℝ) (s : gno_modeling_simple_acceleration ℝ)
    (hA0 : 0 < c.A_MAX) (hA : c.eps < c.A_MAX) (hV0 : 0 < c.V_MAX)
    (hlen : ∀ e, 0 < ini.get_graph.length e) :
    (∀ s0, state_after c ini s 0 = some s0 → s0.m_t = 0) ∧
    (∀ n s1, state_after c ini s n = some s1 →
      (is_finished c ini s1).2.m_t = s1.m_t ∧
      ((is_finished c ini s1).1 = false →
        step_defined c ini (is_finished c ini s1).2 ∧
        0 ≤ min_critical_time c ini (is_finished c ini s1).2 ∧
        (do_step c ini (is_finished c ini s1).2).2.m_t =
          s1.m_t + min_critical_time c ini (is_finished c ini s1).2 ∧
        s1.m_t ≤ (do_step c ini (is_finished c ini s1).2).2.m_t)) ∧
    ∀ n m s1 s2, n ≤ m → state_after c ini s n = some s1 → state_after c ini s m = some s2 →
      s1.m_t ≤ s2.m_t := by
  have hsq := real_sqrt_exact c hsqrt
  refine ⟨?_, ?_, ?_⟩
  · intro s0 h
    rw [state_after] at h
    split_ifs at h with h0
    cases h
    rw [initialize_run_eq]
    exact (init_loop_reset_shape c ini s _).1
  · intro n s1 h
    obtain ⟨h1, h2⟩ := clock_step c ini s hsq hA0 (le_of_lt hV0) hlen n s1 h
    exact ⟨h1, fun hf =>
      ⟨step_defined_state_after c ini s hsq hA0 hA hV0 hlen n s1 h, h2 hf⟩⟩
  · intro n m s1 s2 hnm h1 h2
    obtain ⟨d, rfl⟩ : ∃ d, m = n + d := ⟨m - n, by omega⟩
    exact clock_chain c ini s hsq hA0 (le_of_lt hV0) hlen n s1 h1 d s2 h2

/-- C8, instance of the amended statement: in the run of the two-vehicle input over the
reals (acceleration 2, speed cap 2, tolerance 1/1000) the first `do_step` adds a time step
that is not negative and leaves the clock at or above its start 0. -/
theorem clock_monotone_witness :
    0 ≤ min_critical_time (⟨2, 2, 1 / 1000, Real.sqrt⟩ : model_constants ℝ)
      (two_vehicle_input ℝ)
      (is_finished ⟨2, 2, 1 / 1000, Real.sqrt⟩ (two_vehicle_input ℝ)
        ⟨0, [⟨0, 0, 0⟩, ⟨0, 0, 0⟩], [0, 0], [2, 0], [0, 0], [2, 2]⟩).2 ∧
    (0 : ℝ) ≤ (do_step (⟨2, 2, 1 / 1000, Real.sqrt⟩ : model_constants ℝ) (two_vehicle_input ℝ)
      (is_finished ⟨2, 2, 1 / 1000, Real.sqrt⟩ (two_vehicle_input ℝ)
        ⟨0, [⟨0, 0, 0⟩, ⟨0, 0, 0⟩], [0, 0], [2, 0], [0, 0], [2, 2]⟩).2).2.m_t := by
  have h := ((clock_monotone ⟨2, 2, 1 / 1000, Real.sqrt⟩ rfl (two_vehicle_input ℝ)
    (fresh_engine ℝ) (by norm_num) (by norm_num) (by norm_num)
    (chain_graph_length_pos ℝ)).2.1 0 _ two_vehicle_start).2 two_vehicle_start_unfinished
  exact ⟨h.2.1, h.2.2.2⟩

theorem zero_cap_after_one :
    state_after (⟨2, 0, 1 / 1000, Real.sqrt⟩ : model_constants ℝ) (one_hop_input ℝ)
      (fresh_engine ℝ) 1 = some ⟨0, [⟨0, 0, 0⟩], [0], [1, 0], [0], [0]⟩ := by
  have h0 : state_after (⟨2, 0, 1 / 1000, Real.sqrt⟩ : model_constants ℝ) (one_hop_input ℝ)
      (fresh_engine ℝ) 0 = some ⟨0, [⟨0, 0, 0⟩], [0], [1, 0], [0], [2]⟩ := rfl
  have h1 : is_finished (⟨2, 0, 1 / 1000, Real.sqrt⟩ : model_constants ℝ) (one_hop_input ℝ)
      ⟨0, [⟨0, 0, 0⟩], [0], [1, 0], [0], [2]⟩ =
      (false, ⟨0, [⟨0, 0, 0⟩], [0], [1, 0], [0], [2]⟩) := by
    norm_num [is_finished, is_finished_loop, is_finish, fuzzy_eq, one_hop_input,
      graph_initial_state_base.vehicle_count, List.range, List.range.loop,
      vehicle_discrete_state.zero, abs_lt]
  have h2 : do_step (⟨2, 0, 1 / 1000, Real.sqrt⟩ : model_constants ℝ) (one_hop_input ℝ)
      ⟨0, [⟨0, 0, 0⟩], [0], [1, 0], [0], [2]⟩ =
      (0, ⟨0, [⟨0, 0, 0⟩], [0], [1, 0], [0], [0]⟩) := by
    norm_num [do_step, min_critical_time, min_loop, critical_time, fuzzy_eq, recount_loop,
      advance_loop, advanced_part, velocity_loop, incr, decr, occupancy, find_critical_time,
      one_hop_input, chain_graph, graph_initial_state_base.vehicle_count,
      graph_initial_state_base.vehicle, List.range, choose_edge,
      List.range.loop, vehicle_discrete_state.zero, abs_lt, List.replicate, real_sqrt_four,
      Option.some_ne_none]
  rw [state_after, h0]
  simp only []
  rw [h1, h2]
  simp only [Bool.false_eq_true, if_false]
  rw [if_pos (by decide)]

theorem zero_cap_check :
    is_finished (⟨2, 0, 1 / 1000, Real.sqrt⟩ : model_constants ℝ) (one_hop_input ℝ)
      ⟨0, [⟨0, 0, 0⟩], [0], [1, 0], [0], [0]⟩ =
      (false, ⟨0, [⟨0, 0, 0⟩], [0], [1, 0], [0], [0]⟩) := by
  norm_num [is_finished, is_finished_loop, is_finish, fuzzy_eq, one_hop_input,
    graph_initial_state_base.vehicle_count, List.range, List.range.loop,
    vehicle_discrete_state.zero, abs_lt]

theorem zero_cap_step_undefined :
    ¬ step_defined (⟨2, 0, 1 / 1000, Real.sqrt⟩ : model_constants ℝ) (one_hop_input ℝ)
      ⟨0, [⟨0, 0, 0⟩], [0], [1, 0], [0], [0]⟩ := by
  intro h
  exact (h 0 (by decide) (by decide)).2.1 (by norm_num [fuzzy_eq, abs_lt]) rfl

theorem zero_tail_after_one :
    state_after (⟨2, 2, 1 / 1000, Real.sqrt⟩ : model_constants ℝ) (zero_tail_input ℝ)
      (fresh_engine ℝ) 1 = some ⟨1, [⟨1, 0, 1⟩], [0], [0, 1], [2], [0]⟩ := by
  have h0 : state_after (⟨2, 2, 1 / 1000, Real.sqrt⟩ : model_constants ℝ) (zero_tail_input ℝ)
      (fresh_engine ℝ) 0 = some ⟨0, [⟨0, 0, 0⟩], [0], [1, 0], [0], [2]⟩ := rfl
  have h1 : is_finished (⟨2, 2, 1 / 1000, Real.sqrt⟩ : model_constants ℝ) (zero_tail_input ℝ)
      ⟨0, [⟨0, 0, 0⟩], [0], [1, 0], [0], [2]⟩ =
      (false, ⟨0, [⟨0, 0, 0⟩], [0], [1, 0], [0], [2]⟩) := by
    norm_num [is_finished, is_finished_loop, is_finish, fuzzy_eq, zero_tail_input,
      graph_initial_state_base.vehicle_count, List.range, List.range.loop,
      vehicle_discrete_state.zero, abs_lt]
  have h2 : do_step (⟨2, 2, 1 / 1000, Real.sqrt⟩ : model_constants ℝ) (zero_tail_input ℝ)
      ⟨0, [⟨0, 0, 0⟩], [0], [1, 0], [0], [2]⟩ =
      (0, ⟨1, [⟨1, 0, 1⟩], [0], [0, 1], [2], [0]⟩) := by
    norm_num [do_step, min_critical_time, min_loop, critical_time, fuzzy_eq, recount_loop,
      advance_loop, advanced_part, velocity_loop, incr, decr, occupancy, find_critical_time,
      zero_tail_input, zero_tail_graph, graph_initial_state_base.vehicle_count,
      graph_initial_state_base.vehicle, List.range, choose_edge,
      List.range.loop, vehicle_discrete_state.zero, abs_lt, List.replicate, real_sqrt_four,
      Option.some_ne_none]
  rw [state_after, h0]
  simp only []
  rw [h1, h2]
  simp only [Bool.false_eq_true, if_false]
  rw [if_pos (by decide)]

theorem zero_tail_check :
    is_finished (⟨2, 2, 1 / 1000, Real.sqrt⟩ : model_constants ℝ) (zero_tail_input ℝ)
      ⟨1, [⟨1, 0, 1⟩], [0], [0, 1], [2], [0]⟩ =
      (false, ⟨1, [⟨1, 0, 1⟩], [0], [0, 1], [2], [0]⟩) := by
  norm_num [is_finished, is_finished_loop, is_finish, fuzzy_eq, zero_tail_input,
    graph_initial_state_base.vehicle_count, List.range, List.range.loop,
    vehicle_discrete_state.zero, abs_lt]

theorem zero_tail_step_undefined :
    ¬ step_defined (⟨2, 2, 1 / 1000, Real.sqrt⟩ : model_constants ℝ) (zero_tail_input ℝ)
      ⟨1, [⟨1, 0, 1⟩], [0], [0, 1], [2], [0]⟩ := by
  intro h
  exact (h 0 (by decide) (by decide)).1 (by simp [zero_tail_input, zero_tail_graph])

/-- C19, counterexample: three reachable states of runs over the reals on which `run`
calls `do_step` although a quotient of that step has the divisor 0, so that the common
velocity is not defined after it. (1) With `V_MAX = 0` (and `A_MAX = 2`, tolerance
`1/1000`) the first step of the one-vehicle run has length 0 and sets the acceleration to
0 at velocity 0; the next step divides by that velocity at line 125. (2) With
`A_MAX = V_MAX = 2` and a second edge of length 0, the vehicle enters that edge with
acceleration 0 in the first step; the next step divides by the edge length at line 165.
(3) With `A_MAX = 1/1000` below the tolerance `1/100` the first step divides by the
velocity 0. -/
theorem kinematics_step_divides_by_zero :
    (state_after (⟨2, 0, 1 / 1000, Real.sqrt⟩ : model_constants ℝ) (one_hop_input ℝ)
        (fresh_engine ℝ) 1 = some ⟨0, [⟨0, 0, 0⟩], [0], [1, 0], [0], [0]⟩ ∧
      is_finished (⟨2, 0, 1 / 1000, Real.sqrt⟩ : model_constants ℝ) (one_hop_input ℝ)
        ⟨0, [⟨0, 0, 0⟩], [0], [1, 0], [0], [0]⟩ =
        (false, ⟨0, [⟨0, 0, 0⟩], [0], [1, 0], [0], [0]⟩) ∧
      ¬ step_defined (⟨2, 0, 1 / 1000, Real.sqrt⟩ : model_constants ℝ) (one_hop_input ℝ)
        ⟨0, [⟨0, 0, 0⟩], [0], [1, 0], [0], [0]⟩) ∧
    (state_after (⟨2, 2, 1 / 1000, Real.sqrt⟩ : model_constants ℝ) (zero_tail_input ℝ)
        (fresh_engine ℝ) 1 = some ⟨1, [⟨1, 0, 1⟩], [0], [0, 1], [2], [0]⟩ ∧
      is_finished (⟨2, 2, 1 / 1000, Real.sqrt⟩ : model_constants ℝ) (zero_tail_input ℝ)
        ⟨1, [⟨1, 0, 1⟩], [0], [0, 1], [2], [0]⟩ =
        (false, ⟨1, [⟨1, 0, 1⟩], [0], [0, 1], [2], [0]⟩) ∧
      (zero_tail_input ℝ).get_graph.length 1 = 0 ∧
      ¬ step_defined (⟨2, 2, 1 / 1000, Real.sqrt⟩ : model_constants ℝ) (zero_tail_input ℝ)
        ⟨1, [⟨1, 0, 1⟩], [0], [0, 1], [2], [0]⟩) ∧
    (state_after (⟨1 / 1000, 10, 1 / 100, Real.sqrt⟩ : model_constants ℝ) (one_hop_input ℝ)
        (fresh_engine ℝ) 0 = some ⟨0, [⟨0, 0, 0⟩], [0], [1, 0], [0], [1 / 1000]⟩ ∧
      is_finished (⟨1 / 1000, 10, 1 / 100, Real.sqrt⟩ : model_constants ℝ) (one_hop_input ℝ)
        ⟨0, [⟨0, 0, 0⟩], [0], [1, 0], [0], [1 / 1000]⟩ =
        (false, ⟨0, [⟨0, 0, 0⟩], [0], [1, 0], [0], [1 / 1000]⟩) ∧
      ¬ step_defined (⟨1 / 1000, 10, 1 / 100, Real.sqrt⟩ : model_constants ℝ)
        (one_hop_input ℝ) ⟨0, [⟨0, 0, 0⟩], [0], [1, 0], [0], [1 / 1000]⟩) := by
  refine ⟨⟨zero_cap_after_one, zero_cap_check, zero_cap_step_undefined⟩,
    ⟨zero_tail_after_one, zero_tail_check, by simp [zero_tail_input, zero_tail_graph],
      zero_tail_step_undefined⟩,
    ⟨?_, stall_is_finished, stall_step_undefined⟩⟩
  rw [state_after, stall_init]
  rfl

/-- C19, amended: over the reals (the constants carry the real square root), with `A_MAX`
positive and larger than the tolerance of `fuzzy_eq`, `V_MAX` positive and every edge
length positive, in every state reached by `run` after a successful initialization (the
loop head after any number of steps, and the state a further `do_step` returns,
successful or not) all vehicles, finished or not, have one common velocity and one
common acceleration, and that acceleration is `A_MAX` or `0`; every vehicle starts at
velocity 0 and acceleration `A_MAX`; every step computes its quotients with non-zero
divisors and its square roots with non-negative arguments; and once the acceleration of
a vehicle is `0`, the next `do_step` and every later state of the run keep its
acceleration at `0` and its velocity unchanged. -/
theorem shared_velocity_and_acceleration (c : model_constants ℝ)
    (hsqrt : c.sqrt = Real.sqrt) (ini : graph_initial ℝ)
    (s : gno_modeling_simple_acceleration ℝ) (hA0 : 0 < c.A_MAX) (hA : c.eps < c.A_MAX)
    (hV0 : 0 < c.V_MAX) (hlen : ∀ e, 0 < ini.get_graph.length e) (n : Nat)
    (s1 : gno_modeling_simple_acceleration ℝ) (h : state_after c ini s n = some s1) :
    (∀ v, v < ini.get_initial_state.vehicle_count →
      (initialize_run c ini s).2.m_velocities.getD v 0 = 0 ∧
      (initialize_run c ini s).2.m_accelerations.getD v 0 = c.A_MAX) ∧
    (∃ V a : ℝ,
      (∀ v, v < ini.get_initial_state.vehicle_count →
        s1.m_velocities.getD v 0 = V ∧ s1.m_accelerations.getD v 0 = a) ∧
      (a = c.A_MAX ∨ a = 0)) ∧
    step_defined c ini (is_finished c ini s1).2 ∧
    (∃ V a : ℝ,
      (∀ v, v < ini.get_initial_state.vehicle_count →
        (do_step c ini (is_finished c ini s1).2).2.m_velocities.getD v 0 = V ∧
        (do_step c ini (is_finished c ini s1).2).2.m_accelerations.getD v 0 = a) ∧
      (a = c.A_MAX ∨ a = 0)) ∧
    ∀ v, v < ini.get_initial_state.vehicle_count → s1.m_accelerations.getD v 0 = 0 →
      ((do_step c ini (is_finished c ini s1).2).2.m_velocities.getD v 0 =
          s1.m_velocities.getD v 0 ∧
        (do_step c ini (is_finished c ini s1).2).2.m_accelerations.getD v 0 = 0) ∧
      ∀ d s2, state_after c ini s (n + d) = some s2 →
        step_defined c ini (is_finished c ini s2).2 ∧
        s2.m_velocities.getD v 0 = s1.m_velocities.getD v 0 ∧
        s2.m_accelerations.getD v 0 = 0 := by
  have hsq := real_sqrt_exact c hsqrt
  have hs1 := state_after_sized c ini s n s1 h
  have hsh := shared_kinematics_state_after c ini s n s1 h
  obtain ⟨hvel, hacc, -⟩ := is_finished_kinematics c ini s1 hs1
  have hsh2 : shared_kinematics c ini (is_finished c ini s1).2 := by
    obtain ⟨V, a, hall, ha⟩ := hsh
    exact ⟨V, a, fun v hv => by rw [hvel, hacc]; exact hall v hv, ha⟩
  refine ⟨initialize_run_kinematics c ini s, hsh,
    step_defined_state_after c ini s hsq hA0 hA hV0 hlen n s1 h,
    shared_kinematics_do_step c ini _ (is_finished_sized c ini s1 hs1) hsh2,
    fun v hv ha => ⟨?_, fun d s2 h2 =>
      ⟨step_defined_state_after c ini s hsq hA0 hA hV0 hlen (n + d) s2 h2,
        zero_acceleration_state_after c ini s n s1 h v hv ha d s2 h2⟩⟩⟩
  have := zero_acceleration_do_step c ini _ (is_finished_sized c ini s1 hs1) v hv
    (by rw [hacc]; exact ha)
  rw [hvel] at this
  exact this

/-- C19, instance of the amended statement: after the first step of the two-vehicle run
over the reals (acceleration 2, speed cap 2, tolerance 1/1000) both vehicles have
velocity 2 and acceleration 0, and the next `do_step` keeps the velocity and the
acceleration of vehicle 1. -/
theorem shared_velocity_and_acceleration_witness :
    (∃ V a : ℝ,
      (∀ v, v < 2 → ([2, 2] : List ℝ).getD v 0 = V ∧ ([0, 0] : List ℝ).getD v 0 = a) ∧
      (a = 2 ∨ a = 0)) ∧
    (do_step (⟨2, 2, 1 / 1000, Real.sqrt⟩ : model_constants ℝ) (two_vehicle_input ℝ)
      (is_finished ⟨2, 2, 1 / 1000, Real.sqrt⟩ (two_vehicle_input ℝ)
        ⟨1, [⟨0, 1, 0⟩, ⟨1, 0, 1⟩], [0, 0], [1, 1], [2, 2], [0, 0]⟩).2).2.m_velocities.getD 1 0
      = 2 ∧
    (do_step (⟨2, 2, 1 / 1000, Real.sqrt⟩ : model_constants ℝ) (two_vehicle_input ℝ)
      (is_finished ⟨2, 2, 1 / 1000, Real.sqrt⟩ (two_vehicle_input ℝ)
        ⟨1, [⟨0, 1, 0⟩, ⟨1, 0, 1⟩], [0, 0], [1, 1], [2, 2],
          [0, 0]⟩).2).2.m_accelerations.getD 1 0 = 0 :=
  ⟨(shared_velocity_and_acceleration ⟨2, 2, 1 / 1000, Real.sqrt⟩ rfl (two_vehicle_input ℝ)
      (fresh_engine ℝ) (by norm_num) (by norm_num) (by norm_num) (chain_graph_length_pos ℝ)
      1 _ two_vehicle_after_one).2.1,
    ((shared_velocity_and_acceleration ⟨2, 2, 1 / 1000, Real.sqrt⟩ rfl (two_vehicle_input ℝ)
      (fresh_engine ℝ) (by norm_num) (by norm_num) (by norm_num) (chain_graph_length_pos ℝ)
      1 _ two_vehicle_after_one).2.2.2.2 1 (by decide) rfl).1⟩

end engine

end graph
